import Mathlib

/-!
# Kernel thread scheduler (`src/kern/thread.c`)

A shallow embedding of the thread manager: the thread table, the ready list,
condition variables, the scheduler pass `suspend_self`, the thread life cycle
and `thread_fork_to_user`.

Conventions of the embedding.

* Thread records live in a memory `mem : Ptr → thread`; a `Ptr` is `NULL`, the
  address of one of the two static records, or a heap address returned by
  `kmalloc`.  A load or store through `NULL` is the error `Err.null_deref`.
* `assert` and `panic` end the run with an error; `halt_success` ends it with
  `Err.halted`.
* Thread lists are the C `{head, tail}` pairs linked through `list_next`.
* The result of an external allocator or memory call is an argument of the
  operation that makes the call; calls whose effect lies outside the thread
  manager are recorded in `KState.calls`.
* `trace`/`debug` output and interrupt masking are not modelled: the model is
  one hart with no interrupt service routine interleaved.
* An operation that reaches `suspend_self` yields the state after the scheduler
  pass; the code that the suspended caller runs when it is scheduled again is a
  separate definition (`thread_join_loop`, `thread_join_any_resume`).
* The `context` member of a thread record is kept in `KState.context`: it tells
  whether a switch to the thread lands at its start function or after the call
  of `_thread_swtch` in `suspend_self`.  Only in the second case does the
  resumed thread run the rest of `suspend_self`.
* `thread_join` indexes the thread table with its argument before it tests the
  range; an index outside `0 .. NTHR-1` is the error `Err.out_of_bounds`.
-/

namespace Thread

/-! ## Data model -/

/-- Address of a thread record. -/
inductive Ptr where
  | NULL
  | main_thread
  | idle_thread
  | heap (addr : Nat)
  deriving DecidableEq, Repr

/-- Address of a condition variable: the `child_exit` member of a thread record,
or a condition object that lives elsewhere. -/
inductive cond_ptr where
  | NULL
  | child_exit (thr : Ptr)
  | obj (addr : Nat)
  deriving DecidableEq, Repr

inductive thread_state where
  | THREAD_UNINITIALIZED
  | THREAD_STOPPED
  | THREAD_WAITING
  | THREAD_RUNNING
  | THREAD_READY
  | THREAD_EXITED
  deriving DecidableEq, Repr

structure thread_list where
  head : Ptr
  tail : Ptr
  deriving DecidableEq, Repr

structure condition where
  name : String
  wait_list : thread_list
  deriving DecidableEq, Repr

/-- The record `struct thread` without its register context. -/
structure thread where
  name : String
  stack_base : Int
  stack_size : Int
  state : thread_state
  id : Int
  proc : Nat
  parent : Ptr
  list_next : Ptr
  wait_cond : cond_ptr
  child_exit : condition
  deriving DecidableEq, Repr

/-- The `context` member of `struct thread`, as far as the thread manager
depends on it: where the thread goes on when a context switch resumes it.
`_thread_setup` points it at the start function; `_thread_swtch` saves in it
the place of its own call in `suspend_self`. -/
inductive thread_context where
  | unset
  | at_start (start arg : Nat)
  | in_swtch
  deriving DecidableEq, Repr

/-- The two members of `struct process` that the thread manager touches. -/
structure process where
  mtag : Nat
  tid : Int
  deriving DecidableEq, Repr

/-- Ways in which a run ends without returning. -/
inductive Err where
  | too_many_threads
  | childless_thread
  | spurious_child_exit
  | thread_exit_failed
  | assert_failed
  | null_deref
  | halted
  | out_of_fuel
  | out_of_bounds
  deriving DecidableEq, Repr

/-- Calls into collaborators whose effect lies outside the thread manager. -/
inductive ext_call where
  | kfree (p : Ptr)
  | memory_free_page (addr : Int)
  | memory_space_switch (mtag : Nat)
  | memory_space_clone (asid : Nat)
  | thread_setup (thr : Ptr) (sp : Int) (start : Nat) (arg : Nat)
  | kprintf
  deriving DecidableEq, Repr

/-- Constants the thread manager takes from other modules. -/
structure Platform where
  PAGE_SIZE : Int
  ANCHOR_SIZE : Int
  main_stack_anchor : Int
  main_stack_lowest : Int
  idle_stack_anchor : Int
  idle_stack_lowest : Int
  fast16_bits : Nat

def NTHR : Int := 16

def MAIN_TID : Int := 0

def IDLE_TID : Int := NTHR - 1

def SATP_ASID_MASK : Nat := 0xFFFF0000000000

/-- Global state of the thread manager. -/
structure KState where
  thrtab : Int → Ptr
  mem : Ptr → thread
  conds : Nat → condition
  procs : Nat → process
  anchors : Int → Ptr
  ready_list : thread_list
  CURTHR : Ptr
  thrmgr_initialized : Bool
  calls : List ext_call
  context : Ptr → thread_context

/-- What an operation hands back to its caller: a return value, or nothing yet
because the caller was suspended inside the operation. -/
inductive ret where
  | returned (v : Int)
  | blocked
  deriving DecidableEq, Repr

/-! ## Memory helpers -/

def set_list_next (mem : Ptr → thread) (p : Ptr) (v : Ptr) : Ptr → thread :=
  Function.update mem p { mem p with list_next := v }

def set_thread_state (mem : Ptr → thread) (p : Ptr) (v : thread_state) : Ptr → thread :=
  Function.update mem p { mem p with state := v }

def set_wait_cond (mem : Ptr → thread) (p : Ptr) (v : cond_ptr) : Ptr → thread :=
  Function.update mem p { mem p with wait_cond := v }

def set_parent (mem : Ptr → thread) (p : Ptr) (v : Ptr) : Ptr → thread :=
  Function.update mem p { mem p with parent := v }

/-- Load of `cond->wait_list`. -/
def get_wait_list (s : KState) : cond_ptr → Except Err thread_list
  | cond_ptr.NULL => .error Err.null_deref
  | cond_ptr.child_exit t =>
      if t = Ptr.NULL then .error Err.null_deref else .ok (s.mem t).child_exit.wait_list
  | cond_ptr.obj a => .ok (s.conds a).wait_list

/-- Store to `cond->wait_list`. -/
def set_wait_list (s : KState) (c : cond_ptr) (l : thread_list) : Except Err KState :=
  match c with
  | cond_ptr.NULL => .error Err.null_deref
  | cond_ptr.child_exit t =>
      if t = Ptr.NULL then .error Err.null_deref else
      let c : condition := { name := (s.mem t).child_exit.name, wait_list := l }
      .ok { s with mem := Function.update s.mem t { s.mem t with child_exit := c } }
  | cond_ptr.obj a =>
      .ok { s with conds := Function.update s.conds a { s.conds a with wait_list := l } }

/-! ## Thread lists -/

def tlclear (_list : thread_list) : thread_list :=
  { head := Ptr.NULL, tail := Ptr.NULL }

def tlempty (list : thread_list) : Bool :=
  decide (list.head = Ptr.NULL)

def tlinsert (mem : Ptr → thread) (list : thread_list) (thr : Ptr) :
    Except Err ((Ptr → thread) × thread_list) :=
  -- thr->list_next = NULL;
  if thr = Ptr.NULL then .error Err.null_deref else
  let mem1 := set_list_next mem thr Ptr.NULL
  if thr = Ptr.NULL then .ok (mem1, list) else
  if list.tail ≠ Ptr.NULL then
    if list.head = Ptr.NULL then .error Err.assert_failed else
    .ok (set_list_next mem1 list.tail thr, { list with tail := thr })
  else
    if list.head ≠ Ptr.NULL then .error Err.assert_failed else
    .ok (mem1, { head := thr, tail := thr })

def tlremove (mem : Ptr → thread) (list : thread_list) :
    (Ptr → thread) × thread_list × Ptr :=
  let thr := list.head
  if thr = Ptr.NULL then (mem, list, Ptr.NULL) else
  let list1 : thread_list := { list with head := (mem thr).list_next }
  let mem1 := if list1.head ≠ Ptr.NULL then set_list_next mem thr Ptr.NULL else mem
  let list2 : thread_list := if list1.head ≠ Ptr.NULL then list1 else { list1 with tail := Ptr.NULL }
  (set_list_next mem1 thr Ptr.NULL, list2, thr)

/-- Appends `l1` to `l0` and clears `l1`; the result is `(mem, l0, l1)`. -/
def tlappend (mem : Ptr → thread) (l0 l1 : thread_list) :
    Except Err ((Ptr → thread) × thread_list × thread_list) :=
  if l0.head ≠ Ptr.NULL then
    if l0.tail = Ptr.NULL then .error Err.assert_failed else
    if l1.head ≠ Ptr.NULL then
      if l1.tail = Ptr.NULL then .error Err.assert_failed else
      .ok (set_list_next mem l0.tail l1.head, { l0 with tail := l1.tail },
            { head := Ptr.NULL, tail := Ptr.NULL })
    else
      .ok (mem, l0, { head := Ptr.NULL, tail := Ptr.NULL })
  else
    if l0.tail ≠ Ptr.NULL then .error Err.assert_failed else
    .ok (mem, { head := l1.head, tail := l1.tail }, { head := Ptr.NULL, tail := Ptr.NULL })

/-! ## Scheduler core -/

/-- Modelled from the spec: the context switch of `thrasm.s`, which is not part
of the sources at hand.  It saves the context of the running thread, whose
saved place is now the call of `_thread_swtch`, installs `resuming_thread` in
the current-thread register and returns the thread that was running before. -/
def _thread_swtch (s : KState) (resuming_thread : Ptr) : KState × Ptr :=
  ({ s with CURTHR := resuming_thread,
            context := Function.update s.context s.CURTHR thread_context.in_swtch },
   s.CURTHR)

/-- Modelled from the spec: the stack set-up routine of `thrasm.s`; it prepares
the context of `thr` so that the first switch to it lands at `start(arg)`.  The
call is recorded as well. -/
def _thread_setup (s : KState) (thr : Ptr) (sp : Int) (start arg : Nat) : KState :=
  { s with calls := s.calls ++ [ext_call.thread_setup thr sp start arg],
           context := Function.update s.context thr (thread_context.at_start start arg) }

/-- One scheduler pass: the part of `suspend_self` that the suspending thread
runs up to `_thread_swtch`, the switch, and the part after the switch.  That
part is run by the resumed thread, with `prev_thread` bound to the suspended
one, when the resumed thread had itself been suspended in `suspend_self`; a
thread that runs for the first time starts at its start function and runs no
part of `suspend_self`. -/
def suspend_self (P : Platform) (s : KState) : Except Err KState :=
  if tlempty s.ready_list then .error Err.assert_failed else
  let susp_thread := s.CURTHR
  let r := tlremove s.mem s.ready_list
  let next_thread := r.2.2
  if next_thread = Ptr.NULL then .error Err.null_deref else
  if (r.1 next_thread).state ≠ thread_state.THREAD_READY then .error Err.assert_failed else
  let mem2 := set_thread_state r.1 next_thread thread_state.THREAD_RUNNING
  if susp_thread = Ptr.NULL then .error Err.null_deref else
  match (if (mem2 susp_thread).state = thread_state.THREAD_RUNNING then
           tlinsert (set_thread_state mem2 susp_thread thread_state.THREAD_READY) r.2.1 susp_thread
         else .ok (mem2, r.2.1)) with
  | .error e => .error e
  | .ok (mem3, rl) =>
    let calls1 :=
      if (mem3 next_thread).proc ≠ 0 then
        s.calls ++ [ext_call.memory_space_switch (s.procs (mem3 next_thread).proc).mtag]
      else s.calls
    let sw := _thread_swtch { s with mem := mem3, ready_list := rl, calls := calls1 } next_thread
    let s1 := sw.1
    let prev_thread := sw.2
    if s.context next_thread ≠ thread_context.in_swtch then .ok s1 else
    if (s1.mem prev_thread).state = thread_state.THREAD_EXITED then
      .ok { s1 with
            mem := Function.update s1.mem prev_thread
              { s1.mem prev_thread with stack_base := 0, stack_size := 0 },
            calls := s1.calls ++
              [ext_call.memory_free_page ((s1.mem prev_thread).stack_base - P.PAGE_SIZE)] }
    else .ok s1

/-! ## Thread table -/

/-- The slot search of `thread_spawn`: `while (++tid < NTHR) if (thrtab[tid] == NULL) break;`. -/
def spawn_scan (thrtab : Int → Ptr) : Nat → Int → Int
  | 0, tid => tid
  | fuel + 1, tid =>
    if tid + 1 < NTHR then
      if thrtab (tid + 1) = Ptr.NULL then tid + 1 else spawn_scan thrtab fuel (tid + 1)
    else tid + 1

/-- The operation `thread_spawn`; `child` is what `kmalloc` returned and
`stack_page` what `memory_alloc_page` returned. -/
def thread_spawn (P : Platform) (s : KState) (name : String) (start arg : Nat)
    (child : Ptr) (stack_page : Int) : Except Err (KState × Int) :=
  let tid := spawn_scan s.thrtab NTHR.toNat 0
  if tid = NTHR then .error Err.too_many_threads else
  let stack_anchor := stack_page + P.PAGE_SIZE - P.ANCHOR_SIZE
  let anchors1 := Function.update s.anchors stack_anchor child
  let thrtab1 := Function.update s.thrtab tid child
  if child = Ptr.NULL then .error Err.null_deref else
  if s.CURTHR = Ptr.NULL then .error Err.null_deref else
  let mem1 := Function.update s.mem child { s.mem child with id := tid }
  let mem2 := Function.update mem1 child { mem1 child with name := name }
  let mem3 := Function.update mem2 child { mem2 child with parent := s.CURTHR }
  let mem4 := Function.update mem3 child { mem3 child with proc := (mem3 s.CURTHR).proc }
  let mem5 := Function.update mem4 child { mem4 child with stack_base := stack_anchor }
  let mem6 := Function.update mem5 child
    { mem5 child with stack_size := (mem5 child).stack_base - stack_page }
  let mem7 := set_thread_state mem6 child thread_state.THREAD_READY
  match tlinsert mem7 s.ready_list child with
  | .error e => .error e
  | .ok (mem8, rl) =>
    let s1 : KState := { s with thrtab := thrtab1, anchors := anchors1, mem := mem8, ready_list := rl }
    .ok (_thread_setup s1 child (mem8 child).stack_base start arg, tid)

/-- The reparenting loop of `recycle_thread`, from `ctid` upwards. -/
def recycle_loop (thrtab : Int → Ptr) (thr : Ptr) : Nat → Int → (Ptr → thread) → (Ptr → thread)
  | 0, _, mem => mem
  | fuel + 1, ctid, mem =>
    if ctid < NTHR then
      if thrtab ctid ≠ Ptr.NULL ∧ (mem (thrtab ctid)).parent = thr then
        recycle_loop thrtab thr fuel (ctid + 1) (set_parent mem (thrtab ctid) (mem thr).parent)
      else recycle_loop thrtab thr fuel (ctid + 1) mem
    else mem

def recycle_thread (s : KState) (tid : Int) : Except Err KState :=
  let thr := s.thrtab tid
  if ¬ (0 < tid ∧ tid < NTHR ∧ thr ≠ Ptr.NULL) then .error Err.assert_failed else
  if (s.mem thr).state ≠ thread_state.THREAD_EXITED then .error Err.assert_failed else
  let mem1 := recycle_loop s.thrtab thr NTHR.toNat 1 s.mem
  .ok { s with mem := mem1, thrtab := Function.update s.thrtab tid Ptr.NULL,
               calls := s.calls ++ [ext_call.kfree thr] }

/-! ## Condition variables -/

def condition_init (s : KState) (cond : cond_ptr) (name : String) : Except Err KState :=
  match cond with
  | cond_ptr.NULL => .error Err.null_deref
  | cond_ptr.child_exit t =>
      if t = Ptr.NULL then .error Err.null_deref else
      let c : condition := { name := name, wait_list := tlclear (s.mem t).child_exit.wait_list }
      .ok { s with mem := Function.update s.mem t { s.mem t with child_exit := c } }
  | cond_ptr.obj a =>
      let c : condition := { name := name, wait_list := tlclear (s.conds a).wait_list }
      .ok { s with conds := Function.update s.conds a c }

def condition_wait (P : Platform) (s : KState) (cond : cond_ptr) : Except Err KState :=
  if s.CURTHR = Ptr.NULL then .error Err.null_deref else
  if (s.mem s.CURTHR).state ≠ thread_state.THREAD_RUNNING then .error Err.assert_failed else
  let mem1 := set_thread_state s.mem s.CURTHR thread_state.THREAD_WAITING
  let mem2 := set_wait_cond mem1 s.CURTHR cond
  let mem3 := set_list_next mem2 s.CURTHR Ptr.NULL
  let s1 : KState := { s with mem := mem3 }
  match get_wait_list s1 cond with
  | .error e => .error e
  | .ok wl =>
    match tlinsert s1.mem wl s1.CURTHR with
    | .error e => .error e
    | .ok (mem4, wl1) =>
      match set_wait_list { s1 with mem := mem4 } cond wl1 with
      | .error e => .error e
      | .ok s2 => suspend_self P s2

/-- The loop of `condition_broadcast` over the wait list, from `thr` on. -/
def broadcast_walk (cond : cond_ptr) : Nat → (Ptr → thread) → Ptr → Except Err (Ptr → thread)
  | 0, mem, thr => if thr = Ptr.NULL then .ok mem else .error Err.out_of_fuel
  | fuel + 1, mem, thr =>
    if thr = Ptr.NULL then .ok mem else
    if (mem thr).state ≠ thread_state.THREAD_WAITING then .error Err.assert_failed else
    if (mem thr).wait_cond ≠ cond then .error Err.assert_failed else
    let mem1 := set_thread_state mem thr thread_state.THREAD_READY
    let mem2 := set_wait_cond mem1 thr cond_ptr.NULL
    broadcast_walk cond fuel mem2 (mem2 thr).list_next

/-- The operation `condition_broadcast`; `fuel` bounds the number of waiters the
loop may visit. -/
def condition_broadcast (fuel : Nat) (s : KState) (cond : cond_ptr) : Except Err KState :=
  match get_wait_list s cond with
  | .error e => .error e
  | .ok wl =>
    if tlempty wl then .ok s else
    match broadcast_walk cond fuel s.mem wl.head with
    | .error e => .error e
    | .ok mem1 =>
      let s1 : KState := { s with mem := mem1 }
      match get_wait_list s1 cond with
      | .error e => .error e
      | .ok wl1 =>
        match tlappend s1.mem s1.ready_list wl1 with
        | .error e => .error e
        | .ok (mem2, rl, wl2) =>
          match set_wait_list { s1 with mem := mem2, ready_list := rl } cond wl2 with
          | .error e => .error e
          | .ok s2 => set_wait_list s2 cond (tlclear wl2)

/-! ## Yield, exit, join -/

def thread_yield (P : Platform) (s : KState) : Except Err KState :=
  if s.CURTHR = Ptr.NULL then .error Err.null_deref else
  if (s.mem s.CURTHR).state ≠ thread_state.THREAD_RUNNING then .error Err.assert_failed else
  suspend_self P s

/-- The operation `thread_exit` up to and including its scheduler pass; should
the exited thread ever be resumed, it panics (`Err.thread_exit_failed`). -/
def thread_exit (P : Platform) (fuel : Nat) (s : KState) : Except Err KState :=
  if s.CURTHR = Ptr.main_thread then .error Err.halted else
  if s.CURTHR = Ptr.NULL then .error Err.null_deref else
  let s1 : KState :=
    { s with mem := set_thread_state s.mem s.CURTHR thread_state.THREAD_EXITED }
  if (s1.mem s1.CURTHR).parent = Ptr.NULL then .error Err.assert_failed else
  match condition_broadcast fuel s1 (cond_ptr.child_exit (s1.mem s1.CURTHR).parent) with
  | .error e => .error e
  | .ok s2 => suspend_self P s2

/-- The loop of `thread_join` and what follows it.  A caller that was suspended
in `condition_wait` re-enters here when it is scheduled again. -/
def thread_join_loop (P : Platform) (s : KState) (child : Ptr) (tid : Int) :
    Except Err (KState × ret) :=
  if (s.mem child).state ≠ thread_state.THREAD_EXITED then
    match condition_wait P s (cond_ptr.child_exit s.CURTHR) with
    | .error e => .error e
    | .ok s1 => .ok (s1, ret.blocked)
  else
    match recycle_thread s tid with
    | .error e => .error e
    | .ok s1 => .ok (s1, ret.returned tid)

/-- The operation `thread_join`.  The source loads `thrtab[tid]` before the range
test: for a `tid` outside `0 .. NTHR-1` the load is a read outside the array
`thrtab`, which ends the run with `Err.out_of_bounds`. -/
def thread_join (P : Platform) (s : KState) (tid : Int) : Except Err (KState × ret) :=
  -- struct thread * const child = thrtab[tid];
  if tid < 0 ∨ NTHR ≤ tid then .error Err.out_of_bounds else
  let child := s.thrtab tid
  if tid ≤ 0 ∨ NTHR ≤ tid then .ok (s, ret.returned (-1)) else
  if child = Ptr.NULL ∨ (s.mem child).parent ≠ s.CURTHR then .ok (s, ret.returned (-1)) else
  thread_join_loop P s child tid

/-- The first loop of `thread_join_any` from `tid` on: `Sum.inl tid` when it
finds an exited child, otherwise `Sum.inr childcnt`. -/
def join_any_scan (s : KState) : Nat → Int → Int → Sum Int Int
  | 0, _, childcnt => Sum.inr childcnt
  | fuel + 1, tid, childcnt =>
    if tid < NTHR then
      if s.thrtab tid ≠ Ptr.NULL ∧ (s.mem (s.thrtab tid)).parent = s.CURTHR then
        if (s.mem (s.thrtab tid)).state = thread_state.THREAD_EXITED then Sum.inl tid
        else join_any_scan s fuel (tid + 1) (childcnt + 1)
      else join_any_scan s fuel (tid + 1) childcnt
    else Sum.inr childcnt

/-- The second loop of `thread_join_any` from `tid` on: the exited child it finds. -/
def join_any_rescan (s : KState) : Nat → Int → Option Int
  | 0, _ => none
  | fuel + 1, tid =>
    if tid < NTHR then
      if s.thrtab tid ≠ Ptr.NULL ∧ (s.mem (s.thrtab tid)).parent = s.CURTHR ∧
          (s.mem (s.thrtab tid)).state = thread_state.THREAD_EXITED then some tid
      else join_any_rescan s fuel (tid + 1)
    else none

/-- What `thread_join_any` does after `condition_wait` has returned. -/
def thread_join_any_resume (s : KState) : Except Err (KState × ret) :=
  match join_any_rescan s NTHR.toNat 1 with
  | some tid =>
    match recycle_thread s tid with
    | .error e => .error e
    | .ok s1 => .ok (s1, ret.returned tid)
  | none => .error Err.spurious_child_exit

def thread_join_any (P : Platform) (s : KState) : Except Err (KState × ret) :=
  match join_any_scan s NTHR.toNat 1 0 with
  | Sum.inl tid => thread_join P s tid
  | Sum.inr childcnt =>
    if childcnt = 0 then .error Err.childless_thread else
    match condition_wait P s (cond_ptr.child_exit s.CURTHR) with
    | .error e => .error e
    | .ok s1 => .ok (s1, ret.blocked)

def thread_set_process (s : KState) (tid : Int) (proc : Nat) : Except Err KState :=
  if ¬ (0 ≤ tid ∨ tid < NTHR) then .error Err.assert_failed else
  if s.thrtab tid = Ptr.NULL then .error Err.assert_failed else
  let thr := s.thrtab tid
  .ok { s with mem := Function.update s.mem thr { s.mem thr with proc := proc } }

/-! ## Fork to user -/

/-- Results of the external calls that `thread_fork_to_user` makes, and the
addresses it passes on to `thread_spawn`. -/
structure fork_ext where
  clone_ret : Nat
  kmalloc_ret : Ptr
  page_ret : Int
  switch_ret : Nat
  finish_fork : Nat
  arg : Nat

/-- Conversion of an unsigned value to a signed integer type of `w` bits. -/
def to_signed (w : Nat) (v : Nat) : Int :=
  if v % 2 ^ w < 2 ^ (w - 1) then ((v % 2 ^ w : Nat) : Int) else ((v % 2 ^ w : Nat) : Int) - 2 ^ w

/-- The expression `(int_fast16_t) (mtag & SATP_ASID_MASK) >> 44`, stored in a
`uint_fast16_t`; both types are `w` bits wide. -/
def child_proc_asid (w : Nat) (mtag : Nat) : Nat :=
  ((to_signed w ((mtag % 2 ^ 64) &&& SATP_ASID_MASK) / 2 ^ 44) % 2 ^ w).toNat

def thread_fork_to_user (P : Platform) (s : KState) (child_proc parent_tfr : Nat)
    (x : fork_ext) : Except Err (KState × Int) :=
  if child_proc = 0 ∨ parent_tfr = 0 then .ok (s, -1) else
  let asid := child_proc_asid P.fast16_bits (s.procs child_proc).mtag
  let s1 : KState := { s with calls := s.calls ++ [ext_call.memory_space_clone asid] }
  let child_mtag := x.clone_ret
  if child_mtag = 0 then .ok (s1, -2) else
  let procs1 := Function.update s1.procs child_proc { s1.procs child_proc with mtag := child_mtag }
  let s2 : KState := { s1 with procs := procs1 }
  match thread_spawn P s2 "child_thread" x.finish_fork x.arg x.kmalloc_ret x.page_ret with
  | .error e => .error e
  | .ok (s3, child_tid) =>
    if child_tid < 0 then .ok (s3, -3) else
    let child_thread := s3.thrtab child_tid
    if child_thread = Ptr.NULL then .error Err.null_deref else
    let child_stack_anchor := (s3.mem child_thread).stack_base
    let s4 : KState :=
      { s3 with anchors := Function.update s3.anchors child_stack_anchor child_thread }
    if child_thread = Ptr.NULL then .ok (s4, -4) else
    match thread_set_process s4 child_tid child_proc with
    | .error e => .error e
    | .ok s5 =>
      let s6 : KState := { s5 with calls := s5.calls ++ [ext_call.memory_space_switch child_mtag] }
      if x.switch_ret = 0 then
        .ok ({ s6 with calls := s6.calls ++ [ext_call.kprintf] }, -5)
      else
        let p := (s6.mem child_thread).proc
        if p = 0 then .error Err.null_deref else
        let tid := (s6.procs child_proc).tid
        .ok ({ s6 with procs := Function.update s6.procs p { s6.procs p with tid := tid } }, 0)

/-! ## Initial state -/

def zero_thread : thread :=
  { name := "", stack_base := 0, stack_size := 0,
    state := thread_state.THREAD_UNINITIALIZED, id := 0, proc := 0,
    parent := Ptr.NULL, list_next := Ptr.NULL, wait_cond := cond_ptr.NULL,
    child_exit := { name := "", wait_list := { head := Ptr.NULL, tail := Ptr.NULL } } }

/-- The initialiser of `main_thread`. -/
def main_thread : thread :=
  { zero_thread with
    name := "main", id := MAIN_TID, state := thread_state.THREAD_RUNNING,
    child_exit := { name := "main.child_exit", wait_list := { head := Ptr.NULL, tail := Ptr.NULL } } }

/-- The initialiser of `idle_thread`. -/
def idle_thread : thread :=
  { zero_thread with
    name := "idle", id := IDLE_TID, state := thread_state.THREAD_READY,
    parent := Ptr.main_thread }

/-- The initialiser of `thrtab`. -/
def thrtab : Int → Ptr :=
  fun i => if i = MAIN_TID then Ptr.main_thread else if i = IDLE_TID then Ptr.idle_thread else Ptr.NULL

/-- The state the statically initialised objects give at boot: every other
object is zero. -/
def boot : KState :=
  { thrtab := thrtab,
    mem := fun p =>
      match p with
      | Ptr.main_thread => main_thread
      | Ptr.idle_thread => idle_thread
      | _ => zero_thread,
    conds := fun _ => { name := "", wait_list := { head := Ptr.NULL, tail := Ptr.NULL } },
    procs := fun _ => { mtag := 0, tid := 0 },
    anchors := fun _ => Ptr.NULL,
    ready_list := { head := Ptr.NULL, tail := Ptr.NULL },
    CURTHR := Ptr.NULL,
    thrmgr_initialized := false,
    calls := [],
    context := fun _ => thread_context.unset }

def init_main_thread (P : Platform) (s : KState) : KState :=
  let mem1 := Function.update s.mem Ptr.main_thread
    { s.mem Ptr.main_thread with stack_base := P.main_stack_anchor }
  let mem2 := Function.update mem1 Ptr.main_thread
    { mem1 Ptr.main_thread with stack_size := P.main_stack_anchor - P.main_stack_lowest }
  { s with mem := mem2 }

/-- The function `init_idle_thread`; `idle_func` is the address of `idle_thread_func`. -/
def init_idle_thread (P : Platform) (idle_func : Nat) (s : KState) : Except Err KState :=
  let mem1 := Function.update s.mem Ptr.idle_thread
    { s.mem Ptr.idle_thread with stack_base := P.idle_stack_anchor }
  let mem2 := Function.update mem1 Ptr.idle_thread
    { mem1 Ptr.idle_thread with stack_size := P.idle_stack_anchor - P.idle_stack_lowest }
  let s1 := _thread_setup { s with mem := mem2 } Ptr.idle_thread P.idle_stack_anchor idle_func 0
  match tlinsert s1.mem s1.ready_list Ptr.idle_thread with
  | .error e => .error e
  | .ok (mem3, rl) => .ok { s1 with mem := mem3, ready_list := rl }

def set_running_thread (s : KState) (thr : Ptr) : KState :=
  { s with CURTHR := thr }

def thread_init (P : Platform) (idle_func : Nat) (s : KState) : Except Err KState :=
  match init_idle_thread P idle_func (init_main_thread P s) with
  | .error e => .error e
  | .ok s1 => .ok { set_running_thread s1 Ptr.main_thread with thrmgr_initialized := true }

/-! ## Reading a thread list as a sequence -/

/-- The nodes reached from `p` through `list_next` are exactly `ts`, and the
last of them has a null `list_next`. -/
def chain (mem : Ptr → thread) : Ptr → List Ptr → Prop
  | p, [] => p = Ptr.NULL
  | p, t :: r => p = t ∧ t ≠ Ptr.NULL ∧ chain mem (mem t).list_next r

def last_or_null : List Ptr → Ptr
  | [] => Ptr.NULL
  | [t] => t
  | _ :: t :: r => last_or_null (t :: r)

/-- The thread list `l` is well formed and holds the threads `ts` in this order. -/
def is_list (mem : Ptr → thread) (l : thread_list) (ts : List Ptr) : Prop :=
  chain mem l.head ts ∧ l.tail = last_or_null ts ∧ ts.Nodup

instance chain_decidable (mem : Ptr → thread) : (p : Ptr) → (ts : List Ptr) → Decidable (chain mem p ts)
  | p, [] => inferInstanceAs (Decidable (p = Ptr.NULL))
  | p, t :: r =>
    have := chain_decidable mem (mem t).list_next r
    inferInstanceAs (Decidable (p = t ∧ t ≠ Ptr.NULL ∧ chain mem (mem t).list_next r))

instance is_list_decidable (mem : Ptr → thread) (l : thread_list) (ts : List Ptr) :
    Decidable (is_list mem l ts) :=
  inferInstanceAs (Decidable (chain mem l.head ts ∧ l.tail = last_or_null ts ∧ ts.Nodup))

/-- A thread record with its list linkage blanked out. -/
def strip (t : thread) : thread := { t with list_next := Ptr.NULL }

/-- The two memories agree except possibly in `list_next` members. -/
def same_but_next (mem mem1 : Ptr → thread) : Prop :=
  ∀ p, strip (mem1 p) = strip (mem p)

/-! ## Sequences of operations used in the statements -/

/-- Arguments of one `thread_spawn` call, with the results of its allocations. -/
structure spawn_args where
  name : String
  start : Nat
  arg : Nat
  child : Ptr
  stack_page : Int

/-- Consecutive `thread_spawn` calls by the current thread; the thread ids they
return, in order. -/
def spawn_seq (P : Platform) : KState → List spawn_args → Except Err (KState × List Int)
  | s, [] => .ok (s, [])
  | s, a :: rest =>
    match thread_spawn P s a.name a.start a.arg a.child a.stack_page with
    | .error e => .error e
    | .ok (s1, tid) =>
      match spawn_seq P s1 rest with
      | .error e => .error e
      | .ok (s2, tids) => .ok (s2, tid :: tids)

/-- Slots `1 .. k` are taken, slots `k+1 .. NTHR-2` are free, IDLE is in place
and `thread_spawn` can run. -/
def slots_upto (s : KState) (k : Int) : Prop :=
  (∀ i, 0 < i → i ≤ k → s.thrtab i ≠ Ptr.NULL) ∧
  (∀ i, k < i → i < NTHR - 1 → s.thrtab i = Ptr.NULL) ∧
  s.thrtab (NTHR - 1) ≠ Ptr.NULL ∧ s.CURTHR ≠ Ptr.NULL ∧
  (s.ready_list.head = Ptr.NULL ↔ s.ready_list.tail = Ptr.NULL)

/-! ## Concrete inputs -/

def demo_platform : Platform :=
  { PAGE_SIZE := 4096, ANCHOR_SIZE := 16,
    main_stack_anchor := 0x80100000, main_stack_lowest := 0x800ff000,
    idle_stack_anchor := 0x80102000, idle_stack_lowest := 0x80101000,
    fast16_bits := 64 }

/-- The state right after `thread_init`. -/
def started : KState :=
  match thread_init demo_platform 0 boot with
  | .ok s => s
  | .error _ => boot

/-- The thread memory at the point where `thread_spawn` has filled in the record
of `child` and is about to insert it into the ready list. -/
def spawn_mem (P : Platform) (s : KState) (name : String) (child : Ptr) (stack_page : Int)
    (tid : Int) : Ptr → thread :=
  Function.update s.mem child
    { s.mem child with
      id := tid, name := name, parent := s.CURTHR, proc := (s.mem s.CURTHR).proc,
      stack_base := stack_page + P.PAGE_SIZE - P.ANCHOR_SIZE,
      stack_size := stack_page + P.PAGE_SIZE - P.ANCHOR_SIZE - stack_page,
      state := thread_state.THREAD_READY }

/-- The thread `p` sits in one of the slots `1 .. c-1` and has parent `T`. -/
def child_below (tab : Int → Ptr) (mem : Ptr → thread) (T : Ptr) (c : Int) (p : Ptr) : Prop :=
  p ≠ Ptr.NULL ∧ (mem p).parent = T ∧ ∃ i, 1 ≤ i ∧ i < c ∧ tab i = p

/-- Slot `tid` holds a child of the current thread that has exited. -/
def exited_child (s : KState) (tid : Int) : Prop :=
  s.thrtab tid ≠ Ptr.NULL ∧ (s.mem (s.thrtab tid)).parent = s.CURTHR ∧
    (s.mem (s.thrtab tid)).state = thread_state.THREAD_EXITED

/-- The state of a run, or the boot state when the run ended in an error. -/
def state_of (x : Except Err KState) : KState :=
  match x with
  | .ok s => s
  | .error _ => boot

/-- MAIN spawns T1 and yields, IDLE yields, T1 exits: T1 sits in slot 1 as an
exited child of MAIN, and MAIN is running again. -/
def with_exited_child : KState :=
  state_of (do
    let r1 ← thread_spawn demo_platform started "t1" 0 0 (Ptr.heap 1) 0x80200000
    let s2 ← thread_yield demo_platform r1.1
    let s3 ← thread_yield demo_platform s2
    thread_exit demo_platform 16 s3)

/-- The run "MAIN spawns T1; T1 spawns T2; T1 exits; MAIN joins T1": MAIN blocks
in `thread_join`, IDLE yields to T1, T1 spawns T2 and exits, IDLE yields to T2,
T2 yields to MAIN, and MAIN finishes its `thread_join`. -/
def reparent_scenario : Except Err (KState × ret) := do
  let r1 ← thread_spawn demo_platform started "t1" 0 0 (Ptr.heap 1) 0x80200000
  let r2 ← thread_join demo_platform r1.1 1
  let s3 ← thread_yield demo_platform r2.1
  let r4 ← thread_spawn demo_platform s3 "t2" 0 0 (Ptr.heap 2) 0x80201000
  let s5 ← thread_exit demo_platform 16 r4.1
  let s6 ← thread_yield demo_platform s5
  let s7 ← thread_yield demo_platform s6
  thread_join_loop demo_platform s7 (Ptr.heap 1) 1

/-- The condition pointer can be dereferenced. -/
def valid_cond : cond_ptr → Prop
  | cond_ptr.NULL => False
  | cond_ptr.child_exit t => t ≠ Ptr.NULL
  | cond_ptr.obj _ => True

/-- A thread record with its `child_exit` member blanked out. -/
def blank_child_exit (t : thread) : thread :=
  { t with child_exit := { name := "", wait_list := { head := Ptr.NULL, tail := Ptr.NULL } } }

/-- The two memories agree except possibly in `child_exit` members. -/
def same_but_child_exit (mem mem1 : Ptr → thread) : Prop :=
  ∀ p, blank_child_exit (mem1 p) = blank_child_exit (mem p)

/-- A scheduler configuration: `c` is the current thread and RUNNING, and the
ready list holds the threads `ts`, all READY, in this order. -/
def sched (s : KState) (c : Ptr) (ts : List Ptr) : Prop :=
  s.CURTHR = c ∧ c ≠ Ptr.NULL ∧ is_list s.mem s.ready_list ts ∧ c ∉ ts ∧
    (s.mem c).state = thread_state.THREAD_RUNNING ∧
    ∀ t ∈ ts, (s.mem t).state = thread_state.THREAD_READY

/-- The state after `n` calls of `thread_yield`, each by the thread that is
current at the time. -/
def yields (P : Platform) : Nat → KState → Except Err KState
  | 0, s => .ok s
  | n + 1, s =>
    match thread_yield P s with
    | .error e => .error e
    | .ok s1 => yields P n s1

/-- The threads that get the CPU, in order, during `n` calls of `thread_yield`. -/
def yield_trace (P : Platform) : Nat → KState → Except Err (List Ptr)
  | 0, _ => .ok []
  | n + 1, s =>
    match thread_yield P s with
    | .error e => .error e
    | .ok s1 =>
      match yield_trace P n s1 with
      | .error e => .error e
      | .ok tr => .ok (s1.CURTHR :: tr)

/-- MAIN spawns T1 and blocks in `thread_join`: IDLE is running, T1 is ready
and MAIN waits on its own `child_exit` condition. -/
def with_waiter : KState :=
  state_of (do
    let r1 ← thread_spawn demo_platform started "t1" 0 0 (Ptr.heap 1) 0x80200000
    let r2 ← thread_join demo_platform r1.1 1
    pure r2.1)

/-- MAIN has spawned T1: MAIN is running, IDLE and T1 are ready. -/
def with_child : KState :=
  state_of (do
    let r1 ← thread_spawn demo_platform started "t1" 0 0 (Ptr.heap 1) 0x80200000
    pure r1.1)

/-- Fourteen `thread_spawn` argument records with distinct heap records. -/
def fourteen_spawns : List spawn_args :=
  (List.range 14).map (fun k =>
    { name := "t", start := 0, arg := 0, child := Ptr.heap (k + 1),
      stack_page := 0x80200000 + 4096 * (k : Int) })

/-- The state after fourteen spawns by MAIN: every slot of the table is taken. -/
def full_table : KState :=
  state_of (do
    let r ← spawn_seq demo_platform started fourteen_spawns
    pure r.1)

/-- External results for a `thread_fork_to_user` call in which every external
call succeeds. -/
def demo_fork_ext : fork_ext :=
  { clone_ret := 0x8000100000080000, kmalloc_ret := Ptr.heap 20, page_ret := 0x80300000,
    switch_ret := 1, finish_fork := 0, arg := 0 }

/-- The state after `thread_init` with a process descriptor at address 1 whose
mtag carries the ASID 0x1000 (bit 56 of the satp value) and whose tid is 7. -/
def with_proc : KState :=
  { started with procs := fun _ => { mtag := 2 ^ 56, tid := 7 } }

/-- Consecutive `tlinsert` calls on one list. -/
def tlinsert_seq (mem : Ptr → thread) (l : thread_list) :
    List Ptr → Except Err ((Ptr → thread) × thread_list)
  | [] => .ok (mem, l)
  | x :: xs =>
    match tlinsert mem l x with
    | .error e => .error e
    | .ok (mem1, l1) => tlinsert_seq mem1 l1 xs

/-- The result of `n` consecutive `tlremove` calls on one list, with the threads
they returned, in order. -/
def tlremove_seq : Nat → (Ptr → thread) → thread_list → (Ptr → thread) × thread_list × List Ptr
  | 0, mem, l => (mem, l, [])
  | n + 1, mem, l =>
    let r := tlremove mem l
    let r2 := tlremove_seq n r.1 r.2.1
    (r2.1, r2.2.1, r.2.2 :: r2.2.2)

/-- The pointer `p` is a thread of the table `tab`. -/
def in_table (tab : Int → Ptr) (p : Ptr) : Prop :=
  p ≠ Ptr.NULL ∧ ∃ i, 0 ≤ i ∧ i < NTHR ∧ tab i = p

/-- A call a thread body makes. -/
inductive action where
  | spawn (a : spawn_args)
  | yield
  | exit
  | join (tid : Int)
  | join_any
  | cond_init (c : cond_ptr) (name : String)
  | wait (c : cond_ptr)
  | broadcast (c : cond_ptr)

/-- The call in which a suspended thread resumes. -/
inductive pending where
  | nothing
  | in_join (child : Ptr) (tid : Int)
  | in_join_any
  | in_exit
  deriving DecidableEq, Repr

structure machine where
  k : KState
  prog : Ptr → List action
  pend : Ptr → pending
  cpu : List Ptr
  rets : List (Ptr × Int)

/-- The machine after a call that returned to its caller. -/
def machine.returned (m : machine) (k1 : KState) (v : Option Int) : machine :=
  { m with k := k1,
           pend := Function.update m.pend m.k.CURTHR pending.nothing,
           rets := match v with
             | some x => m.rets ++ [(m.k.CURTHR, x)]
             | none => m.rets }

/-- The machine after a call that ended in a scheduler pass, the caller to
resume at `q`. -/
def machine.switched (m : machine) (k1 : KState) (q : pending) : machine :=
  { m with k := k1, pend := Function.update m.pend m.k.CURTHR q, cpu := m.cpu ++ [k1.CURTHR] }

def machine.after (m : machine) (r : KState × ret) (q : pending) : machine :=
  match r.2 with
  | ret.returned v => m.returned r.1 (some v)
  | ret.blocked => m.switched r.1 q

/-- One call of the current thread; `none` when the run is over: the body of the
current thread has ended, or the idle thread waits for an interrupt. -/
def machine.step (P : Platform) (m : machine) : Except Err (Option machine) :=
  let c := m.k.CURTHR
  match m.pend c with
  | pending.in_exit => .error Err.thread_exit_failed
  | pending.in_join child tid =>
    match thread_join_loop P m.k child tid with
    | .error e => .error e
    | .ok r => .ok (some (m.after r (pending.in_join child tid)))
  | pending.in_join_any =>
    match thread_join_any_resume m.k with
    | .error e => .error e
    | .ok r => .ok (some (m.after r pending.in_join_any))
  | pending.nothing =>
    if c = Ptr.idle_thread then
      if tlempty m.k.ready_list then .ok none else
      match thread_yield P m.k with
      | .error e => .error e
      | .ok k1 => .ok (some (m.switched k1 pending.nothing))
    else
      match m.prog c with
      | [] => .ok none
      | a :: rest =>
        let m1 : machine := { m with prog := Function.update m.prog c rest }
        match a with
        | action.spawn x =>
          match thread_spawn P m.k x.name x.start x.arg x.child x.stack_page with
          | .error e => .error e
          | .ok r => .ok (some (m1.returned r.1 none))
        | action.yield =>
          match thread_yield P m.k with
          | .error e => .error e
          | .ok k1 => .ok (some (m1.switched k1 pending.nothing))
        | action.exit =>
          match thread_exit P NTHR.toNat m.k with
          | .error e => .error e
          | .ok k1 => .ok (some (m1.switched k1 pending.in_exit))
        | action.join tid =>
          match thread_join P m.k tid with
          | .error e => .error e
          | .ok r => .ok (some (m1.after r (pending.in_join (m.k.thrtab tid) tid)))
        | action.join_any =>
          match thread_join_any P m.k with
          | .error e => .error e
          | .ok r => .ok (some (m1.after r pending.in_join_any))
        | action.cond_init cnd name =>
          match condition_init m.k cnd name with
          | .error e => .error e
          | .ok k1 => .ok (some (m1.returned k1 none))
        | action.wait cnd =>
          match condition_wait P m.k cnd with
          | .error e => .error e
          | .ok k1 => .ok (some (m1.switched k1 pending.nothing))
        | action.broadcast cnd =>
          match condition_broadcast NTHR.toNat m.k cnd with
          | .error e => .error e
          | .ok k1 => .ok (some (m1.returned k1 none))

/-- At most `n` calls; the flag tells whether the run came to its end. -/
def machine.run (P : Platform) : Nat → machine → Except Err (machine × Bool)
  | 0, m => .ok (m, false)
  | n + 1, m =>
    match m.step P with
    | .error e => .error e
    | .ok none => .ok (m, true)
    | .ok (some m1) => machine.run P n m1

/-- The machine right after `thread_init`, with the bodies `prog`. -/
def machine.boot (prog : Ptr → List action) : machine :=
  { k := started, prog := prog, pend := fun _ => pending.nothing, cpu := [Ptr.main_thread],
    rets := [] }

/-- The bodies of the two-producers scenario: MAIN spawns T1 and T2 and calls
`thread_join_any` twice; T1 and T2 yield three times and exit. -/
def two_producers : Ptr → List action
  | Ptr.main_thread =>
    [action.spawn { name := "t1", start := 0, arg := 0, child := Ptr.heap 1,
                    stack_page := 0x80200000 },
     action.spawn { name := "t2", start := 0, arg := 0, child := Ptr.heap 2,
                    stack_page := 0x80201000 },
     action.join_any, action.join_any]
  | Ptr.heap _ => [action.yield, action.yield, action.yield, action.exit]
  | _ => []

/-- The bodies of the condition-wakeup scenario: MAIN initialises C, spawns T1,
broadcasts on C and joins T1; T1 waits on C and exits. -/
def condition_wakeup : Ptr → List action
  | Ptr.main_thread =>
    [action.cond_init (cond_ptr.obj 0) "C",
     action.spawn { name := "t1", start := 0, arg := 0, child := Ptr.heap 1,
                    stack_page := 0x80200000 },
     action.broadcast (cond_ptr.obj 0), action.join 1]
  | Ptr.heap _ => [action.wait (cond_ptr.obj 0), action.exit]
  | _ => []

/-- The condition-wakeup scenario with a `thread_yield` of MAIN before the
broadcast, so that T1 is waiting on C when the broadcast is made. -/
def condition_wakeup_after_yield : Ptr → List action
  | Ptr.main_thread =>
    [action.cond_init (cond_ptr.obj 0) "C",
     action.spawn { name := "t1", start := 0, arg := 0, child := Ptr.heap 1,
                    stack_page := 0x80200000 },
     action.yield, action.broadcast (cond_ptr.obj 0), action.join 1]
  | Ptr.heap _ => [action.wait (cond_ptr.obj 0), action.exit]
  | _ => []

/-! ## Reachable states and the scheduler invariant -/

/-- One call of the current thread into the thread manager that comes back
with a state: an operation that returns, or an operation up to and including
the scheduler pass in which its caller is suspended.  `join_resume` and
`join_any_resume` are the code a caller of `thread_join` or `thread_join_any`
runs when it is scheduled again.  The record `kmalloc` hands to `thread_spawn`
is one that is not in the thread table. -/
inductive step (P : Platform) : KState → KState → Prop
  | spawn (s s1 : KState) (name : String) (start arg : Nat) (child : Ptr) (stack_page : Int)
      (tid : Int) (hfresh : ¬ in_table s.thrtab child)
      (h : thread_spawn P s name start arg child stack_page = .ok (s1, tid)) : step P s s1
  | yield (s s1 : KState) (h : thread_yield P s = .ok s1) : step P s s1
  | exit (s s1 : KState) (fuel : Nat) (h : thread_exit P fuel s = .ok s1) : step P s s1
  | join (s s1 : KState) (tid : Int) (r : ret) (h : thread_join P s tid = .ok (s1, r)) :
      step P s s1
  | join_resume (s s1 : KState) (child : Ptr) (tid : Int) (r : ret)
      (h : thread_join_loop P s child tid = .ok (s1, r)) : step P s s1
  | join_any (s s1 : KState) (r : ret) (h : thread_join_any P s = .ok (s1, r)) : step P s s1
  | join_any_resume (s s1 : KState) (r : ret) (h : thread_join_any_resume s = .ok (s1, r)) :
      step P s s1
  | wait (s s1 : KState) (c : cond_ptr) (h : condition_wait P s c = .ok s1) : step P s s1
  | broadcast (s s1 : KState) (fuel : Nat) (c : cond_ptr)
      (h : condition_broadcast fuel s c = .ok s1) : step P s s1
  | cond_init (s s1 : KState) (c : cond_ptr) (name : String)
      (h : condition_init s c name = .ok s1) : step P s s1

theorem NTHR_eq : NTHR = 16 := rfl

theorem strip_state {a b : thread} (h : strip a = strip b) : a.state = b.state :=
  (congrArg thread.state h : (strip a).state = (strip b).state)

theorem strip_wait_cond {a b : thread} (h : strip a = strip b) : a.wait_cond = b.wait_cond :=
  (congrArg thread.wait_cond h : (strip a).wait_cond = (strip b).wait_cond)

theorem strip_parent {a b : thread} (h : strip a = strip b) : a.parent = b.parent :=
  (congrArg thread.parent h : (strip a).parent = (strip b).parent)

theorem strip_proc {a b : thread} (h : strip a = strip b) : a.proc = b.proc :=
  (congrArg thread.proc h : (strip a).proc = (strip b).proc)

theorem strip_child_exit {a b : thread} (h : strip a = strip b) : a.child_exit = b.child_exit :=
  (congrArg thread.child_exit h : (strip a).child_exit = (strip b).child_exit)

theorem strip_stack_base {a b : thread} (h : strip a = strip b) : a.stack_base = b.stack_base :=
  (congrArg thread.stack_base h : (strip a).stack_base = (strip b).stack_base)

theorem same_but_next_refl (mem : Ptr → thread) : same_but_next mem mem := fun _ => rfl

theorem same_but_next_trans {m1 m2 m3 : Ptr → thread} (h1 : same_but_next m1 m2)
    (h2 : same_but_next m2 m3) : same_but_next m1 m3 := fun p => (h2 p).trans (h1 p)

theorem same_but_next_set (mem : Ptr → thread) (p v : Ptr) :
    same_but_next mem (set_list_next mem p v) := by
  intro q
  by_cases h : q = p
  · subst h; simp [set_list_next, strip]
  · simp [set_list_next, Function.update_noteq h]

theorem set_list_next_other (mem : Ptr → thread) {p q : Ptr} (v : Ptr) (h : q ≠ p) :
    set_list_next mem p v q = mem q := by
  simp [set_list_next, Function.update_noteq h]

theorem set_list_next_self (mem : Ptr → thread) (p v : Ptr) :
    (set_list_next mem p v p).list_next = v := by
  simp [set_list_next]

theorem chain_congr {mem mem1 : Ptr → thread} {ts : List Ptr}
    (h : ∀ t ∈ ts, (mem1 t).list_next = (mem t).list_next) :
    ∀ {p : Ptr}, chain mem p ts → chain mem1 p ts := by
  induction ts with
  | nil => intro p hp; exact hp
  | cons t r ih =>
    intro p hp
    obtain ⟨h1, h2, h3⟩ := hp
    refine ⟨h1, h2, ?_⟩
    rw [h t (List.mem_cons_self t r)]
    exact ih (fun u hu => h u (List.mem_cons_of_mem t hu)) h3

theorem chain_ne_null {mem : Ptr → thread} {ts : List Ptr} :
    ∀ {p : Ptr}, chain mem p ts → ∀ t ∈ ts, t ≠ Ptr.NULL := by
  induction ts with
  | nil => intro p _ t ht; cases ht
  | cons a r ih =>
    intro p hp t ht
    obtain ⟨_, h2, h3⟩ := hp
    rcases List.mem_cons.mp ht with h | h
    · subst h; exact h2
    · exact ih h3 t h

theorem chain_head_null_iff {mem : Ptr → thread} {ts : List Ptr} {p : Ptr}
    (h : chain mem p ts) : p = Ptr.NULL ↔ ts = [] := by
  cases ts with
  | nil => simpa using h
  | cons a r =>
    obtain ⟨h1, h2, _⟩ := h
    simp [h1, h2]

theorem last_or_null_concat (xs : List Ptr) (a : Ptr) : last_or_null (xs ++ [a]) = a := by
  induction xs with
  | nil => rfl
  | cons x r ih =>
    cases r with
    | nil => rfl
    | cons y r1 => simpa [last_or_null] using ih

theorem last_or_null_append (xs : List Ptr) {ys : List Ptr} (h : ys ≠ []) :
    last_or_null (xs ++ ys) = last_or_null ys := by
  rcases List.eq_nil_or_concat ys with h1 | ⟨L, b, h1⟩
  · exact absurd h1 h
  · subst h1
    rw [List.concat_eq_append, ← List.append_assoc, last_or_null_concat, last_or_null_concat]

theorem last_or_null_mem {ts : List Ptr} (h : ts ≠ []) : last_or_null ts ∈ ts := by
  rcases List.eq_nil_or_concat ts with h1 | ⟨L, b, h1⟩
  · exact absurd h1 h
  · subst h1
    rw [List.concat_eq_append, last_or_null_concat]; simp

theorem last_or_null_cons {t : Ptr} {r : List Ptr} (h : r ≠ []) :
    last_or_null (t :: r) = last_or_null r := by
  cases r with
  | nil => exact absurd rfl h
  | cons a r1 => rfl

/-- Linking the last node of one chain to the head of another. -/
theorem chain_append {mem : Ptr → thread} {q a : Ptr} {ys : List Ptr}
    (hq : chain mem q ys) (hay : a ∉ ys) :
    ∀ (xs : List Ptr) {p : Ptr}, chain mem p (xs ++ [a]) → (xs ++ [a]).Nodup →
      (∀ x ∈ xs, x ∉ ys) → chain (set_list_next mem a q) p (xs ++ [a] ++ ys) := by
  intro xs
  induction xs with
  | nil =>
    intro p hp _ _
    obtain ⟨h1, h2, _⟩ := hp
    refine ⟨h1, h2, ?_⟩
    rw [set_list_next_self]
    exact chain_congr (fun t ht => by
      rw [set_list_next_other]; intro h; exact hay (h ▸ ht)) hq
  | cons x r ih =>
    intro p hp hnd hdis
    obtain ⟨h1, h2, h3⟩ := hp
    have hxa : x ≠ a := by
      intro h
      have := (List.nodup_cons.mp hnd).1
      exact this (by simp [h])
    refine ⟨h1, h2, ?_⟩
    rw [set_list_next_other mem q hxa]
    exact ih h3 (List.nodup_cons.mp hnd).2 (fun y hy => hdis y (List.mem_cons_of_mem x hy))

theorem is_list_nil_iff {mem : Ptr → thread} {l : thread_list} {ts : List Ptr}
    (h : is_list mem l ts) : l.head = Ptr.NULL ↔ ts = [] :=
  chain_head_null_iff h.1

theorem is_list_tail_null_iff {mem : Ptr → thread} {l : thread_list} {ts : List Ptr}
    (h : is_list mem l ts) : l.tail = Ptr.NULL ↔ ts = [] := by
  constructor
  · intro ht
    by_contra hne
    have := chain_ne_null h.1 _ (last_or_null_mem hne)
    exact this (h.2.1 ▸ ht)
  · intro hts; subst hts; exact h.2.1

theorem is_list_congr {mem mem1 : Ptr → thread} {l : thread_list} {ts : List Ptr}
    (h : is_list mem l ts) (hm : ∀ t ∈ ts, (mem1 t).list_next = (mem t).list_next) :
    is_list mem1 l ts :=
  ⟨chain_congr hm h.1, h.2.1, h.2.2⟩

theorem tlinsert_is_list {mem : Ptr → thread} {l : thread_list} {ts : List Ptr} {thr : Ptr}
    (h : is_list mem l ts) (hthr : thr ≠ Ptr.NULL) (hni : thr ∉ ts) :
    ∃ mem1 l1, tlinsert mem l thr = .ok (mem1, l1) ∧ is_list mem1 l1 (ts ++ [thr]) ∧
      same_but_next mem mem1 ∧ (∀ p, p ≠ thr → (ts = [] ∨ p ≠ l.tail) → mem1 p = mem p) := by
  rcases List.eq_nil_or_concat ts with hts | ⟨xs, a, hts⟩
  · subst hts
    have hh : l.head = Ptr.NULL := (is_list_nil_iff h).mpr rfl
    have ht : l.tail = Ptr.NULL := (is_list_tail_null_iff h).mpr rfl
    refine ⟨set_list_next mem thr Ptr.NULL, { head := thr, tail := thr }, ?_, ?_, ?_, ?_⟩
    · simp [tlinsert, hthr, hh, ht]
    · refine ⟨⟨rfl, hthr, ?_⟩, rfl, by simp⟩
      rw [set_list_next_self]; rfl
    · exact same_but_next_set mem thr Ptr.NULL
    · intro p hp _; exact set_list_next_other mem Ptr.NULL hp
  · rw [List.concat_eq_append] at hts
    subst hts
    have hne : xs ++ [a] ≠ [] := by simp
    have hh : l.head ≠ Ptr.NULL := fun e => hne ((is_list_nil_iff h).mp e)
    have hta : l.tail = a := by rw [h.2.1, last_or_null_concat]
    have ha : a ≠ Ptr.NULL := chain_ne_null h.1 a (by simp)
    have hat : a ≠ thr := by
      intro e; apply hni; rw [← e]; simp
    refine ⟨set_list_next (set_list_next mem thr Ptr.NULL) a thr, { l with tail := thr }, ?_, ?_, ?_, ?_⟩
    · simp [tlinsert, hthr, hh, hta, ha]
    · refine ⟨?_, ?_, ?_⟩
      · have hc1 : chain (set_list_next mem thr Ptr.NULL) l.head (xs ++ [a]) :=
          chain_congr (fun t ht => by
            rw [set_list_next_other]; intro e; exact hni (e ▸ ht)) h.1
        have hq : chain (set_list_next mem thr Ptr.NULL) thr [thr] := by
          refine ⟨rfl, hthr, ?_⟩
          rw [set_list_next_self]; rfl
        have := chain_append hq (by simpa using hat) xs hc1 h.2.2
          (fun x hx => by
            simp only [List.mem_singleton]
            intro e; apply hni; rw [← e]; simp [hx])
        simpa using this
      · show thr = last_or_null (xs ++ [a] ++ [thr])
        rw [last_or_null_concat]
      · rw [List.nodup_append]
        refine ⟨h.2.2, by simp, ?_⟩
        intro x hx hx1
        simp only [List.mem_singleton] at hx1
        exact hni (hx1 ▸ hx)
    · exact same_but_next_trans (same_but_next_set mem thr Ptr.NULL) (same_but_next_set _ a thr)
    · intro p hp hp1
      have hp2 : p ≠ a := by
        rcases hp1 with hp1 | hp1
        · exact absurd hp1 hne
        · rw [hta] at hp1; exact hp1
      rw [set_list_next_other _ _ hp2, set_list_next_other _ _ hp]

theorem tlremove_is_list {mem : Ptr → thread} {l : thread_list} {t : Ptr} {r : List Ptr}
    (h : is_list mem l (t :: r)) :
    ∃ mem1 l1, tlremove mem l = (mem1, l1, t) ∧ is_list mem1 l1 r ∧
      same_but_next mem mem1 ∧ (∀ p, p ≠ t → mem1 p = mem p) := by
  obtain ⟨⟨hh, htn, hc⟩, htl, hnd⟩ := h
  have htr : t ∉ r := (List.nodup_cons.mp hnd).1
  have hndr : r.Nodup := (List.nodup_cons.mp hnd).2
  have hhn : l.head ≠ Ptr.NULL := hh ▸ htn
  by_cases hr : r = []
  · subst hr
    have hnx : (mem t).list_next = Ptr.NULL := hc
    refine ⟨set_list_next mem t Ptr.NULL, { head := Ptr.NULL, tail := Ptr.NULL }, ?_, ?_, ?_, ?_⟩
    · simp [tlremove, hh, htn, hnx]
    · exact ⟨rfl, rfl, List.nodup_nil⟩
    · exact same_but_next_set mem t Ptr.NULL
    · intro p hp; exact set_list_next_other mem Ptr.NULL hp
  · have hnx : (mem t).list_next ≠ Ptr.NULL := by
      intro e; exact hr ((chain_head_null_iff hc).mp e)
    refine ⟨set_list_next (set_list_next mem t Ptr.NULL) t Ptr.NULL,
      { head := (mem t).list_next, tail := l.tail }, ?_, ?_, ?_, ?_⟩
    · simp [tlremove, hh, htn, hnx]
    · refine ⟨?_, ?_, hndr⟩
      · exact chain_congr (fun u hu => by
          have hut : u ≠ t := fun e => htr (e ▸ hu)
          rw [set_list_next_other _ _ hut, set_list_next_other _ _ hut]) hc
      · show l.tail = last_or_null r
        rw [htl, last_or_null_cons hr]
    · exact same_but_next_trans (same_but_next_set mem t Ptr.NULL) (same_but_next_set _ t Ptr.NULL)
    · intro p hp
      rw [set_list_next_other _ _ hp, set_list_next_other _ _ hp]

theorem tlappend_is_list {mem : Ptr → thread} {l0 l1 : thread_list} {xs ys : List Ptr}
    (h0 : is_list mem l0 xs) (h1 : is_list mem l1 ys) (hdis : ∀ x ∈ xs, x ∉ ys) :
    ∃ mem1 l2, tlappend mem l0 l1 = .ok (mem1, l2, { head := Ptr.NULL, tail := Ptr.NULL }) ∧
      is_list mem1 l2 (xs ++ ys) ∧ same_but_next mem mem1 ∧
      (∀ p, (xs = [] ∨ p ≠ l0.tail) → mem1 p = mem p) := by
  have hnd : (xs ++ ys).Nodup := by
    rw [List.nodup_append]
    exact ⟨h0.2.2, h1.2.2, fun x hx hy => hdis x hx hy⟩
  rcases List.eq_nil_or_concat xs with hxs | ⟨zs, a, hxs⟩
  · subst hxs
    have hh : l0.head = Ptr.NULL := (is_list_nil_iff h0).mpr rfl
    have ht : l0.tail = Ptr.NULL := (is_list_tail_null_iff h0).mpr rfl
    refine ⟨mem, { head := l1.head, tail := l1.tail }, ?_, ?_, same_but_next_refl mem, fun _ _ => rfl⟩
    · simp [tlappend, hh, ht]
    · simpa using (⟨h1.1, h1.2.1, h1.2.2⟩ : is_list mem { head := l1.head, tail := l1.tail } ys)
  · rw [List.concat_eq_append] at hxs
    subst hxs
    have hne : zs ++ [a] ≠ [] := by simp
    have hh : l0.head ≠ Ptr.NULL := fun e => hne ((is_list_nil_iff h0).mp e)
    have hta : l0.tail = a := by rw [h0.2.1, last_or_null_concat]
    have ha : a ≠ Ptr.NULL := chain_ne_null h0.1 a (by simp)
    by_cases hys : ys = []
    · subst hys
      have hh1 : l1.head = Ptr.NULL := (is_list_nil_iff h1).mpr rfl
      refine ⟨mem, l0, ?_, ?_, same_but_next_refl mem, fun _ _ => rfl⟩
      · simp [tlappend, hh, hta, ha, hh1]
      · simpa using h0
    · have hh1 : l1.head ≠ Ptr.NULL := fun e => hys ((is_list_nil_iff h1).mp e)
      have ht1 : l1.tail ≠ Ptr.NULL := fun e => hys ((is_list_tail_null_iff h1).mp e)
      refine ⟨set_list_next mem a l1.head, { l0 with tail := l1.tail }, ?_, ?_, ?_, ?_⟩
      · simp [tlappend, hh, hta, ha, hh1, ht1]
      · refine ⟨?_, ?_, hnd⟩
        · exact chain_append h1.1 (hdis a (by simp)) zs h0.1 h0.2.2
            (fun x hx => hdis x (by simp [hx]))
        · show l1.tail = last_or_null (zs ++ [a] ++ ys)
          rw [last_or_null_append _ hys, h1.2.1]
      · exact same_but_next_set mem a l1.head
      · intro p hp
        have hp2 : p ≠ a := by
          rcases hp with hp | hp
          · exact absurd hp hne
          · rw [hta] at hp; exact hp
        exact set_list_next_other mem _ hp2

/-! ## The slot search of `thread_spawn` -/

theorem spawn_scan_spec (thrtab : Int → Ptr) :
    ∀ (fuel : Nat) (tid0 : Int), tid0 < NTHR → NTHR ≤ tid0 + fuel →
      tid0 < spawn_scan thrtab fuel tid0 ∧ spawn_scan thrtab fuel tid0 ≤ NTHR ∧
      (spawn_scan thrtab fuel tid0 < NTHR → thrtab (spawn_scan thrtab fuel tid0) = Ptr.NULL) ∧
      ∀ j, tid0 < j → j < spawn_scan thrtab fuel tid0 → thrtab j ≠ Ptr.NULL := by
  intro fuel
  induction fuel with
  | zero => intro tid0 h1 h2; simp at h2; omega
  | succ n ih =>
    intro tid0 h1 h2
    unfold spawn_scan
    by_cases hlt : tid0 + 1 < NTHR
    · by_cases hfree : thrtab (tid0 + 1) = Ptr.NULL
      · rw [if_pos hlt, if_pos hfree]
        refine ⟨by omega, by omega, fun _ => hfree, ?_⟩
        intro j h3 h4; omega
      · rw [if_pos hlt, if_neg hfree]
        obtain ⟨a, b, c, d⟩ := ih (tid0 + 1) hlt (by push_cast at h2; omega)
        refine ⟨by omega, b, c, ?_⟩
        intro j h3 h4
        by_cases hj : j = tid0 + 1
        · rw [hj]; exact hfree
        · exact d j (by omega) h4
    · rw [if_neg hlt]
      refine ⟨by omega, by omega, fun h => absurd h hlt, ?_⟩
      intro j h3 h4; omega

/-- The search returns the lowest free index above 0, or `NTHR` when slots
`1 .. NTHR-1` are all taken. -/
theorem spawn_scan_lowest (thrtab : Int → Ptr) (i : Int) (h0 : 0 < i) (h1 : i < NTHR)
    (hfree : thrtab i = Ptr.NULL) (hlow : ∀ j, 0 < j → j < i → thrtab j ≠ Ptr.NULL) :
    spawn_scan thrtab NTHR.toNat 0 = i := by
  obtain ⟨a, b, c, d⟩ := spawn_scan_spec thrtab NTHR.toNat 0 (by decide) (by decide)
  by_contra hne
  rcases lt_or_gt_of_ne hne with h | h
  · exact hlow _ a h (c (by omega))
  · exact d i h0 h hfree

theorem spawn_scan_full (thrtab : Int → Ptr) (hfull : ∀ j, 0 < j → j < NTHR → thrtab j ≠ Ptr.NULL) :
    spawn_scan thrtab NTHR.toNat 0 = NTHR := by
  obtain ⟨a, b, c, _⟩ := spawn_scan_spec thrtab NTHR.toNat 0 (by decide) (by decide)
  by_contra hne
  have hlt : spawn_scan thrtab NTHR.toNat 0 < NTHR := lt_of_le_of_ne b hne
  exact hfull _ a hlt (c hlt)

theorem tlinsert_no_error {mem : Ptr → thread} {l : thread_list} {thr : Ptr} {e : Err}
    (hthr : thr ≠ Ptr.NULL) (hl : l.head = Ptr.NULL ↔ l.tail = Ptr.NULL) :
    tlinsert mem l thr ≠ .error e := by
  by_cases ht : l.tail = Ptr.NULL
  · simp [tlinsert, hthr, ht, hl.mpr ht]
  · have hh : l.head ≠ Ptr.NULL := fun h => ht (hl.mp h)
    simp [tlinsert, hthr, ht, hh]

theorem tlinsert_nonempty {mem mem1 : Ptr → thread} {l l1 : thread_list} {thr : Ptr}
    (h : tlinsert mem l thr = .ok (mem1, l1)) :
    thr ≠ Ptr.NULL ∧ l1.head ≠ Ptr.NULL ∧ l1.tail = thr := by
  unfold tlinsert at h
  by_cases hthr : thr = Ptr.NULL
  · simp [hthr] at h
  · by_cases ht : l.tail = Ptr.NULL
    · by_cases hh : l.head = Ptr.NULL
      · simp [hthr, ht, hh] at h
        rw [← h.2]; exact ⟨hthr, hthr, rfl⟩
      · simp [hthr, ht, hh] at h
    · by_cases hh : l.head = Ptr.NULL
      · simp [hthr, ht, hh] at h
      · simp [hthr, ht, hh] at h
        rw [← h.2]; exact ⟨hthr, hh, rfl⟩

/-- The effect of a `thread_spawn` that finds a slot, on the table and the
current thread. -/
theorem thread_spawn_ok (P : Platform) (s : KState) (name : String) (start arg : Nat)
    (child : Ptr) (stack_page : Int)
    (hchild : child ≠ Ptr.NULL) (hcur : s.CURTHR ≠ Ptr.NULL)
    (hrl : s.ready_list.head = Ptr.NULL ↔ s.ready_list.tail = Ptr.NULL)
    (htid : spawn_scan s.thrtab NTHR.toNat 0 ≠ NTHR) :
    ∃ s1, thread_spawn P s name start arg child stack_page =
        .ok (s1, spawn_scan s.thrtab NTHR.toNat 0) ∧
      s1.thrtab = Function.update s.thrtab (spawn_scan s.thrtab NTHR.toNat 0) child ∧
      s1.CURTHR = s.CURTHR ∧ s1.ready_list.head ≠ Ptr.NULL ∧ s1.ready_list.tail ≠ Ptr.NULL := by
  unfold thread_spawn
  simp only [htid, hchild, hcur, if_false]
  split
  · rename_i e heq
    exact absurd heq (tlinsert_no_error hchild hrl)
  · rename_i mem8 rl heq
    obtain ⟨_, h2, h3⟩ := tlinsert_nonempty heq
    refine ⟨_, rfl, rfl, rfl, h2, ?_⟩
    show rl.tail ≠ Ptr.NULL
    rw [h3]; exact hchild

theorem thread_spawn_full (P : Platform) (s : KState) (name : String) (start arg : Nat)
    (child : Ptr) (stack_page : Int)
    (htid : spawn_scan s.thrtab NTHR.toNat 0 = NTHR) :
    thread_spawn P s name start arg child stack_page = .error Err.too_many_threads := by
  unfold thread_spawn
  simp only [htid, if_true]

theorem thread_init_boot (P : Platform) (idle_func : Nat) :
    ∃ s0, thread_init P idle_func boot = .ok s0 ∧ s0.thrtab = thrtab ∧
      s0.CURTHR = Ptr.main_thread ∧
      s0.ready_list = { head := Ptr.idle_thread, tail := Ptr.idle_thread } :=
  ⟨_, rfl, rfl, rfl, rfl⟩

theorem spawn_seq_spec (P : Platform) :
    ∀ (cs : List spawn_args) (s : KState) (k : Int), 0 ≤ k → k + cs.length ≤ NTHR - 2 →
      (∀ c ∈ cs, c.child ≠ Ptr.NULL) → slots_upto s k →
      ∃ s1, spawn_seq P s cs = .ok (s1, (List.range cs.length).map (fun (j : Nat) => k + 1 + (j : Int))) ∧
        slots_upto s1 (k + cs.length) := by
  intro cs
  induction cs with
  | nil =>
    intro s k _ _ _ hs
    exact ⟨s, rfl, by simpa using hs⟩
  | cons a rest ih =>
    intro s k hk hlen hc hs
    obtain ⟨h1, h2, h3, h4, h5⟩ := hs
    simp only [List.length_cons, Nat.cast_add, Nat.cast_one] at hlen
    have hscan : spawn_scan s.thrtab NTHR.toNat 0 = k + 1 :=
      spawn_scan_lowest s.thrtab (k + 1) (by omega) (by omega) (h2 _ (by omega) (by omega))
        (fun j hj1 hj2 => h1 j hj1 (by omega))
    have hne : spawn_scan s.thrtab NTHR.toNat 0 ≠ NTHR := by rw [hscan]; omega
    obtain ⟨s1, e1, t1, c1, r1, r2⟩ := thread_spawn_ok P s a.name a.start a.arg a.child
      a.stack_page (hc a (List.mem_cons_self a rest)) h4 h5 hne
    rw [hscan] at e1 t1
    have hs1 : slots_upto s1 (k + 1) := by
      refine ⟨?_, ?_, ?_, by rw [c1]; exact h4, by simp [r1, r2]⟩
      · intro i hi1 hi2
        rw [t1]
        by_cases hi : i = k + 1
        · rw [hi, Function.update_same]; exact hc a (List.mem_cons_self a rest)
        · rw [Function.update_noteq hi]; exact h1 i hi1 (by omega)
      · intro i hi1 hi2
        rw [t1, Function.update_noteq (by omega)]
        exact h2 i (by omega) hi2
      · rw [t1, Function.update_noteq (by omega)]; exact h3
    obtain ⟨s2, e2, hs2⟩ := ih s1 (k + 1) (by omega) (by omega)
      (fun c hc1 => hc c (List.mem_cons_of_mem a hc1)) hs1
    refine ⟨s2, ?_, ?_⟩
    · simp only [spawn_seq, e1, e2, List.length_cons, List.range_succ_eq_map, List.map_cons,
        List.map_map]
      congr 3
      · simp
      · apply List.map_congr_left
        intro j _
        simp only [Function.comp, Nat.cast_succ]
        ring
    · have : k + 1 + (rest.length : Int) = k + ((a :: rest).length : Int) := by
        simp only [List.length_cons, Nat.cast_add, Nat.cast_one]; ring
      rw [← this]; exact hs2

/-- C1: with IDLE in slot NTHR-1, `thread_spawn` returns the lowest free index
in `1 .. NTHR-2`, and it is fatal ("Too many threads") exactly when none of
these slots is free; from the initial table NTHR-2 consecutive spawns return
1, 2, ..., NTHR-2 and the next one is fatal. -/
theorem thread_spawn_lowest_free_slot (P : Platform) (s : KState) (name : String)
    (start arg : Nat) (child : Ptr) (stack_page : Int)
    (hidle : s.thrtab IDLE_TID ≠ Ptr.NULL)
    (hchild : child ≠ Ptr.NULL) (hcur : s.CURTHR ≠ Ptr.NULL)
    (hrl : s.ready_list.head = Ptr.NULL ↔ s.ready_list.tail = Ptr.NULL) :
    ((∃ i, 0 < i ∧ i < NTHR - 1 ∧ s.thrtab i = Ptr.NULL) →
      ∃ s1 i, thread_spawn P s name start arg child stack_page = .ok (s1, i) ∧
        0 < i ∧ i < NTHR - 1 ∧ s.thrtab i = Ptr.NULL ∧
        ∀ j, 0 < j → j < i → s.thrtab j ≠ Ptr.NULL) ∧
    ((¬ ∃ i, 0 < i ∧ i < NTHR - 1 ∧ s.thrtab i = Ptr.NULL) →
      thread_spawn P s name start arg child stack_page = .error Err.too_many_threads) ∧
    (∀ (idle_func : Nat) (cs : List spawn_args), cs.length = (NTHR - 2).toNat →
      (∀ c ∈ cs, c.child ≠ Ptr.NULL) →
      ∃ s0 s1, thread_init P idle_func boot = .ok s0 ∧
        spawn_seq P s0 cs = .ok (s1, [1, 2, 3, 4, 5, 6, 7, 8, 9, 10, 11, 12, 13, 14]) ∧
        ∀ (n : String) (st ar : Nat) (c : Ptr) (pg : Int),
          thread_spawn P s1 n st ar c pg = .error Err.too_many_threads) := by
  obtain ⟨a, b, c, d⟩ := spawn_scan_spec s.thrtab NTHR.toNat 0 (by decide) (by decide)
  refine ⟨?_, ?_, ?_⟩
  · rintro ⟨i, hi0, hi1, hi2⟩
    have hne : spawn_scan s.thrtab NTHR.toNat 0 ≠ NTHR := by
      intro e
      rw [e] at d
      exact d i hi0 (by omega) hi2
    have hlt : spawn_scan s.thrtab NTHR.toNat 0 < NTHR := lt_of_le_of_ne b hne
    obtain ⟨s1, e1, _⟩ := thread_spawn_ok P s name start arg child stack_page hchild hcur hrl hne
    refine ⟨s1, _, e1, a, ?_, c hlt, d⟩
    have hne1 : spawn_scan s.thrtab NTHR.toNat 0 ≠ NTHR - 1 := by
      intro e
      apply hidle
      have := c hlt
      rw [e] at this
      exact this
    omega
  · intro hnone
    apply thread_spawn_full
    apply spawn_scan_full
    intro j hj0 hj1
    by_cases hj : j = NTHR - 1
    · rw [hj]; exact hidle
    · intro e
      exact hnone ⟨j, hj0, by omega, e⟩
  · intro idle_func cs hlen hcs
    obtain ⟨s0, e0, t0, c0, r0⟩ := thread_init_boot P idle_func
    have hlen14 : cs.length = 14 := by rw [hlen]; rfl
    have hs0 : slots_upto s0 0 := by
      refine ⟨fun i h1 h2 => by omega, ?_, ?_, by rw [c0]; decide, by rw [r0]⟩
      · intro i h1 h2
        rw [t0]
        have h3 : i ≠ MAIN_TID := by unfold MAIN_TID; omega
        have h4 : i ≠ IDLE_TID := by unfold IDLE_TID; omega
        simp [thrtab, h3, h4]
      · rw [t0]; decide
    obtain ⟨s1, e1, hs1⟩ := spawn_seq_spec P cs s0 0 (le_refl 0)
      (by rw [hlen14]; decide) hcs hs0
    refine ⟨s0, s1, e0, ?_, ?_⟩
    · rw [e1, hlen14]; rfl
    · intro n st ar c1 pg
      apply thread_spawn_full
      apply spawn_scan_full
      intro j hj0 hj1
      rw [hlen14] at hs1
      by_cases hj : j = NTHR - 1
      · rw [hj]; exact hs1.2.2.1
      · exact hs1.1 j hj0 (by rw [NTHR_eq] at hj1 hj; push_cast; omega)

theorem thread_spawn_lowest_free_slot_witness :
    started.thrtab IDLE_TID ≠ Ptr.NULL ∧ Ptr.heap 1 ≠ Ptr.NULL ∧ started.CURTHR ≠ Ptr.NULL ∧
    (started.ready_list.head = Ptr.NULL ↔ started.ready_list.tail = Ptr.NULL) ∧
    ∃ s1 i, thread_spawn demo_platform started "t1" 0 0 (Ptr.heap 1) 0x80200000 = .ok (s1, i) ∧
      0 < i ∧ i < NTHR - 1 ∧ started.thrtab i = Ptr.NULL ∧
      ∀ j, 0 < j → j < i → started.thrtab j ≠ Ptr.NULL :=
  ⟨by decide, by decide, by decide, by decide,
    (thread_spawn_lowest_free_slot demo_platform started "t1" 0 0 (Ptr.heap 1) 0x80200000
      (by decide) (by decide) (by decide) (by decide)).1 ⟨1, by decide, by decide, by decide⟩⟩

/-! ## `thread_spawn` -/

theorem thread_spawn_eq (P : Platform) (s : KState) (name : String) (start arg : Nat)
    (child : Ptr) (stack_page : Int)
    (hchild : child ≠ Ptr.NULL) (hcur : s.CURTHR ≠ Ptr.NULL)
    (htid : spawn_scan s.thrtab NTHR.toNat 0 ≠ NTHR) :
    thread_spawn P s name start arg child stack_page =
      match tlinsert (spawn_mem P s name child stack_page (spawn_scan s.thrtab NTHR.toNat 0))
          s.ready_list child with
      | .error e => .error e
      | .ok (mem8, rl) =>
        .ok (_thread_setup
          { s with thrtab := Function.update s.thrtab (spawn_scan s.thrtab NTHR.toNat 0) child,
                   anchors := Function.update s.anchors
                     (stack_page + P.PAGE_SIZE - P.ANCHOR_SIZE) child,
                   mem := mem8, ready_list := rl }
          child (mem8 child).stack_base start arg, spawn_scan s.thrtab NTHR.toNat 0) := by
  have hM : ∀ (M N : Ptr → thread) (t : Int), M = N →
      (match tlinsert M s.ready_list child with
        | .error e => (.error e : Except Err (KState × Int))
        | .ok (mem8, rl) =>
          .ok (_thread_setup
            { s with thrtab := Function.update s.thrtab t child,
                     anchors := Function.update s.anchors
                       (stack_page + P.PAGE_SIZE - P.ANCHOR_SIZE) child,
                     mem := mem8, ready_list := rl }
            child (mem8 child).stack_base start arg, t)) =
      (match tlinsert N s.ready_list child with
        | .error e => .error e
        | .ok (mem8, rl) =>
          .ok (_thread_setup
            { s with thrtab := Function.update s.thrtab t child,
                     anchors := Function.update s.anchors
                       (stack_page + P.PAGE_SIZE - P.ANCHOR_SIZE) child,
                     mem := mem8, ready_list := rl }
            child (mem8 child).stack_base start arg, t)) := by
    intro M N t h; rw [h]
  unfold thread_spawn
  simp only [htid, hchild, hcur, if_false]
  apply hM
  funext p
  by_cases hp : p = child
  · subst hp
    by_cases hc : s.CURTHR = p
    · simp [spawn_mem, set_thread_state, Function.update_apply, hc]
    · simp [spawn_mem, set_thread_state, Function.update_noteq hc]
  · simp [spawn_mem, set_thread_state, Function.update_noteq hp]

theorem tlinsert_inv {mem mem1 : Ptr → thread} {l l1 : thread_list} {ts : List Ptr} {thr : Ptr}
    (heq : tlinsert mem l thr = .ok (mem1, l1)) (h : is_list mem l ts) (hni : thr ∉ ts) :
    is_list mem1 l1 (ts ++ [thr]) ∧ same_but_next mem mem1 ∧
      (∀ p, p ≠ thr → (ts = [] ∨ p ≠ l.tail) → mem1 p = mem p) := by
  obtain ⟨hthr, _, _⟩ := tlinsert_nonempty heq
  obtain ⟨m, l2, e, h1, h2, h3⟩ := tlinsert_is_list h hthr hni
  rw [e] at heq
  simp only [Except.ok.injEq, Prod.mk.injEq] at heq
  obtain ⟨rfl, rfl⟩ := heq
  exact ⟨h1, h2, h3⟩

/-- C2: a `thread_spawn` that finds a slot stores the new record in that slot
with `id = tid`, `parent` the current thread, `proc` the current thread's
`proc` and state READY, appends it to the ready list after the threads already
there, and changes no other slot and no other thread's state. -/
theorem thread_spawn_effect (P : Platform) (s : KState) (name : String)
    (start arg : Nat) (child : Ptr) (stack_page : Int) (rs : List Ptr)
    (hchild : child ≠ Ptr.NULL) (hcur : s.CURTHR ≠ Ptr.NULL)
    (hrl : is_list s.mem s.ready_list rs) (hfresh : child ∉ rs)
    (hslot : ∃ i, 0 < i ∧ i < NTHR ∧ s.thrtab i = Ptr.NULL) :
    ∃ s1 tid, thread_spawn P s name start arg child stack_page = .ok (s1, tid) ∧
      s1.thrtab tid = child ∧ (s1.mem child).id = tid ∧
      (s1.mem child).parent = s.CURTHR ∧ (s1.mem child).proc = (s.mem s.CURTHR).proc ∧
      (s1.mem child).state = thread_state.THREAD_READY ∧
      is_list s1.mem s1.ready_list (rs ++ [child]) ∧
      (∀ i, i ≠ tid → s1.thrtab i = s.thrtab i) ∧
      (∀ p, p ≠ child → (s1.mem p).state = (s.mem p).state) ∧
      s1.CURTHR = s.CURTHR := by
  obtain ⟨i, hi0, hi1, hi2⟩ := hslot
  obtain ⟨_, _, _, d⟩ := spawn_scan_spec s.thrtab NTHR.toNat 0 (by decide) (by decide)
  have htid : spawn_scan s.thrtab NTHR.toNat 0 ≠ NTHR := by
    intro e; rw [e] at d; exact d i hi0 hi1 hi2
  have hM : is_list (spawn_mem P s name child stack_page (spawn_scan s.thrtab NTHR.toNat 0))
      s.ready_list rs :=
    is_list_congr hrl (fun t ht => by
      have : t ≠ child := fun e => hfresh (e ▸ ht)
      simp [spawn_mem, Function.update_noteq this])
  obtain ⟨mem8, rl, e, _, _, _⟩ := tlinsert_is_list hM hchild hfresh
  obtain ⟨h1, h2, h3⟩ := tlinsert_inv e hM hfresh
  have hrec : strip (mem8 child) =
      strip (spawn_mem P s name child stack_page (spawn_scan s.thrtab NTHR.toNat 0) child) :=
    h2 child
  have e2 := thread_spawn_eq P s name start arg child stack_page hchild hcur htid
  rw [e] at e2
  refine ⟨_, _, e2, ?_, ?_, ?_, ?_, ?_, h1, ?_, ?_, rfl⟩
  · simp [_thread_setup]
  · have := congrArg thread.id hrec
    simpa [strip, spawn_mem, _thread_setup] using this
  · have := strip_parent hrec
    simpa [spawn_mem, _thread_setup] using this
  · have := strip_proc hrec
    simpa [spawn_mem, _thread_setup] using this
  · have := strip_state hrec
    simpa [spawn_mem, _thread_setup] using this
  · intro j hj
    simp [_thread_setup, Function.update_noteq hj]
  · intro p hp
    have := strip_state (h2 p)
    simpa [spawn_mem, _thread_setup, Function.update_noteq hp] using this

theorem thread_spawn_effect_witness :
    Ptr.heap 1 ≠ Ptr.NULL ∧ started.CURTHR ≠ Ptr.NULL ∧
    is_list started.mem started.ready_list [Ptr.idle_thread] ∧
    Ptr.heap 1 ∉ [Ptr.idle_thread] ∧
    (∃ i, 0 < i ∧ i < NTHR ∧ started.thrtab i = Ptr.NULL) ∧
    ∃ s1 tid, thread_spawn demo_platform started "t1" 0 0 (Ptr.heap 1) 0x80200000 = .ok (s1, tid) ∧
      s1.thrtab tid = Ptr.heap 1 ∧ (s1.mem (Ptr.heap 1)).id = tid ∧
      (s1.mem (Ptr.heap 1)).parent = started.CURTHR ∧
      (s1.mem (Ptr.heap 1)).proc = (started.mem started.CURTHR).proc ∧
      (s1.mem (Ptr.heap 1)).state = thread_state.THREAD_READY ∧
      is_list s1.mem s1.ready_list ([Ptr.idle_thread] ++ [Ptr.heap 1]) ∧
      (∀ i, i ≠ tid → s1.thrtab i = started.thrtab i) ∧
      (∀ p, p ≠ Ptr.heap 1 → (s1.mem p).state = (started.mem p).state) ∧
      s1.CURTHR = started.CURTHR :=
  ⟨by decide, by decide, by decide, by decide, ⟨1, by decide, by decide, by decide⟩,
    thread_spawn_effect demo_platform started "t1" 0 0 (Ptr.heap 1) 0x80200000 [Ptr.idle_thread]
      (by decide) (by decide) (by decide) (by decide) ⟨1, by decide, by decide, by decide⟩⟩

/-! ## `recycle_thread` -/

theorem set_parent_other (mem : Ptr → thread) {p q : Ptr} (v : Ptr) (h : q ≠ p) :
    set_parent mem p v q = mem q := by
  simp [set_parent, Function.update_noteq h]

theorem set_parent_self (mem : Ptr → thread) (p v : Ptr) :
    set_parent mem p v p = { mem p with parent := v } := by
  simp [set_parent]

theorem recycle_loop_spec (tab : Int → Ptr) (T : Ptr) (mem0 : Ptr → thread) :
    ∀ (fuel : Nat) (c : Int) (m : Ptr → thread), 1 ≤ c → c ≤ NTHR → NTHR ≤ c + fuel →
      (∀ p, child_below tab mem0 T c p → m p = { mem0 p with parent := (mem0 T).parent }) →
      (∀ p, ¬ child_below tab mem0 T c p → m p = mem0 p) →
      (∀ p, child_below tab mem0 T NTHR p →
        recycle_loop tab T fuel c m p = { mem0 p with parent := (mem0 T).parent }) ∧
      (∀ p, ¬ child_below tab mem0 T NTHR p → recycle_loop tab T fuel c m p = mem0 p) := by
  intro fuel
  induction fuel with
  | zero =>
    intro c m h1 h2 h3 hin hout
    have hc : c = NTHR := by simp at h3; omega
    subst hc
    exact ⟨hin, hout⟩
  | succ n ih =>
    intro c m h1 h2 h3 hin hout
    unfold recycle_loop
    by_cases hc : c < NTHR
    · rw [if_pos hc]
      have hT : (m T).parent = (mem0 T).parent := by
        by_cases hTin : child_below tab mem0 T c T
        · rw [hin T hTin]
        · rw [hout T hTin]
      have hstep : ∀ p, child_below tab mem0 T (c + 1) p ↔
          (child_below tab mem0 T c p ∨ (p = tab c ∧ p ≠ Ptr.NULL ∧ (mem0 p).parent = T)) := by
        intro p
        constructor
        · rintro ⟨a, b, i, hi1, hi2, hi3⟩
          by_cases hic : i = c
          · right; exact ⟨by rw [← hi3, hic], a, b⟩
          · left; exact ⟨a, b, i, hi1, by omega, hi3⟩
        · rintro (⟨a, b, i, hi1, hi2, hi3⟩ | ⟨a, b, d⟩)
          · exact ⟨a, b, i, hi1, by omega, hi3⟩
          · exact ⟨b, d, c, h1, by omega, a.symm⟩
      by_cases hcond : tab c ≠ Ptr.NULL ∧ (m (tab c)).parent = T
      · rw [if_pos hcond]
        apply ih (c + 1) _ (by omega) (by omega) (by push_cast at h3; omega)
        · intro p hp
          by_cases hpc : p = tab c
          · rw [hpc, set_parent_self, hT]
            by_cases hq : child_below tab mem0 T c (tab c)
            · rw [hin _ hq]
            · rw [hout _ hq]
          · rw [set_parent_other _ _ hpc]
            rcases (hstep p).mp hp with h | h
            · exact hin p h
            · exact absurd h.1 hpc
        · intro p hp
          have hp1 : ¬ child_below tab mem0 T c p := fun h => hp ((hstep p).mpr (Or.inl h))
          have hpc : p ≠ tab c := by
            intro e
            apply hp
            rw [hstep]
            right
            refine ⟨e, e ▸ hcond.1, ?_⟩
            have := hcond.2
            rw [← e, hout p hp1] at this
            exact this
          rw [set_parent_other _ _ hpc]
          exact hout p hp1
      · rw [if_neg hcond]
        apply ih (c + 1) _ (by omega) (by omega) (by push_cast at h3; omega)
        · intro p hp
          rcases (hstep p).mp hp with h | ⟨a, b, d⟩
          · exact hin p h
          · by_cases hq : child_below tab mem0 T c p
            · exact hin p hq
            · exfalso
              apply hcond
              rw [← a]
              exact ⟨b, by rw [hout p hq]; exact d⟩
        · intro p hp
          exact hout p (fun h => hp ((hstep p).mpr (Or.inl h)))
    · have hcN : c = NTHR := by omega
      rw [if_neg hc]
      subst hcN
      exact ⟨hin, hout⟩

/-- What `recycle_thread` does to an exited thread in slot `tid`. -/
theorem recycle_thread_spec (s : KState) (tid : Int) (h0 : 0 < tid) (h1 : tid < NTHR)
    (hT : s.thrtab tid ≠ Ptr.NULL)
    (hex : (s.mem (s.thrtab tid)).state = thread_state.THREAD_EXITED) :
    ∃ s1, recycle_thread s tid = .ok s1 ∧
      s1.thrtab = Function.update s.thrtab tid Ptr.NULL ∧ s1.CURTHR = s.CURTHR ∧
      s1.ready_list = s.ready_list ∧ s1.conds = s.conds ∧
      (∀ p, child_below s.thrtab s.mem (s.thrtab tid) NTHR p →
        s1.mem p = { s.mem p with parent := (s.mem (s.thrtab tid)).parent }) ∧
      (∀ p, ¬ child_below s.thrtab s.mem (s.thrtab tid) NTHR p → s1.mem p = s.mem p) := by
  obtain ⟨a, b⟩ := recycle_loop_spec s.thrtab (s.thrtab tid) s.mem NTHR.toNat 1 s.mem
    (le_refl 1) (by decide) (by decide)
    (fun p hp => by
      obtain ⟨_, _, i, hi1, hi2, _⟩ := hp
      omega)
    (fun p _ => rfl)
  have e : recycle_thread s tid = .ok
      { s with mem := recycle_loop s.thrtab (s.thrtab tid) NTHR.toNat 1 s.mem,
               thrtab := Function.update s.thrtab tid Ptr.NULL,
               calls := s.calls ++ [ext_call.kfree (s.thrtab tid)] } := by
    unfold recycle_thread
    simp [h0, h1, hT, hex]
  exact ⟨_, e, rfl, rfl, rfl, rfl, a, b⟩

theorem recycle_thread_state {s s1 : KState} {tid : Int}
    (hin : ∀ p, child_below s.thrtab s.mem (s.thrtab tid) NTHR p →
      s1.mem p = { s.mem p with parent := (s.mem (s.thrtab tid)).parent })
    (hout : ∀ p, ¬ child_below s.thrtab s.mem (s.thrtab tid) NTHR p → s1.mem p = s.mem p)
    (p : Ptr) : (s1.mem p).state = (s.mem p).state := by
  by_cases h : child_below s.thrtab s.mem (s.thrtab tid) NTHR p
  · rw [hin p h]
  · rw [hout p h]

/-! ## `thread_join` and `thread_join_any` -/

/-- C3 (code): `thread_join` loads `thrtab[tid]` before it tests the range of
`tid`, so for a `tid` below 0 or from `NTHR` on it reads outside the thread
table instead of returning -1; the range test that follows comes too late.
For a `tid` of the table it returns -1, leaving the whole state as it was and
the caller running, when `tid` is 0, the slot is empty or the thread in it is
not a child of the current thread. -/
theorem thread_join_loads_before_range_test :
    (∀ (P : Platform) (s : KState) (tid : Int), tid < 0 ∨ NTHR ≤ tid →
      thread_join P s tid = .error Err.out_of_bounds) ∧
    (∀ (P : Platform) (s : KState) (tid : Int), 0 ≤ tid → tid < NTHR →
      (tid = 0 ∨ s.thrtab tid = Ptr.NULL ∨ (s.mem (s.thrtab tid)).parent ≠ s.CURTHR) →
      thread_join P s tid = .ok (s, ret.returned (-1))) ∧
    (thread_join demo_platform started 16).toOption.map (fun r => r.2) = none ∧
    (thread_join demo_platform started (-1)).toOption.map (fun r => r.2) = none ∧
    (thread_join demo_platform started 1000000).toOption.map (fun r => r.2) = none ∧
    (thread_join demo_platform started 0).toOption.map (fun r => r.2) =
      some (ret.returned (-1)) ∧
    (thread_join demo_platform started 5).toOption.map (fun r => r.2) =
      some (ret.returned (-1)) := by
  refine ⟨?_, ?_, by decide, by decide, by decide, by decide, by decide⟩
  · intro P s tid h
    unfold thread_join
    rw [if_pos h]
  · intro P s tid hlo hhi h
    have hb : ¬ (tid < 0 ∨ NTHR ≤ tid) := by omega
    unfold thread_join
    rw [if_neg hb]
    by_cases hr : tid ≤ 0 ∨ NTHR ≤ tid
    · simp only [hr, if_true]
    · have hc : s.thrtab tid = Ptr.NULL ∨ (s.mem (s.thrtab tid)).parent ≠ s.CURTHR := by
        rcases h with h | h | h
        · exact absurd (Or.inl (le_of_eq h)) hr
        · exact Or.inl h
        · exact Or.inr h
      simp only [hr, hc, if_true, if_false]

/-- Joining a child that has already exited: the result, the state it leaves
and the slot search of a following `thread_spawn`. -/
theorem thread_join_exited_spec (P : Platform) (s : KState) (tid : Int)
    (h0 : 0 < tid) (h1 : tid < NTHR) (hT : s.thrtab tid ≠ Ptr.NULL)
    (hpar : (s.mem (s.thrtab tid)).parent = s.CURTHR)
    (hex : (s.mem (s.thrtab tid)).state = thread_state.THREAD_EXITED) :
    ∃ s1, thread_join P s tid = .ok (s1, ret.returned tid) ∧
      s1.CURTHR = s.CURTHR ∧ s1.ready_list = s.ready_list ∧
      (∀ p, (s1.mem p).state = (s.mem p).state) ∧
      s1.thrtab tid = Ptr.NULL ∧ (∀ i, i ≠ tid → s1.thrtab i = s.thrtab i) ∧
      (∀ (name : String) (start arg : Nat) (child : Ptr) (stack_page : Int),
        child ≠ Ptr.NULL → s.CURTHR ≠ Ptr.NULL →
        (s.ready_list.head = Ptr.NULL ↔ s.ready_list.tail = Ptr.NULL) →
        (∀ j, 0 < j → j < tid → s.thrtab j ≠ Ptr.NULL) →
        ∃ s2, thread_spawn P s1 name start arg child stack_page = .ok (s2, tid)) := by
  obtain ⟨s1, e, t1, c1, r1, _, hin, hout⟩ := recycle_thread_spec s tid h0 h1 hT hex
  have hr : ¬ (tid ≤ 0 ∨ NTHR ≤ tid) := by omega
  have hc : ¬ (s.thrtab tid = Ptr.NULL ∨ (s.mem (s.thrtab tid)).parent ≠ s.CURTHR) := by
    simp [hT, hpar]
  have hb : ¬ (tid < 0 ∨ NTHR ≤ tid) := by omega
  have ej : thread_join P s tid = .ok (s1, ret.returned tid) := by
    unfold thread_join thread_join_loop
    simp only [hb, hr, hc, if_false, hex, ne_eq, not_true_eq_false, e]
  refine ⟨s1, ej, c1, r1, recycle_thread_state hin hout, by rw [t1, Function.update_same],
    fun i hi => by rw [t1, Function.update_noteq hi], ?_⟩
  intro name start arg child stack_page hchild hcur hrl hlow
  have hscan : spawn_scan s1.thrtab NTHR.toNat 0 = tid :=
    spawn_scan_lowest s1.thrtab tid h0 h1 (by rw [t1, Function.update_same])
      (fun j hj0 hj1 => by
        rw [t1, Function.update_noteq (by omega)]
        exact hlow j hj0 hj1)
  obtain ⟨s2, e2, _⟩ := thread_spawn_ok P s1 name start arg child stack_page hchild
    (by rw [c1]; exact hcur) (by rw [r1]; exact hrl) (by rw [hscan]; omega)
  rw [hscan] at e2
  exact ⟨s2, e2⟩

/-- C4: joining a child that has already exited returns its tid at once, with
the caller still current and no thread state changed, and frees the slot; a
`thread_spawn` that follows returns this tid when no lower slot is free. -/
theorem thread_join_exited_child (P : Platform) (s : KState) (tid : Int)
    (h0 : 0 < tid) (h1 : tid < NTHR) (hT : s.thrtab tid ≠ Ptr.NULL)
    (hpar : (s.mem (s.thrtab tid)).parent = s.CURTHR)
    (hex : (s.mem (s.thrtab tid)).state = thread_state.THREAD_EXITED) :
    ∃ s1, thread_join P s tid = .ok (s1, ret.returned tid) ∧
      s1.CURTHR = s.CURTHR ∧ s1.ready_list = s.ready_list ∧
      (∀ p, (s1.mem p).state = (s.mem p).state) ∧
      s1.thrtab tid = Ptr.NULL ∧ (∀ i, i ≠ tid → s1.thrtab i = s.thrtab i) ∧
      (∀ (name : String) (start arg : Nat) (child : Ptr) (stack_page : Int),
        child ≠ Ptr.NULL → s.CURTHR ≠ Ptr.NULL →
        (s.ready_list.head = Ptr.NULL ↔ s.ready_list.tail = Ptr.NULL) →
        (∀ j, 0 < j → j < tid → s.thrtab j ≠ Ptr.NULL) →
        ∃ s2, thread_spawn P s1 name start arg child stack_page = .ok (s2, tid)) :=
  thread_join_exited_spec P s tid h0 h1 hT hpar hex

theorem join_any_scan_found (s : KState) :
    ∀ (fuel : Nat) (c k : Int), c ≤ NTHR → NTHR ≤ c + fuel →
      (∃ t, c ≤ t ∧ t < NTHR ∧ exited_child s t) →
      ∃ t, join_any_scan s fuel c k = Sum.inl t ∧ c ≤ t ∧ t < NTHR ∧ exited_child s t ∧
        ∀ j, c ≤ j → j < t → ¬ exited_child s j := by
  intro fuel
  induction fuel with
  | zero =>
    intro c k h1 h2 ⟨t, ht1, ht2, _⟩
    simp at h2; omega
  | succ n ih =>
    intro c k h1 h2 ⟨t, ht1, ht2, ht3⟩
    have hc : c < NTHR := by omega
    unfold join_any_scan
    rw [if_pos hc]
    by_cases hchild : s.thrtab c ≠ Ptr.NULL ∧ (s.mem (s.thrtab c)).parent = s.CURTHR
    · rw [if_pos hchild]
      by_cases hex : (s.mem (s.thrtab c)).state = thread_state.THREAD_EXITED
      · rw [if_pos hex]
        exact ⟨c, rfl, le_refl c, hc, ⟨hchild.1, hchild.2, hex⟩, fun j hj1 hj2 => by omega⟩
      · rw [if_neg hex]
        have htc : t ≠ c := by
          intro e; rw [e] at ht3; exact hex ht3.2.2
        obtain ⟨u, hu1, hu2, hu3, hu4, hu5⟩ := ih (c + 1) (k + 1) (by omega)
          (by push_cast at h2; omega) ⟨t, by omega, ht2, ht3⟩
        refine ⟨u, hu1, by omega, hu3, hu4, ?_⟩
        intro j hj1 hj2
        by_cases hjc : j = c
        · rw [hjc]; intro h; exact hex h.2.2
        · exact hu5 j (by omega) hj2
    · rw [if_neg hchild]
      have htc : t ≠ c := by
        intro e; rw [e] at ht3; exact hchild ⟨ht3.1, ht3.2.1⟩
      obtain ⟨u, hu1, hu2, hu3, hu4, hu5⟩ := ih (c + 1) k (by omega)
        (by push_cast at h2; omega) ⟨t, by omega, ht2, ht3⟩
      refine ⟨u, hu1, by omega, hu3, hu4, ?_⟩
      intro j hj1 hj2
      by_cases hjc : j = c
      · rw [hjc]; intro h; exact hchild ⟨h.1, h.2.1⟩
      · exact hu5 j (by omega) hj2

theorem join_any_scan_childless (s : KState) :
    ∀ (fuel : Nat) (c k : Int),
      (∀ i, c ≤ i → i < NTHR → ¬ (s.thrtab i ≠ Ptr.NULL ∧ (s.mem (s.thrtab i)).parent = s.CURTHR)) →
      join_any_scan s fuel c k = Sum.inr k := by
  intro fuel
  induction fuel with
  | zero => intro c k _; rfl
  | succ n ih =>
    intro c k h
    unfold join_any_scan
    by_cases hc : c < NTHR
    · rw [if_pos hc, if_neg (h c (le_refl c) hc)]
      exact ih (c + 1) k (fun i hi1 hi2 => h i (by omega) hi2)
    · rw [if_neg hc]

/-- C5: when some child of the current thread has already exited,
`thread_join_any` returns the lowest tid of such a child with the caller still
current and no thread state changed, and the slot is free afterwards; when no
thread in the table has the current thread as parent it is fatal.  Slot 0
holds MAIN, which has no parent: `hmain` says it holds no child of the caller. -/
theorem thread_join_any_exited_child (P : Platform) (s : KState)
    (hmain : ¬ (s.thrtab 0 ≠ Ptr.NULL ∧ (s.mem (s.thrtab 0)).parent = s.CURTHR)) :
    ((∃ t, 0 ≤ t ∧ t < NTHR ∧ exited_child s t) →
      ∃ s1 tid, thread_join_any P s = .ok (s1, ret.returned tid) ∧
        0 ≤ tid ∧ tid < NTHR ∧ exited_child s tid ∧
        (∀ j, 0 ≤ j → j < tid → ¬ exited_child s j) ∧
        s1.thrtab tid = Ptr.NULL ∧ s1.CURTHR = s.CURTHR ∧
        s1.ready_list = s.ready_list ∧ ∀ p, (s1.mem p).state = (s.mem p).state) ∧
    ((∀ i, 0 ≤ i → i < NTHR →
        ¬ (s.thrtab i ≠ Ptr.NULL ∧ (s.mem (s.thrtab i)).parent = s.CURTHR)) →
      thread_join_any P s = .error Err.childless_thread) := by
  constructor
  · rintro ⟨t, ht0, ht1, ht2⟩
    have ht : t ≠ 0 := by
      intro e; rw [e] at ht2; exact hmain ⟨ht2.1, ht2.2.1⟩
    obtain ⟨u, hu1, hu2, hu3, hu4, hu5⟩ := join_any_scan_found s NTHR.toNat 1 0 (by decide)
      (by decide) ⟨t, by omega, ht1, ht2⟩
    obtain ⟨s1, e, c1, r1, st, t1, _⟩ := thread_join_exited_spec P s u (by omega) hu3
      hu4.1 hu4.2.1 hu4.2.2
    refine ⟨s1, u, ?_, by omega, hu3, hu4, ?_, t1, c1, r1, st⟩
    · unfold thread_join_any
      rw [hu1]
      exact e
    · intro j hj0 hj1
      by_cases hj : j = 0
      · rw [hj]; intro h; exact hmain ⟨h.1, h.2.1⟩
      · exact hu5 j (by omega) hj1
  · intro h
    unfold thread_join_any
    rw [join_any_scan_childless s NTHR.toNat 1 0 (fun i hi1 hi2 => h i (by omega) hi2)]
    simp

theorem thread_join_exited_child_witness :
    (0 : Int) < 1 ∧ (1 : Int) < NTHR ∧ with_exited_child.thrtab 1 ≠ Ptr.NULL ∧
    (with_exited_child.mem (with_exited_child.thrtab 1)).parent = with_exited_child.CURTHR ∧
    (with_exited_child.mem (with_exited_child.thrtab 1)).state = thread_state.THREAD_EXITED ∧
    ∃ s1, thread_join demo_platform with_exited_child 1 = .ok (s1, ret.returned 1) ∧
      s1.CURTHR = with_exited_child.CURTHR ∧ s1.thrtab 1 = Ptr.NULL :=
  ⟨by decide, by decide, by decide, by decide, by decide,
    (thread_join_exited_child demo_platform with_exited_child 1 (by decide) (by decide)
      (by decide) (by decide) (by decide)).imp (fun _ h => ⟨h.1, h.2.1, h.2.2.2.2.1⟩)⟩

theorem thread_join_any_exited_child_witness :
    ¬ (with_exited_child.thrtab 0 ≠ Ptr.NULL ∧
        (with_exited_child.mem (with_exited_child.thrtab 0)).parent = with_exited_child.CURTHR) ∧
    (∃ t, 0 ≤ t ∧ t < NTHR ∧ exited_child with_exited_child t) ∧
    ∃ s1 tid, thread_join_any demo_platform with_exited_child = .ok (s1, ret.returned tid) ∧
      exited_child with_exited_child tid ∧ s1.thrtab tid = Ptr.NULL :=
  ⟨by decide, ⟨1, by decide, by decide, by decide, by decide, by decide⟩,
    ((thread_join_any_exited_child demo_platform with_exited_child (by decide)).1
      ⟨1, by decide, by decide, by decide, by decide, by decide⟩).imp
      (fun _ h => h.imp (fun _ h1 => ⟨h1.1, h1.2.2.2.1, h1.2.2.2.2.2.1⟩))⟩

theorem child_below_iff (s : KState) (tid : Int) (p : Ptr)
    (hmain : ¬ (s.thrtab 0 ≠ Ptr.NULL ∧ (s.mem (s.thrtab 0)).parent = s.thrtab tid)) :
    child_below s.thrtab s.mem (s.thrtab tid) NTHR p ↔
      (p ≠ Ptr.NULL ∧ (s.mem p).parent = s.thrtab tid ∧ ∃ i, 0 ≤ i ∧ i < NTHR ∧ s.thrtab i = p) := by
  constructor
  · rintro ⟨a, b, i, hi1, hi2, hi3⟩
    exact ⟨a, b, i, by omega, hi2, hi3⟩
  · rintro ⟨a, b, i, hi1, hi2, hi3⟩
    refine ⟨a, b, i, ?_, hi2, hi3⟩
    by_contra hlt
    have hi0 : i = 0 := by omega
    rw [hi0] at hi3
    exact hmain ⟨by rw [hi3]; exact a, by rw [hi3]; exact b⟩

theorem ok_of_toOption_map {α β : Type} {x : Except Err α} {f : α → β} {b : β}
    (h : x.toOption.map f = some b) : ∃ a, x = .ok a ∧ f a = b := by
  cases x with
  | error e => simp [Except.toOption] at h
  | ok a => exact ⟨a, rfl, by simpa [Except.toOption] using h⟩

/-- C6: for an exited thread T in slot `tid`, `recycle_thread` gives every
thread of the table whose parent was T the parent of T, leaves every other
thread record as it was, and frees slot `tid` only; in the run where MAIN
spawns T1, T1 spawns T2, T1 exits and MAIN joins T1, T2 ends up with parent
MAIN.  Slot 0 holds MAIN, which has no parent: `hmain` says it holds no child
of T. -/
theorem recycle_thread_reparents (s : KState) (tid : Int) (h0 : 0 < tid) (h1 : tid < NTHR)
    (hT : s.thrtab tid ≠ Ptr.NULL)
    (hex : (s.mem (s.thrtab tid)).state = thread_state.THREAD_EXITED)
    (hmain : ¬ (s.thrtab 0 ≠ Ptr.NULL ∧ (s.mem (s.thrtab 0)).parent = s.thrtab tid)) :
    (∃ s1, recycle_thread s tid = .ok s1 ∧
      (∀ i, 0 ≤ i → i < NTHR → s.thrtab i ≠ Ptr.NULL →
        (s.mem (s.thrtab i)).parent = s.thrtab tid →
        s1.mem (s.thrtab i) =
          { s.mem (s.thrtab i) with parent := (s.mem (s.thrtab tid)).parent }) ∧
      (∀ p, ¬ (p ≠ Ptr.NULL ∧ (s.mem p).parent = s.thrtab tid ∧
          ∃ i, 0 ≤ i ∧ i < NTHR ∧ s.thrtab i = p) → s1.mem p = s.mem p) ∧
      s1.thrtab tid = Ptr.NULL ∧ (∀ i, i ≠ tid → s1.thrtab i = s.thrtab i)) ∧
    (∃ s2, reparent_scenario = .ok (s2, ret.returned 1) ∧
      s2.thrtab 0 = Ptr.main_thread ∧ s2.thrtab 1 = Ptr.NULL ∧ s2.thrtab 2 = Ptr.heap 2 ∧
      (s2.mem (Ptr.heap 2)).parent = Ptr.main_thread) := by
  constructor
  · obtain ⟨s1, e, t1, _, _, _, hin, hout⟩ := recycle_thread_spec s tid h0 h1 hT hex
    refine ⟨s1, e, ?_, ?_, by rw [t1, Function.update_same],
      fun i hi => by rw [t1, Function.update_noteq hi]⟩
    · intro i hi0 hi1 hi2 hi3
      exact hin _ ((child_below_iff s tid _ hmain).mpr ⟨hi2, hi3, i, hi0, hi1, rfl⟩)
    · intro p hp
      exact hout p (fun h => hp ((child_below_iff s tid p hmain).mp h))
  · have key : reparent_scenario.toOption.map
        (fun r => (r.2, r.1.thrtab 0, r.1.thrtab 1, r.1.thrtab 2, (r.1.mem (Ptr.heap 2)).parent)) =
        some (ret.returned 1, Ptr.main_thread, Ptr.NULL, Ptr.heap 2, Ptr.main_thread) := by rfl
    obtain ⟨⟨s2, r⟩, e, h⟩ := ok_of_toOption_map key
    simp only [Prod.mk.injEq] at h
    obtain ⟨hr, ha, hb, hc, hd⟩ := h
    subst hr
    exact ⟨s2, e, ha, hb, hc, hd⟩

theorem recycle_thread_reparents_witness :
    (0 : Int) < 1 ∧ (1 : Int) < NTHR ∧ with_exited_child.thrtab 1 ≠ Ptr.NULL ∧
    (with_exited_child.mem (with_exited_child.thrtab 1)).state = thread_state.THREAD_EXITED ∧
    ¬ (with_exited_child.thrtab 0 ≠ Ptr.NULL ∧
        (with_exited_child.mem (with_exited_child.thrtab 0)).parent = with_exited_child.thrtab 1) ∧
    ∃ s1, recycle_thread with_exited_child 1 = .ok s1 ∧ s1.thrtab 1 = Ptr.NULL :=
  ⟨by decide, by decide, by decide, by decide, by decide,
    (recycle_thread_reparents with_exited_child 1 (by decide) (by decide) (by decide)
      (by decide) (by decide)).1.imp (fun _ h => ⟨h.1, h.2.2.2.1⟩)⟩

/-! ## Condition variables -/

theorem blank_state {a b : thread} (h : blank_child_exit a = blank_child_exit b) :
    a.state = b.state :=
  (congrArg thread.state h : (blank_child_exit a).state = (blank_child_exit b).state)

theorem blank_wait_cond {a b : thread} (h : blank_child_exit a = blank_child_exit b) :
    a.wait_cond = b.wait_cond :=
  (congrArg thread.wait_cond h : (blank_child_exit a).wait_cond = (blank_child_exit b).wait_cond)

theorem blank_list_next {a b : thread} (h : blank_child_exit a = blank_child_exit b) :
    a.list_next = b.list_next :=
  (congrArg thread.list_next h : (blank_child_exit a).list_next = (blank_child_exit b).list_next)

theorem valid_of_get_wait_list {s : KState} {c : cond_ptr} {wl : thread_list}
    (h : get_wait_list s c = .ok wl) : valid_cond c := by
  cases c with
  | NULL => simp [get_wait_list] at h
  | child_exit t =>
    by_cases ht : t = Ptr.NULL
    · simp [get_wait_list, ht] at h
    · exact ht
  | obj a => trivial

/-- Loading a wait list depends only on `conds` and on `child_exit` members. -/
theorem get_wait_list_congr (s s1 : KState) (c : cond_ptr) (hc : s1.conds = s.conds)
    (hm : ∀ p, (s1.mem p).child_exit = (s.mem p).child_exit) :
    get_wait_list s1 c = get_wait_list s c := by
  cases c with
  | NULL => rfl
  | child_exit t => simp [get_wait_list, hm t]
  | obj a => simp [get_wait_list, hc]

theorem set_wait_list_spec {c : cond_ptr} (hv : valid_cond c) (s : KState) (l : thread_list) :
    ∃ s1, set_wait_list s c l = .ok s1 ∧ get_wait_list s1 c = .ok l ∧
      same_but_child_exit s.mem s1.mem ∧ s1.ready_list = s.ready_list ∧
      s1.thrtab = s.thrtab ∧ s1.CURTHR = s.CURTHR ∧ s1.procs = s.procs ∧ s1.calls = s.calls := by
  cases c with
  | NULL => exact absurd hv id
  | child_exit t =>
    have ht : t ≠ Ptr.NULL := hv
    have e : set_wait_list s (cond_ptr.child_exit t) l =
        .ok { s with
              mem := Function.update s.mem t
                { s.mem t with child_exit := condition.mk (s.mem t).child_exit.name l } } := by
      simp [set_wait_list, ht]
    refine ⟨_, e, by simp [get_wait_list, ht], ?_, rfl, rfl, rfl, rfl, rfl⟩
    intro p
    by_cases hp : p = t
    · subst hp; simp [blank_child_exit]
    · simp [Function.update_noteq hp]
  | obj a =>
    exact ⟨{ s with conds := Function.update s.conds a { s.conds a with wait_list := l } },
      by simp [set_wait_list], by simp [get_wait_list], fun _ => rfl, rfl, rfl, rfl, rfl, rfl⟩

theorem broadcast_walk_spec (c : cond_ptr) :
    ∀ (ws : List Ptr) (fuel : Nat) (m : Ptr → thread) (p : Ptr),
      chain m p ws → ws.Nodup → ws.length ≤ fuel →
      (∀ t ∈ ws, (m t).state = thread_state.THREAD_WAITING ∧ (m t).wait_cond = c) →
      ∃ m1, broadcast_walk c fuel m p = .ok m1 ∧
        (∀ t ∈ ws, m1 t =
          { m t with state := thread_state.THREAD_READY, wait_cond := cond_ptr.NULL }) ∧
        (∀ t, t ∉ ws → m1 t = m t) := by
  intro ws
  induction ws with
  | nil =>
    intro fuel m p hp _ _ _
    have : p = Ptr.NULL := hp
    subst this
    refine ⟨m, ?_, fun t ht => absurd ht (List.not_mem_nil t), fun _ _ => rfl⟩
    cases fuel <;> simp [broadcast_walk]
  | cons a r ih =>
    intro fuel m p hp hnd hlen hw
    obtain ⟨h1, h2, h3⟩ := hp
    subst h1
    cases fuel with
    | zero => simp at hlen
    | succ n =>
      have har : p ∉ r := (List.nodup_cons.mp hnd).1
      obtain ⟨hs, hwc⟩ := hw p (List.mem_cons_self p r)
      have hm2 : ∀ u, u ≠ p →
          set_wait_cond (set_thread_state m p thread_state.THREAD_READY) p cond_ptr.NULL u = m u := by
        intro u hu
        simp [set_wait_cond, set_thread_state, Function.update_noteq hu]
      have hm2p : set_wait_cond (set_thread_state m p thread_state.THREAD_READY) p cond_ptr.NULL p =
          { m p with state := thread_state.THREAD_READY, wait_cond := cond_ptr.NULL } := by
        simp [set_wait_cond, set_thread_state]
      have hnext : (set_wait_cond (set_thread_state m p thread_state.THREAD_READY) p
          cond_ptr.NULL p).list_next = (m p).list_next := by rw [hm2p]
      have hch : chain (set_wait_cond (set_thread_state m p thread_state.THREAD_READY) p cond_ptr.NULL)
          (m p).list_next r :=
        chain_congr (fun u hu => by rw [hm2 u (fun e => har (e ▸ hu))]) h3
      obtain ⟨m1, e1, hin, hout⟩ := ih n _ _ hch (List.nodup_cons.mp hnd).2
        (by simpa using hlen)
        (fun u hu => by
          rw [hm2 u (fun e => har (e ▸ hu))]
          exact hw u (List.mem_cons_of_mem p hu))
      refine ⟨m1, ?_, ?_, ?_⟩
      · simp only [broadcast_walk, h2, hs, hwc, if_false, ne_eq, not_true_eq_false]
        rw [hnext]
        exact e1
      · intro t ht
        rcases List.mem_cons.mp ht with h | h
        · subst h
          rw [hout t har, hm2p]
        · rw [hin t h, hm2 t (fun e => har (e ▸ h))]
      · intro t ht
        have htp : t ≠ p := fun e => ht (e ▸ List.mem_cons_self p r)
        rw [hout t (fun h => ht (List.mem_cons_of_mem p h)), hm2 t htp]

theorem condition_broadcast_spec (fuel : Nat) (s : KState) (c : cond_ptr) (wl : thread_list)
    (ws rs : List Ptr)
    (hget : get_wait_list s c = .ok wl) (hws : is_list s.mem wl ws) (hne : ws ≠ [])
    (hwait : ∀ t ∈ ws, (s.mem t).state = thread_state.THREAD_WAITING ∧ (s.mem t).wait_cond = c)
    (hrs : is_list s.mem s.ready_list rs) (hdis : ∀ x ∈ rs, x ∉ ws)
    (hfuel : ws.length ≤ fuel) :
    ∃ s1, condition_broadcast fuel s c = .ok s1 ∧
      (∀ t ∈ ws, (s1.mem t).state = thread_state.THREAD_READY ∧
        (s1.mem t).wait_cond = cond_ptr.NULL) ∧
      is_list s1.mem s1.ready_list (rs ++ ws) ∧
      get_wait_list s1 c = .ok { head := Ptr.NULL, tail := Ptr.NULL } ∧
      (∀ p, p ∉ ws → (s1.mem p).state = (s.mem p).state ∧
        (s1.mem p).wait_cond = (s.mem p).wait_cond) ∧
      (∀ p, (s1.mem p).parent = (s.mem p).parent ∧ (s1.mem p).proc = (s.mem p).proc ∧
        (s1.mem p).stack_base = (s.mem p).stack_base) ∧
      s1.CURTHR = s.CURTHR ∧ s1.thrtab = s.thrtab ∧ s1.procs = s.procs ∧
      s1.calls = s.calls := by
  have hv : valid_cond c := valid_of_get_wait_list hget
  have hempty : tlempty wl = false := by
    have : wl.head ≠ Ptr.NULL := fun e => hne ((is_list_nil_iff hws).mp e)
    simp [tlempty, this]
  obtain ⟨mem1, e1, hin, hout⟩ := broadcast_walk_spec c ws fuel s.mem wl.head hws.1 hws.2.2
    hfuel hwait
  have hfld : ∀ p, (mem1 p).list_next = (s.mem p).list_next ∧
      (mem1 p).child_exit = (s.mem p).child_exit ∧ (mem1 p).parent = (s.mem p).parent ∧
      (mem1 p).proc = (s.mem p).proc ∧ (mem1 p).stack_base = (s.mem p).stack_base := by
    intro p
    by_cases hp : p ∈ ws
    · rw [hin p hp]; exact ⟨rfl, rfl, rfl, rfl, rfl⟩
    · rw [hout p hp]; exact ⟨rfl, rfl, rfl, rfl, rfl⟩
  have eget1 : get_wait_list { s with mem := mem1 } c = .ok wl := by
    have := get_wait_list_congr s { s with mem := mem1 } c rfl
      (fun p => (hfld p).2.1)
    rw [this]
    exact hget
  have hrs1 : is_list mem1 s.ready_list rs := is_list_congr hrs (fun t _ => (hfld t).1)
  have hws1 : is_list mem1 wl ws := is_list_congr hws (fun t _ => (hfld t).1)
  obtain ⟨mem2, rl, e2, hl2, hsn, _⟩ := tlappend_is_list hrs1 hws1 hdis
  obtain ⟨s2, e3, _, hce2, r2, t2, c2, p2, k2⟩ :=
    set_wait_list_spec hv { s with mem := mem2, ready_list := rl }
      { head := Ptr.NULL, tail := Ptr.NULL }
  obtain ⟨s3, e4, g3, hce3, r3, t3, c3, p3, k3⟩ :=
    set_wait_list_spec hv s2 (tlclear { head := Ptr.NULL, tail := Ptr.NULL })
  have hmem : ∀ p, (s3.mem p).state = (mem1 p).state ∧ (s3.mem p).wait_cond = (mem1 p).wait_cond ∧
      (s3.mem p).list_next = (mem2 p).list_next ∧ (s3.mem p).parent = (mem1 p).parent ∧
      (s3.mem p).proc = (mem1 p).proc ∧ (s3.mem p).stack_base = (mem1 p).stack_base := by
    intro p
    have a := hce3 p
    have b := hce2 p
    have ab : blank_child_exit (s3.mem p) = blank_child_exit (mem2 p) := a.trans b
    have d := hsn p
    refine ⟨?_, ?_, blank_list_next ab, ?_, ?_, ?_⟩
    · rw [blank_state ab]; exact strip_state d
    · rw [blank_wait_cond ab]; exact strip_wait_cond d
    · have : (s3.mem p).parent = (mem2 p).parent :=
        (congrArg thread.parent ab : (blank_child_exit _).parent = (blank_child_exit _).parent)
      rw [this]; exact strip_parent d
    · have : (s3.mem p).proc = (mem2 p).proc :=
        (congrArg thread.proc ab : (blank_child_exit _).proc = (blank_child_exit _).proc)
      rw [this]; exact strip_proc d
    · have : (s3.mem p).stack_base = (mem2 p).stack_base :=
        (congrArg thread.stack_base ab :
          (blank_child_exit _).stack_base = (blank_child_exit _).stack_base)
      rw [this]; exact strip_stack_base d
  have e : condition_broadcast fuel s c = .ok s3 := by
    unfold condition_broadcast
    simp only [hget, hempty, e1, eget1, e2, e3, e4, Bool.false_eq_true, if_false]
  refine ⟨s3, e, ?_, ?_, g3, ?_, ?_, by rw [c3, c2], by rw [t3, t2], by rw [p3, p2],
    by rw [k3, k2]⟩
  · intro t ht
    rw [(hmem t).1, (hmem t).2.1, hin t ht]
    exact ⟨rfl, rfl⟩
  · rw [r3, r2]
    exact is_list_congr hl2 (fun t _ => (hmem t).2.2.1)
  · intro p hp
    rw [(hmem p).1, (hmem p).2.1, hout p hp]
    exact ⟨rfl, rfl⟩
  · intro p
    rw [(hmem p).2.2.2.1, (hmem p).2.2.2.2.1, (hmem p).2.2.2.2.2]
    exact ⟨(hfld p).2.2.1, (hfld p).2.2.2.1, (hfld p).2.2.2.2⟩

/-- C7: on a condition whose wait list is non-empty and holds only WAITING
threads that wait for it, `condition_broadcast` makes every waiter READY with a
null `wait_cond`, leaves on the ready list its previous threads followed by
the waiters in wait order, empties the wait list, and changes the state of no
other thread. -/
theorem condition_broadcast_wakes_all (fuel : Nat) (s : KState) (c : cond_ptr)
    (wl : thread_list) (ws rs : List Ptr)
    (hget : get_wait_list s c = .ok wl) (hws : is_list s.mem wl ws) (hne : ws ≠ [])
    (hwait : ∀ t ∈ ws, (s.mem t).state = thread_state.THREAD_WAITING ∧ (s.mem t).wait_cond = c)
    (hrs : is_list s.mem s.ready_list rs) (hdis : ∀ x ∈ rs, x ∉ ws)
    (hfuel : ws.length ≤ fuel) :
    ∃ s1, condition_broadcast fuel s c = .ok s1 ∧
      (∀ t ∈ ws, (s1.mem t).state = thread_state.THREAD_READY ∧
        (s1.mem t).wait_cond = cond_ptr.NULL) ∧
      is_list s1.mem s1.ready_list (rs ++ ws) ∧
      (∃ wl1, get_wait_list s1 c = .ok wl1 ∧ is_list s1.mem wl1 [] ∧ tlempty wl1 = true) ∧
      (∀ p, p ∉ ws → (s1.mem p).state = (s.mem p).state) ∧
      s1.CURTHR = s.CURTHR := by
  obtain ⟨s1, e, h1, h2, h3, h4, _, h6, _⟩ :=
    condition_broadcast_spec fuel s c wl ws rs hget hws hne hwait hrs hdis hfuel
  exact ⟨s1, e, h1, h2, ⟨_, h3, ⟨rfl, rfl, List.nodup_nil⟩, rfl⟩, fun p hp => (h4 p hp).1, h6⟩

/-! ## The scheduler pass -/

theorem set_thread_state_self (mem : Ptr → thread) (p : Ptr) (v : thread_state) :
    set_thread_state mem p v p = { mem p with state := v } := by
  simp [set_thread_state]

theorem set_thread_state_other (mem : Ptr → thread) {p q : Ptr} (v : thread_state) (h : q ≠ p) :
    set_thread_state mem p v q = mem q := by
  simp [set_thread_state, Function.update_noteq h]

theorem set_thread_state_next (mem : Ptr → thread) (p q : Ptr) (v : thread_state) :
    (set_thread_state mem p v q).list_next = (mem q).list_next := by
  by_cases h : q = p
  · subst h; rw [set_thread_state_self]
  · rw [set_thread_state_other mem v h]

/-- The scheduler pass when the suspending thread is still RUNNING: the head of
the ready list becomes the running thread and the suspending thread goes to
the back of the ready list. -/
theorem suspend_self_running (P : Platform) (s : KState) (t : Ptr) (r : List Ptr)
    (hcur : s.CURTHR ≠ Ptr.NULL) (hrl : is_list s.mem s.ready_list (t :: r))
    (ht : (s.mem t).state = thread_state.THREAD_READY)
    (hc : (s.mem s.CURTHR).state = thread_state.THREAD_RUNNING)
    (hnot : s.CURTHR ∉ t :: r) :
    ∃ s1, suspend_self P s = .ok s1 ∧ s1.CURTHR = t ∧
      is_list s1.mem s1.ready_list (r ++ [s.CURTHR]) ∧
      (s1.mem t).state = thread_state.THREAD_RUNNING ∧
      (s1.mem s.CURTHR).state = thread_state.THREAD_READY ∧
      (∀ p, p ≠ t → p ≠ s.CURTHR → (s1.mem p).state = (s.mem p).state) ∧
      (∀ p, p ∉ t :: r → p ≠ s.CURTHR → (s1.mem p).list_next = (s.mem p).list_next) ∧
      (∀ p, (s1.mem p).wait_cond = (s.mem p).wait_cond ∧ (s1.mem p).parent = (s.mem p).parent ∧
        (s1.mem p).child_exit = (s.mem p).child_exit ∧ (s1.mem p).proc = (s.mem p).proc) ∧
      s1.thrtab = s.thrtab ∧ s1.conds = s.conds ∧ s1.procs = s.procs := by
  obtain ⟨mem1, l1, e1, hl1, hs1, ho1⟩ := tlremove_is_list hrl
  have htn : t ≠ Ptr.NULL := chain_ne_null hrl.1 t (List.mem_cons_self t r)
  have hct : s.CURTHR ≠ t := fun e => hnot (e ▸ List.mem_cons_self t r)
  have hcr : s.CURTHR ∉ r := fun h => hnot (List.mem_cons_of_mem t h)
  have hempty : tlempty s.ready_list = false := by
    have : s.ready_list.head ≠ Ptr.NULL := by rw [hrl.1.1]; exact htn
    simp [tlempty, this]
  have ht1 : (mem1 t).state = thread_state.THREAD_READY := by
    rw [strip_state (hs1 t)]; exact ht
  have hc2 : (set_thread_state mem1 t thread_state.THREAD_RUNNING s.CURTHR).state =
      thread_state.THREAD_RUNNING := by
    rw [set_thread_state_other _ _ hct, ho1 _ hct]; exact hc
  have hl2 : is_list (set_thread_state (set_thread_state mem1 t thread_state.THREAD_RUNNING)
      s.CURTHR thread_state.THREAD_READY) l1 r :=
    is_list_congr hl1 (fun u _ => by rw [set_thread_state_next, set_thread_state_next])
  obtain ⟨mem3, rl, e3, hl3, hs3, ho3⟩ := tlinsert_is_list hl2 hcur hcr
  have hst : ∀ p, strip (mem3 p) = strip (set_thread_state (set_thread_state s.mem t
      thread_state.THREAD_RUNNING) s.CURTHR thread_state.THREAD_READY p) := by
    intro p
    rw [hs3 p]
    by_cases hpc : p = s.CURTHR
    · rw [hpc, set_thread_state_self, set_thread_state_self, set_thread_state_other _ _ hct,
        set_thread_state_other _ _ hct]
      have := hs1 s.CURTHR
      simp only [strip, thread.mk.injEq] at this ⊢
      simp [this]
    · rw [set_thread_state_other _ _ hpc, set_thread_state_other _ _ hpc]
      by_cases hpt : p = t
      · rw [hpt, set_thread_state_self, set_thread_state_self]
        have := hs1 t
        simp only [strip, thread.mk.injEq] at this ⊢
        simp [this]
      · rw [set_thread_state_other _ _ hpt, set_thread_state_other _ _ hpt]
        exact hs1 p
  have hc3 : (mem3 s.CURTHR).state = thread_state.THREAD_READY := by
    rw [strip_state (hst _), set_thread_state_self]
  have hne : (mem3 s.CURTHR).state ≠ thread_state.THREAD_EXITED := by rw [hc3]; decide
  have e : ∃ calls1, suspend_self P s = .ok
      { s with mem := mem3, ready_list := rl, calls := calls1, CURTHR := t,
               context := Function.update s.context s.CURTHR thread_context.in_swtch } := by
    unfold suspend_self _thread_swtch
    simp only [hempty, e1, htn, ht1, hcur, hc2, e3, hne, Bool.false_eq_true, if_false, if_true,
      ne_eq, not_true_eq_false, ite_self]
    exact ⟨_, rfl⟩
  obtain ⟨calls1, e⟩ := e
  refine ⟨_, e, rfl, hl3, ?_, hc3, ?_, ?_, ?_, rfl, rfl, rfl⟩
  · show (mem3 t).state = _
    rw [strip_state (hst t), set_thread_state_other _ _ hct.symm, set_thread_state_self]
  · intro p hpt hpc
    show (mem3 p).state = _
    rw [strip_state (hst p), set_thread_state_other _ _ hpc, set_thread_state_other _ _ hpt]
  · intro p hp hpc
    show (mem3 p).list_next = _
    have hpt : p ≠ t := fun e => hp (e ▸ List.mem_cons_self t r)
    have hpl : r = [] ∨ p ≠ l1.tail := by
      by_cases hr : r = []
      · exact Or.inl hr
      · right
        intro e
        apply hp
        rw [e, hl2.2.1]
        exact List.mem_cons_of_mem t (last_or_null_mem hr)
    rw [ho3 p hpc hpl, set_thread_state_other _ _ hpc, set_thread_state_other _ _ hpt, ho1 p hpt]
  · intro p
    show (mem3 p).wait_cond = _ ∧ (mem3 p).parent = _ ∧ (mem3 p).child_exit = _ ∧ (mem3 p).proc = _
    rw [strip_wait_cond (hst p), strip_parent (hst p), strip_child_exit (hst p),
      strip_proc (hst p)]
    by_cases hpc : p = s.CURTHR
    · rw [hpc, set_thread_state_self, set_thread_state_other _ _ hct]
      exact ⟨rfl, rfl, rfl, rfl⟩
    · rw [set_thread_state_other _ _ hpc]
      by_cases hpt : p = t
      · rw [hpt, set_thread_state_self]
        exact ⟨rfl, rfl, rfl, rfl⟩
      · rw [set_thread_state_other _ _ hpt]
        exact ⟨rfl, rfl, rfl, rfl⟩

/-- The scheduler pass when the suspending thread is neither RUNNING nor EXITED
(it waits on a condition): the head of the ready list becomes the running
thread and the suspending thread is put on no list. -/
theorem suspend_self_blocked (P : Platform) (s : KState) (t : Ptr) (r : List Ptr)
    (hcur : s.CURTHR ≠ Ptr.NULL) (hrl : is_list s.mem s.ready_list (t :: r))
    (ht : (s.mem t).state = thread_state.THREAD_READY)
    (hc1 : (s.mem s.CURTHR).state ≠ thread_state.THREAD_RUNNING)
    (hc2 : (s.mem s.CURTHR).state ≠ thread_state.THREAD_EXITED)
    (hct : s.CURTHR ≠ t) :
    ∃ s1, suspend_self P s = .ok s1 ∧ s1.CURTHR = t ∧
      is_list s1.mem s1.ready_list r ∧
      (s1.mem t).state = thread_state.THREAD_RUNNING ∧
      (∀ p, p ≠ t → (s1.mem p).state = (s.mem p).state) ∧
      (∀ p, p ≠ t → (s1.mem p).list_next = (s.mem p).list_next) ∧
      (∀ p, (s1.mem p).wait_cond = (s.mem p).wait_cond ∧ (s1.mem p).parent = (s.mem p).parent ∧
        (s1.mem p).child_exit = (s.mem p).child_exit ∧ (s1.mem p).proc = (s.mem p).proc) ∧
      s1.thrtab = s.thrtab ∧ s1.conds = s.conds ∧ s1.procs = s.procs := by
  obtain ⟨mem1, l1, e1, hl1, hs1, ho1⟩ := tlremove_is_list hrl
  have htn : t ≠ Ptr.NULL := chain_ne_null hrl.1 t (List.mem_cons_self t r)
  have hempty : tlempty s.ready_list = false := by
    have : s.ready_list.head ≠ Ptr.NULL := by rw [hrl.1.1]; exact htn
    simp [tlempty, this]
  have ht1 : (mem1 t).state = thread_state.THREAD_READY := by
    rw [strip_state (hs1 t)]; exact ht
  have hcm : set_thread_state mem1 t thread_state.THREAD_RUNNING s.CURTHR = s.mem s.CURTHR := by
    rw [set_thread_state_other _ _ hct, ho1 _ hct]
  have e : ∃ calls1, suspend_self P s = .ok
      { s with mem := set_thread_state mem1 t thread_state.THREAD_RUNNING, ready_list := l1,
               calls := calls1, CURTHR := t,
               context := Function.update s.context s.CURTHR thread_context.in_swtch } := by
    unfold suspend_self _thread_swtch
    simp only [hempty, e1, htn, ht1, hcur, hcm, hc1, hc2, Bool.false_eq_true, if_false,
      ne_eq, not_true_eq_false, ite_self]
    exact ⟨_, rfl⟩
  obtain ⟨calls1, e⟩ := e
  refine ⟨_, e, rfl, ?_, ?_, ?_, ?_, ?_, rfl, rfl, rfl⟩
  · exact is_list_congr hl1 (fun u _ => set_thread_state_next mem1 t u _)
  · show (set_thread_state mem1 t thread_state.THREAD_RUNNING t).state = _
    rw [set_thread_state_self]
  · intro p hp
    show (set_thread_state mem1 t thread_state.THREAD_RUNNING p).state = _
    rw [set_thread_state_other _ _ hp, ho1 p hp]
  · intro p hp
    show (set_thread_state mem1 t thread_state.THREAD_RUNNING p).list_next = _
    rw [set_thread_state_other _ _ hp, ho1 p hp]
  · intro p
    show (set_thread_state mem1 t thread_state.THREAD_RUNNING p).wait_cond = _ ∧
      (set_thread_state mem1 t thread_state.THREAD_RUNNING p).parent = _ ∧
      (set_thread_state mem1 t thread_state.THREAD_RUNNING p).child_exit = _ ∧
      (set_thread_state mem1 t thread_state.THREAD_RUNNING p).proc = _
    by_cases hp : p = t
    · rw [hp, set_thread_state_self]
      exact ⟨(strip_wait_cond (hs1 t) : (mem1 t).wait_cond = _),
        (strip_parent (hs1 t) : (mem1 t).parent = _),
        (strip_child_exit (hs1 t) : (mem1 t).child_exit = _),
        (strip_proc (hs1 t) : (mem1 t).proc = _)⟩
    · rw [set_thread_state_other _ _ hp, ho1 p hp]
      exact ⟨rfl, rfl, rfl, rfl⟩

/-! ## `thread_yield` and round-robin order -/

theorem thread_yield_step (P : Platform) (s : KState) (c t : Ptr) (r : List Ptr)
    (hs : sched s c (t :: r)) :
    ∃ s1, thread_yield P s = .ok s1 ∧ sched s1 t (r ++ [c]) ∧
      (∀ p, (s1.mem p).wait_cond = (s.mem p).wait_cond) ∧ s1.thrtab = s.thrtab := by
  obtain ⟨h1, h2, h3, h4, h5, h6⟩ := hs
  subst h1
  obtain ⟨s1, e, c1, l1, st, sc, so, _, hf, tt, _⟩ := suspend_self_running P s t r h2 h3
    (h6 t (List.mem_cons_self t r)) h5 h4
  have htn : t ≠ Ptr.NULL := chain_ne_null h3.1 t (List.mem_cons_self t r)
  have htr : t ∉ r := (List.nodup_cons.mp h3.2.2).1
  have hct : s.CURTHR ≠ t := fun e => h4 (e ▸ List.mem_cons_self t r)
  refine ⟨s1, ?_, ⟨c1, htn, l1, ?_, st, ?_⟩, fun p => (hf p).1, tt⟩
  · unfold thread_yield
    simp only [h2, h5, if_false, ne_eq, not_true_eq_false]
    exact e
  · intro h
    rcases List.mem_append.mp h with h | h
    · exact htr h
    · exact hct (List.mem_singleton.mp h).symm
  · intro u hu
    rcases List.mem_append.mp hu with h | h
    · have hut : u ≠ t := fun e => htr (e ▸ h)
      have huc : u ≠ s.CURTHR := fun e => h4 (e ▸ List.mem_cons_of_mem t h)
      rw [so u hut huc]
      exact h6 u (List.mem_cons_of_mem t h)
    · rw [List.mem_singleton.mp h]; exact sc

theorem yields_rotate (P : Platform) :
    ∀ (n : Nat) (s : KState) (c : Ptr) (ts : List Ptr), ts ≠ [] → sched s c ts →
      ∃ s1 c1 ts1, yields P n s = .ok s1 ∧ (c :: ts).rotate n = c1 :: ts1 ∧ sched s1 c1 ts1 ∧
        (∀ p, (s1.mem p).wait_cond = (s.mem p).wait_cond) ∧ s1.thrtab = s.thrtab := by
  intro n
  induction n with
  | zero =>
    intro s c ts _ hs
    exact ⟨s, c, ts, rfl, by simp, hs, fun _ => rfl, rfl⟩
  | succ n ih =>
    intro s c ts hne hs
    cases ts with
    | nil => exact absurd rfl hne
    | cons t r =>
      obtain ⟨s1, e1, hs1, hw1, ht1⟩ := thread_yield_step P s c t r hs
      obtain ⟨s2, c2, ts2, e2, hrot, hs2, hw2, ht2⟩ := ih s1 t (r ++ [c]) (by simp) hs1
      refine ⟨s2, c2, ts2, ?_, ?_, hs2, fun p => (hw2 p).trans (hw1 p), ht2.trans ht1⟩
      · simp only [yields, e1]
        exact e2
      · rw [List.rotate_cons_succ]
        exact hrot

theorem yield_trace_take (P : Platform) :
    ∀ (n : Nat) (s : KState) (c : Ptr) (ts : List Ptr), n ≤ ts.length + 1 → ts ≠ [] →
      sched s c ts → yield_trace P n s = .ok ((ts ++ [c]).take n) := by
  intro n
  induction n with
  | zero => intro s c ts _ _ _; rfl
  | succ n ih =>
    intro s c ts hn hne hs
    cases ts with
    | nil => exact absurd rfl hne
    | cons t r =>
      obtain ⟨s1, e1, hs1, _, _⟩ := thread_yield_step P s c t r hs
      have hlen : n ≤ (r ++ [c]).length := by
        simp only [List.length_cons] at hn
        simp only [List.length_append, List.length_singleton]
        omega
      have e2 := ih s1 t (r ++ [c]) (by omega) (by simp) hs1
      rw [List.take_append_of_le_length hlen] at e2
      simp only [yield_trace, e1, e2, hs1.1, List.cons_append, List.take_succ_cons]

/-- C9: if the current thread `c` is RUNNING and the ready list holds the READY
threads `ts` (at least one), `thread_yield` makes the head of `ts` the running
thread and leaves the rest of `ts` followed by `c` on the ready list; after any
number `m` of yields the configuration is the `m`-fold rotation of `c :: ts`,
the next `k+1` yields run each of the `k+1` threads exactly once, and they
bring the configuration back. -/
theorem thread_yield_round_robin (P : Platform) (s : KState) (c : Ptr) (ts : List Ptr)
    (hs : sched s c ts) (hne : ts ≠ []) :
    (∃ s1, thread_yield P s = .ok s1 ∧ s1.CURTHR = ts.head hne ∧
      is_list s1.mem s1.ready_list (ts.tail ++ [c]) ∧
      (s1.mem (ts.head hne)).state = thread_state.THREAD_RUNNING ∧
      (s1.mem c).state = thread_state.THREAD_READY) ∧
    (∀ m : Nat, ∃ sm cm tsm, yields P m s = .ok sm ∧ (c :: ts).rotate m = cm :: tsm ∧
      sched sm cm tsm ∧
      (∃ tr, yield_trace P (ts.length + 1) sm = .ok tr ∧ tr.Perm (c :: ts) ∧ tr.Nodup) ∧
      (∃ sm1, yields P (ts.length + 1) sm = .ok sm1 ∧ sched sm1 cm tsm)) := by
  have hnd : (c :: ts).Nodup := List.nodup_cons.mpr ⟨hs.2.2.2.1, hs.2.2.1.2.2⟩
  constructor
  · cases ts with
    | nil => exact absurd rfl hne
    | cons t r =>
      obtain ⟨s1, e1, hs1, _, _⟩ := thread_yield_step P s c t r hs
      refine ⟨s1, e1, hs1.1, hs1.2.2.1, hs1.2.2.2.2.1, ?_⟩
      exact hs1.2.2.2.2.2 c (by simp)
  · intro m
    obtain ⟨sm, cm, tsm, e, hrot, hsm, _, _⟩ := yields_rotate P m s c ts hne hs
    have hperm : (cm :: tsm).Perm (c :: ts) := hrot ▸ List.rotate_perm (c :: ts) m
    have hlen : tsm.length = ts.length := by
      have := hperm.length_eq
      simpa using this
    have hne1 : tsm ≠ [] := by
      intro h
      rw [h] at hlen
      exact hne (List.length_eq_zero.mp hlen.symm)
    refine ⟨sm, cm, tsm, e, hrot, hsm, ?_, ?_⟩
    · have htr := yield_trace_take P (tsm.length + 1) sm cm tsm (le_refl _) hne1 hsm
      rw [List.take_of_length_le (by simp)] at htr
      have hp2 : (tsm ++ [cm]).Perm (c :: ts) :=
        (List.perm_append_comm.trans (by simp)).trans hperm
      exact ⟨tsm ++ [cm], by rw [← hlen]; exact htr, hp2, hp2.nodup_iff.mpr hnd⟩
    · obtain ⟨sm1, c1, ts1, e1, hrot1, hs1, _, _⟩ :=
        yields_rotate P (ts.length + 1) sm cm tsm hne1 hsm
      have hfull : (cm :: tsm).rotate (ts.length + 1) = cm :: tsm := by
        have : (cm :: tsm).length = ts.length + 1 := by simp [hlen]
        rw [← this, List.rotate_length]
      rw [hfull] at hrot1
      simp only [List.cons.injEq] at hrot1
      obtain ⟨rfl, rfl⟩ := hrot1
      exact ⟨sm1, e1, hs1⟩

theorem thread_yield_round_robin_witness :
    sched started Ptr.main_thread [Ptr.idle_thread] ∧ [Ptr.idle_thread] ≠ [] ∧
    ∃ s1, thread_yield demo_platform started = .ok s1 ∧ s1.CURTHR = Ptr.idle_thread ∧
      is_list s1.mem s1.ready_list [Ptr.main_thread] :=
  ⟨⟨rfl, by decide, by decide, by decide, rfl, by decide⟩, by decide,
    (thread_yield_round_robin demo_platform started Ptr.main_thread [Ptr.idle_thread]
      ⟨rfl, by decide, by decide, by decide, rfl, by decide⟩ (by decide)).1.imp
      (fun _ h => ⟨h.1, h.2.1, h.2.2.1⟩)⟩

/-! ## `condition_wait` -/

theorem condition_wait_spec (P : Platform) (s : KState) (c : cond_ptr) (wl : thread_list)
    (ws : List Ptr) (t : Ptr) (r : List Ptr)
    (hcur : s.CURTHR ≠ Ptr.NULL)
    (hrun : (s.mem s.CURTHR).state = thread_state.THREAD_RUNNING)
    (hrl : is_list s.mem s.ready_list (t :: r))
    (ht : (s.mem t).state = thread_state.THREAD_READY)
    (hnot : s.CURTHR ∉ t :: r)
    (hget : get_wait_list s c = .ok wl) (hws : is_list s.mem wl ws)
    (hnw : s.CURTHR ∉ ws) (hdis : ∀ x ∈ ws, x ∉ t :: r) :
    ∃ s1, condition_wait P s c = .ok s1 ∧
      (s1.mem s.CURTHR).state = thread_state.THREAD_WAITING ∧
      (s1.mem s.CURTHR).wait_cond = c ∧
      (∃ wl1, get_wait_list s1 c = .ok wl1 ∧ is_list s1.mem wl1 (ws ++ [s.CURTHR])) ∧
      is_list s1.mem s1.ready_list r ∧ s1.CURTHR = t ∧
      (s1.mem t).state = thread_state.THREAD_RUNNING ∧
      (∀ p, p ≠ t → p ≠ s.CURTHR → (s1.mem p).state = (s.mem p).state ∧
        (s1.mem p).wait_cond = (s.mem p).wait_cond) ∧
      s1.thrtab = s.thrtab := by
  have hv : valid_cond c := valid_of_get_wait_list hget
  have hct : s.CURTHR ≠ t := fun e => hnot (e ▸ List.mem_cons_self t r)
  -- the record of the caller after the three stores
  have hm3 : ∀ p, p ≠ s.CURTHR →
      set_list_next (set_wait_cond (set_thread_state s.mem s.CURTHR thread_state.THREAD_WAITING)
        s.CURTHR c) s.CURTHR Ptr.NULL p = s.mem p := by
    intro p hp
    simp [set_list_next, set_wait_cond, set_thread_state, Function.update_noteq hp]
  have hm3c : set_list_next (set_wait_cond (set_thread_state s.mem s.CURTHR
        thread_state.THREAD_WAITING) s.CURTHR c) s.CURTHR Ptr.NULL s.CURTHR =
      { s.mem s.CURTHR with state := thread_state.THREAD_WAITING, wait_cond := c,
                            list_next := Ptr.NULL } := by
    simp [set_list_next, set_wait_cond, set_thread_state]
  generalize hM : set_list_next (set_wait_cond (set_thread_state s.mem s.CURTHR
    thread_state.THREAD_WAITING) s.CURTHR c) s.CURTHR Ptr.NULL = mem3 at hm3 hm3c
  have hce3 : ∀ p, (mem3 p).child_exit = (s.mem p).child_exit := by
    intro p
    by_cases hp : p = s.CURTHR
    · rw [hp, hm3c]
    · rw [hm3 p hp]
  have eget : get_wait_list { s with mem := mem3 } c = .ok wl := by
    have := get_wait_list_congr s { s with mem := mem3 } c rfl hce3
    rw [this]; exact hget
  have hws3 : is_list mem3 wl ws :=
    is_list_congr hws (fun u hu => by rw [hm3 u (fun e => hnw (e ▸ hu))])
  obtain ⟨mem4, wl1, e4, hl4, hs4, ho4⟩ := tlinsert_is_list hws3 hcur hnw
  obtain ⟨s2, e5, g5, hce5, r5, t5, c5, p5, k5⟩ :=
    set_wait_list_spec hv { s with mem := mem4 } wl1
  -- fields of the memory before the scheduler pass
  have hst2 : ∀ p, (s2.mem p).state = (mem3 p).state ∧ (s2.mem p).wait_cond = (mem3 p).wait_cond ∧
      (s2.mem p).list_next = (mem4 p).list_next := by
    intro p
    have a := hce5 p
    exact ⟨(blank_state a).trans (strip_state (hs4 p)),
      (blank_wait_cond a).trans (strip_wait_cond (hs4 p)), blank_list_next a⟩
  have hready : ∀ u ∈ t :: r, (s2.mem u).list_next = (s.mem u).list_next := by
    intro u hu
    have huc : u ≠ s.CURTHR := fun e => hnot (e ▸ hu)
    have hul : ws = [] ∨ u ≠ wl.tail := by
      by_cases hw : ws = []
      · exact Or.inl hw
      · right
        intro e
        exact hdis _ (last_or_null_mem hw) (by rw [← hws.2.1, ← e]; exact hu)
    rw [(hst2 u).2.2, ho4 u huc hul, hm3 u huc]
  have hrl2 : is_list s2.mem s2.ready_list (t :: r) := by
    rw [r5]
    exact is_list_congr hrl hready
  have ht2 : (s2.mem t).state = thread_state.THREAD_READY := by
    rw [(hst2 t).1, hm3 t hct.symm]; exact ht
  have hc2 : (s2.mem s2.CURTHR).state = thread_state.THREAD_WAITING := by
    rw [c5]
    show (s2.mem s.CURTHR).state = _
    rw [(hst2 _).1, hm3c]
  obtain ⟨s3, e6, c6, l6, st6, so6, sn6, sf6, t6, k6, _⟩ := suspend_self_blocked P s2 t r
    (by rw [c5]; exact hcur) hrl2 ht2 (by rw [hc2]; decide) (by rw [hc2]; decide)
    (by rw [c5]; exact hct)
  have e : condition_wait P s c = .ok s3 := by
    unfold condition_wait
    simp only [hcur, hrun, hM, eget, e4, e5, if_false, ne_eq, not_true_eq_false]
    exact e6
  refine ⟨s3, e, ?_, ?_, ⟨wl1, ?_, ?_⟩, l6, c6, st6, ?_, by rw [t6, t5]⟩
  · rw [so6 _ hct]
    have := hc2
    rw [c5] at this
    exact this
  · rw [(sf6 _).1, (hst2 _).2.1, hm3c]
  · have := get_wait_list_congr s2 s3 c k6 (fun p => (sf6 p).2.2.1)
    rw [this]; exact g5
  · have hl5 : is_list s2.mem wl1 (ws ++ [s.CURTHR]) :=
      is_list_congr hl4 (fun u _ => (hst2 u).2.2)
    refine is_list_congr hl5 (fun u hu => sn6 u ?_)
    intro e
    rcases List.mem_append.mp hu with h | h
    · exact hdis u h (e ▸ List.mem_cons_self t r)
    · exact hct ((List.mem_singleton.mp h).symm.trans e)
  · intro p hpt hpc
    rw [so6 p hpt, (sf6 p).1, (hst2 p).1, (hst2 p).2.1, hm3 p hpc]
    exact ⟨rfl, rfl⟩

theorem condition_broadcast_wakes_all_witness :
    get_wait_list with_waiter (cond_ptr.child_exit Ptr.main_thread) =
      .ok { head := Ptr.main_thread, tail := Ptr.main_thread } ∧
    is_list with_waiter.mem { head := Ptr.main_thread, tail := Ptr.main_thread }
      [Ptr.main_thread] ∧
    [Ptr.main_thread] ≠ [] ∧
    (∀ t ∈ [Ptr.main_thread], (with_waiter.mem t).state = thread_state.THREAD_WAITING ∧
      (with_waiter.mem t).wait_cond = cond_ptr.child_exit Ptr.main_thread) ∧
    is_list with_waiter.mem with_waiter.ready_list [Ptr.heap 1] ∧
    (∀ x ∈ [Ptr.heap 1], x ∉ [Ptr.main_thread]) ∧ [Ptr.main_thread].length ≤ 16 ∧
    ∃ s1, condition_broadcast 16 with_waiter (cond_ptr.child_exit Ptr.main_thread) = .ok s1 ∧
      (∀ t ∈ [Ptr.main_thread], (s1.mem t).state = thread_state.THREAD_READY ∧
        (s1.mem t).wait_cond = cond_ptr.NULL) ∧
      is_list s1.mem s1.ready_list ([Ptr.heap 1] ++ [Ptr.main_thread]) :=
  ⟨rfl, by decide, by decide, by decide, by decide, by decide, by decide,
    (condition_broadcast_wakes_all 16 with_waiter (cond_ptr.child_exit Ptr.main_thread)
      { head := Ptr.main_thread, tail := Ptr.main_thread } [Ptr.main_thread] [Ptr.heap 1]
      rfl (by decide) (by decide) (by decide) (by decide) (by decide)
      (by decide)).imp (fun _ h => ⟨h.1, h.2.1, h.2.2.1⟩)⟩

/-- C8: when a RUNNING thread T calls `condition_wait` on C with a non-empty
ready list, T becomes WAITING with `wait_cond = C` at the tail of C's wait
list and is not on the ready list, and the former head of the ready list is
the running thread; and from any later state in which T waits on C, a
`condition_broadcast` on C followed by yields of the running threads brings T
back as the current thread, RUNNING and with a null `wait_cond`. -/
theorem condition_wait_blocks_then_resumes (P : Platform) (s : KState) (c : cond_ptr)
    (wl : thread_list) (ws : List Ptr) (t : Ptr) (r : List Ptr)
    (hcur : s.CURTHR ≠ Ptr.NULL)
    (hrun : (s.mem s.CURTHR).state = thread_state.THREAD_RUNNING)
    (hrl : is_list s.mem s.ready_list (t :: r))
    (ht : (s.mem t).state = thread_state.THREAD_READY)
    (hnot : s.CURTHR ∉ t :: r)
    (hget : get_wait_list s c = .ok wl) (hws : is_list s.mem wl ws)
    (hnw : s.CURTHR ∉ ws) (hdis : ∀ x ∈ ws, x ∉ t :: r) :
    (∃ s1, condition_wait P s c = .ok s1 ∧
      (s1.mem s.CURTHR).state = thread_state.THREAD_WAITING ∧
      (s1.mem s.CURTHR).wait_cond = c ∧
      (∃ wl1, get_wait_list s1 c = .ok wl1 ∧ is_list s1.mem wl1 (ws ++ [s.CURTHR])) ∧
      is_list s1.mem s1.ready_list r ∧ s.CURTHR ∉ r ∧ s1.CURTHR = t ∧
      (s1.mem t).state = thread_state.THREAD_RUNNING) ∧
    (∀ (fuel : Nat) (s2 : KState) (c2 : Ptr) (rs2 ws2 : List Ptr) (wl2 : thread_list),
      sched s2 c2 rs2 → get_wait_list s2 c = .ok wl2 → is_list s2.mem wl2 ws2 →
      s.CURTHR ∈ ws2 →
      (∀ w ∈ ws2, (s2.mem w).state = thread_state.THREAD_WAITING ∧ (s2.mem w).wait_cond = c) →
      (∀ x ∈ rs2, x ∉ ws2) → c2 ∉ ws2 → ws2.length ≤ fuel →
      ∃ s3 n s4, condition_broadcast fuel s2 c = .ok s3 ∧
        is_list s3.mem s3.ready_list (rs2 ++ ws2) ∧
        yields P n s3 = .ok s4 ∧ s4.CURTHR = s.CURTHR ∧
        (s4.mem s.CURTHR).state = thread_state.THREAD_RUNNING ∧
        (s4.mem s.CURTHR).wait_cond = cond_ptr.NULL) := by
  constructor
  · obtain ⟨s1, e, a1, a2, a3, a4, a5, a6, _⟩ :=
      condition_wait_spec P s c wl ws t r hcur hrun hrl ht hnot hget hws hnw hdis
    exact ⟨s1, e, a1, a2, a3, a4, fun h => hnot (List.mem_cons_of_mem t h), a5, a6⟩
  · intro fuel s2 c2 rs2 ws2 wl2 hs2 hget2 hws2 hT hwait2 hdis2 hc2 hfuel
    obtain ⟨k1, k2, k3, k4, k5, k6⟩ := hs2
    have hne : ws2 ≠ [] := List.ne_nil_of_mem hT
    obtain ⟨s3, e3, b1, b2, _, b4, _, b6, _⟩ :=
      condition_broadcast_spec fuel s2 c wl2 ws2 rs2 hget2 hws2 hne hwait2 k3 hdis2 hfuel
    have hs3 : sched s3 c2 (rs2 ++ ws2) := by
      refine ⟨b6.trans k1, k2, b2, ?_, ?_, ?_⟩
      · intro h
        rcases List.mem_append.mp h with h | h
        · exact k4 h
        · exact hc2 h
      · rw [(b4 c2 hc2).1]; exact k5
      · intro u hu
        rcases List.mem_append.mp hu with h | h
        · rw [(b4 u (fun h1 => hdis2 u h h1)).1]; exact k6 u h
        · exact (b1 u h).1
    obtain ⟨A, B, hAB⟩ := List.append_of_mem hT
    have hL : c2 :: (rs2 ++ ws2) = (c2 :: (rs2 ++ A)) ++ (s.CURTHR :: B) := by
      rw [hAB]; simp
    obtain ⟨s4, c4, ts4, e4, hrot, hs4, hw4, _⟩ :=
      yields_rotate P (c2 :: (rs2 ++ A)).length s3 c2 (rs2 ++ ws2) (by simp [hne]) hs3
    rw [hL, List.rotate_append_length_eq] at hrot
    simp only [List.cons_append, List.cons.injEq] at hrot
    obtain ⟨rfl, _⟩ := hrot
    refine ⟨s3, _, s4, e3, b2, e4, hs4.1, hs4.2.2.2.2.1, ?_⟩
    rw [hw4]
    exact (b1 _ hT).2

theorem condition_wait_blocks_then_resumes_witness :
    with_child.CURTHR ≠ Ptr.NULL ∧
    (with_child.mem with_child.CURTHR).state = thread_state.THREAD_RUNNING ∧
    is_list with_child.mem with_child.ready_list [Ptr.idle_thread, Ptr.heap 1] ∧
    (with_child.mem Ptr.idle_thread).state = thread_state.THREAD_READY ∧
    with_child.CURTHR ∉ [Ptr.idle_thread, Ptr.heap 1] ∧
    get_wait_list with_child (cond_ptr.child_exit Ptr.main_thread) =
      .ok { head := Ptr.NULL, tail := Ptr.NULL } ∧
    is_list with_child.mem { head := Ptr.NULL, tail := Ptr.NULL } [] ∧
    with_child.CURTHR ∉ ([] : List Ptr) ∧
    (∀ x ∈ ([] : List Ptr), x ∉ [Ptr.idle_thread, Ptr.heap 1]) ∧
    (∃ s1, condition_wait demo_platform with_child (cond_ptr.child_exit Ptr.main_thread) = .ok s1 ∧
      (s1.mem with_child.CURTHR).state = thread_state.THREAD_WAITING ∧
      (s1.mem with_child.CURTHR).wait_cond = cond_ptr.child_exit Ptr.main_thread) ∧
    (∃ s3 n s4, condition_broadcast 16 with_waiter (cond_ptr.child_exit Ptr.main_thread) = .ok s3 ∧
      is_list s3.mem s3.ready_list ([Ptr.heap 1] ++ [Ptr.main_thread]) ∧
      yields demo_platform n s3 = .ok s4 ∧ s4.CURTHR = with_child.CURTHR ∧
      (s4.mem with_child.CURTHR).state = thread_state.THREAD_RUNNING ∧
      (s4.mem with_child.CURTHR).wait_cond = cond_ptr.NULL) :=
  ⟨by decide, by decide, by decide, by decide, by decide, rfl, by decide, by decide, by decide,
    (condition_wait_blocks_then_resumes demo_platform with_child
      (cond_ptr.child_exit Ptr.main_thread)
      { head := Ptr.NULL, tail := Ptr.NULL } [] Ptr.idle_thread [Ptr.heap 1]
      (by decide) (by decide) (by decide) (by decide) (by decide) rfl (by decide)
      (by decide) (by decide)).1.imp (fun _ h => ⟨h.1, h.2.1, h.2.2.1⟩),
    (condition_wait_blocks_then_resumes demo_platform with_child
      (cond_ptr.child_exit Ptr.main_thread)
      { head := Ptr.NULL, tail := Ptr.NULL } [] Ptr.idle_thread [Ptr.heap 1]
      (by decide) (by decide) (by decide) (by decide) (by decide) rfl (by decide)
      (by decide) (by decide)).2 16 with_waiter Ptr.idle_thread [Ptr.heap 1] [Ptr.main_thread]
      { head := Ptr.main_thread, tail := Ptr.main_thread }
      ⟨rfl, by decide, by decide, by decide, rfl, by decide⟩ rfl (by decide) (by decide)
      (by decide) (by decide) (by decide) (by decide)⟩

/-! ## `thread_fork_to_user` -/

theorem thread_spawn_tid_pos {P : Platform} {s s1 : KState} {name : String} {start arg : Nat}
    {child : Ptr} {stack_page : Int} {tid : Int}
    (h : thread_spawn P s name start arg child stack_page = .ok (s1, tid)) : 0 < tid := by
  obtain ⟨a, _, _, _⟩ := spawn_scan_spec s.thrtab NTHR.toNat 0 (by decide) (by decide)
  unfold thread_spawn at h
  by_cases h1 : spawn_scan s.thrtab NTHR.toNat 0 = NTHR
  · simp [h1] at h
  · by_cases h2 : child = Ptr.NULL
    · simp [h1, h2] at h
    · by_cases h3 : s.CURTHR = Ptr.NULL
      · simp [h1, h2, h3] at h
      · simp only [h1, h2, h3, if_false] at h
        split at h
        · cases h
        · simp only [Except.ok.injEq, Prod.mk.injEq] at h
          rw [← h.2]; exact a

/-- What `thread_fork_to_user` does once its arguments and the clone are good
and `thread_spawn` finds a slot. -/
theorem thread_fork_to_user_spawned (P : Platform) (s : KState) (child_proc parent_tfr : Nat)
    (x : fork_ext) (h1 : child_proc ≠ 0) (h2 : parent_tfr ≠ 0) (h3 : x.clone_ret ≠ 0)
    (hslot : ∃ i, 0 < i ∧ i < NTHR ∧ s.thrtab i = Ptr.NULL)
    (hk : x.kmalloc_ret ≠ Ptr.NULL) (hcur : s.CURTHR ≠ Ptr.NULL)
    (hrl : s.ready_list.head = Ptr.NULL ↔ s.ready_list.tail = Ptr.NULL) :
    (x.switch_ret = 0 → ∃ s1, thread_fork_to_user P s child_proc parent_tfr x = .ok (s1, -5)) ∧
    (x.switch_ret ≠ 0 → ∃ s1, thread_fork_to_user P s child_proc parent_tfr x = .ok (s1, 0)) := by
  obtain ⟨i, hi0, hi1, hi2⟩ := hslot
  have h12 : ¬ (child_proc = 0 ∨ parent_tfr = 0) := by simp [h1, h2]
  generalize hs2 : ({ s with
      calls := s.calls ++
        [ext_call.memory_space_clone (child_proc_asid P.fast16_bits (s.procs child_proc).mtag)],
      procs := Function.update s.procs child_proc
        { s.procs child_proc with mtag := x.clone_ret } } : KState) = s2
  have ht2 : s2.thrtab = s.thrtab := by rw [← hs2]
  have hc2 : s2.CURTHR = s.CURTHR := by rw [← hs2]
  have hr2 : s2.ready_list = s.ready_list := by rw [← hs2]
  obtain ⟨a, _, _, d⟩ := spawn_scan_spec s2.thrtab NTHR.toNat 0 (by decide) (by decide)
  have htid : spawn_scan s2.thrtab NTHR.toNat 0 ≠ NTHR := by
    intro e; rw [e, ht2] at d; exact d i hi0 hi1 hi2
  obtain ⟨s3, e3, t3, _, _, _⟩ := thread_spawn_ok P s2 "child_thread" x.finish_fork x.arg
    x.kmalloc_ret x.page_ret hk (by rw [hc2]; exact hcur) (by rw [hr2]; exact hrl) htid
  have hch : s3.thrtab (spawn_scan s2.thrtab NTHR.toNat 0) = x.kmalloc_ret := by
    rw [t3, Function.update_same]
  have hpos : ¬ (spawn_scan s2.thrtab NTHR.toNat 0 < 0) := by omega
  have hor : (0 ≤ spawn_scan s2.thrtab NTHR.toNat 0 ∨ spawn_scan s2.thrtab NTHR.toNat 0 < NTHR) :=
    Or.inl (by omega)
  constructor
  · intro hsw
    unfold thread_fork_to_user
    simp only [h12, h3, if_false, hs2, e3, hpos, hch, hk, thread_set_process, hsw, if_true,
      not_true_eq_false, hor]
    exact ⟨_, rfl⟩
  · intro hsw
    unfold thread_fork_to_user
    simp only [h12, h3, if_false, hs2, e3, hpos, hch, hk, thread_set_process, hsw,
      not_true_eq_false, hor]
    rw [if_neg (by rw [hch, Function.update_same]; exact h1)]
    exact ⟨_, rfl⟩

/-- C10 (counterexample): with every slot of the table taken, spawning the child
thread fails, and `thread_fork_to_user` ends in the "Too many threads" panic of
`thread_spawn` instead of returning -3. -/
theorem thread_fork_to_user_spawn_failure_is_fatal :
    thread_spawn demo_platform full_table "child_thread" 0 0 (Ptr.heap 20) 0x80300000 =
      .error Err.too_many_threads ∧
    ¬ ∃ s1, thread_fork_to_user demo_platform full_table 1 1 demo_fork_ext = .ok (s1, -3) := by
  have e : thread_fork_to_user demo_platform full_table 1 1 demo_fork_ext =
      .error Err.too_many_threads := rfl
  refine ⟨rfl, ?_⟩
  rintro ⟨s1, h⟩
  rw [e] at h
  cases h

/-- C10 (amended): `thread_fork_to_user` returns -1 when an argument is null;
otherwise -2 when the clone returns a zero mtag; otherwise it is fatal ("Too
many threads") when `thread_spawn` finds no free slot; otherwise, the record
from `kmalloc` being non-null and the thread manager initialised, -5 when the
address-space switch returns zero and 0 when it does not; -3 is never
returned. -/
theorem thread_fork_to_user_codes (P : Platform) (s : KState) (child_proc parent_tfr : Nat)
    (x : fork_ext) :
    ((child_proc = 0 ∨ parent_tfr = 0) →
      thread_fork_to_user P s child_proc parent_tfr x = .ok (s, -1)) ∧
    (child_proc ≠ 0 → parent_tfr ≠ 0 → x.clone_ret = 0 →
      ∃ s1, thread_fork_to_user P s child_proc parent_tfr x = .ok (s1, -2)) ∧
    (child_proc ≠ 0 → parent_tfr ≠ 0 → x.clone_ret ≠ 0 →
      (∀ i, 0 < i → i < NTHR → s.thrtab i ≠ Ptr.NULL) →
      thread_fork_to_user P s child_proc parent_tfr x = .error Err.too_many_threads) ∧
    (child_proc ≠ 0 → parent_tfr ≠ 0 → x.clone_ret ≠ 0 →
      (∃ i, 0 < i ∧ i < NTHR ∧ s.thrtab i = Ptr.NULL) →
      x.kmalloc_ret ≠ Ptr.NULL → s.CURTHR ≠ Ptr.NULL →
      (s.ready_list.head = Ptr.NULL ↔ s.ready_list.tail = Ptr.NULL) →
      (x.switch_ret = 0 → ∃ s1, thread_fork_to_user P s child_proc parent_tfr x = .ok (s1, -5)) ∧
      (x.switch_ret ≠ 0 → ∃ s1, thread_fork_to_user P s child_proc parent_tfr x = .ok (s1, 0))) ∧
    (∀ s1 v, thread_fork_to_user P s child_proc parent_tfr x = .ok (s1, v) → v ≠ -3) := by
  refine ⟨?_, ?_, ?_, ?_, ?_⟩
  · intro h
    unfold thread_fork_to_user
    simp only [h, if_true]
  · intro h1 h2 h3
    have h12 : ¬ (child_proc = 0 ∨ parent_tfr = 0) := by simp [h1, h2]
    unfold thread_fork_to_user
    simp only [h12, h3, if_false, if_true]
    exact ⟨_, rfl⟩
  · intro h1 h2 h3 hfull
    have h12 : ¬ (child_proc = 0 ∨ parent_tfr = 0) := by simp [h1, h2]
    unfold thread_fork_to_user
    simp only [h12, h3, if_false]
    split
    · rename_i e heq
      have e2 := heq.symm.trans (thread_spawn_full P _ _ _ _ _ _ (spawn_scan_full _ hfull))
      rw [Except.error.injEq] at e2
      rw [e2]
    · rename_i s3 tid heq
      have e2 := heq.symm.trans (thread_spawn_full P _ _ _ _ _ _ (spawn_scan_full _ hfull))
      cases e2
  · intro h1 h2 h3 hslot hk hcur hrl
    exact thread_fork_to_user_spawned P s child_proc parent_tfr x h1 h2 h3 hslot hk hcur hrl
  · intro s1 v h hv
    subst hv
    unfold thread_fork_to_user at h
    by_cases a : child_proc = 0 ∨ parent_tfr = 0
    · simp [a] at h
    · by_cases b : x.clone_ret = 0
      · simp [a, b] at h
      · simp only [a, b, if_false] at h
        split at h
        · cases h
        · rename_i s3 tid heq
          have hpos := thread_spawn_tid_pos heq
          have hneg : ¬ tid < 0 := by omega
          simp only [hneg, if_false] at h
          by_cases c : s3.thrtab tid = Ptr.NULL
          · simp [c] at h
          · simp only [c, if_false] at h
            split at h
            · cases h
            · by_cases d : x.switch_ret = 0
              · simp [d] at h
              · simp only [d, if_false] at h
                split at h
                · cases h
                · simp at h

theorem thread_fork_to_user_codes_witness :
    ∃ s1, thread_fork_to_user demo_platform started 1 1 demo_fork_ext = .ok (s1, 0) :=
  ((thread_fork_to_user_codes demo_platform started 1 1 demo_fork_ext).2.2.2.1
    (by decide) (by decide) (by decide) ⟨1, by decide, by decide, by decide⟩
    (by decide) (by decide) (by decide)).2 (by decide)

/-! ## The ASID passed to `memory_space_clone` -/

theorem land_mask_shift (x : Nat) : (x &&& SATP_ASID_MASK) / 2 ^ 44 = (x / 2 ^ 44) % 2 ^ 12 := by
  have hM : SATP_ASID_MASK = (2 ^ 16 - 1) <<< 40 := by decide
  apply Nat.eq_of_testBit_eq
  intro i
  rw [← Nat.shiftRight_eq_div_pow, ← Nat.shiftRight_eq_div_pow, Nat.testBit_shiftRight,
    Nat.testBit_and, Nat.testBit_mod_two_pow, Nat.testBit_shiftRight, hM, Nat.testBit_shiftLeft,
    Nat.testBit_two_pow_sub_one]
  by_cases h : i < 12
  · have h1 : 44 + i ≥ 40 := by omega
    have h2 : 44 + i - 40 < 16 := by omega
    simp [h, h1, h2]
  · have h2 : ¬ (44 + i - 40 < 16) := by omega
    simp [h, h2]

theorem land_mask_lt (x : Nat) : x &&& SATP_ASID_MASK < 2 ^ 56 := by
  have : x &&& SATP_ASID_MASK ≤ SATP_ASID_MASK := Nat.and_le_right
  have h2 : SATP_ASID_MASK < 2 ^ 56 := by decide
  omega

theorem child_proc_asid_64 (mtag : Nat) :
    child_proc_asid 64 mtag = (mtag % 2 ^ 64 / 2 ^ 44) % 2 ^ 12 := by
  have h1 := land_mask_lt (mtag % 2 ^ 64)
  have h2 := land_mask_shift (mtag % 2 ^ 64)
  unfold child_proc_asid to_signed
  have h3 : (mtag % 2 ^ 64 &&& SATP_ASID_MASK) % 2 ^ 64 = mtag % 2 ^ 64 &&& SATP_ASID_MASK :=
    Nat.mod_eq_of_lt (by omega)
  have h7 : (2 : Nat) ^ 56 ≤ 2 ^ (64 - 1) := by norm_num
  rw [h3, if_pos (lt_of_lt_of_le h1 h7)]
  have h4 : ((mtag % 2 ^ 64 &&& SATP_ASID_MASK : Nat) : Int) / 2 ^ 44 =
      (((mtag % 2 ^ 64 &&& SATP_ASID_MASK) / 2 ^ 44 : Nat) : Int) := by
    push_cast; rfl
  rw [h4, h2]
  have h5 : (mtag % 2 ^ 64 / 2 ^ 44) % 2 ^ 12 < 2 ^ 12 := Nat.mod_lt _ (by norm_num)
  have h6 : ((((mtag % 2 ^ 64 / 2 ^ 44) % 2 ^ 12 : Nat) : Int)) % 2 ^ 64 =
      (((mtag % 2 ^ 64 / 2 ^ 44) % 2 ^ 12 : Nat) : Int) := by
    apply Int.emod_eq_of_lt
    · exact Int.natCast_nonneg _
    · have : (((mtag % 2 ^ 64 / 2 ^ 44) % 2 ^ 12 : Nat) : Int) < 2 ^ 12 := by exact_mod_cast h5
      omega
  rw [h6]
  exact Int.toNat_natCast _

/-- C20 (code): `SATP_ASID_MASK` is `0xFFFF << 40`, so with a 64-bit
`int_fast16_t` the value passed to `memory_space_clone` is bits 44 to 55 of
the mtag only; for the mtag `2^56`, whose ASID field is 0x1000, the value
passed is 0 whatever the width of `int_fast16_t`, in `thread_fork_to_user`
too. -/
theorem fork_asid_misses_high_bits :
    (∀ mtag, child_proc_asid 64 mtag = (mtag % 2 ^ 64 / 2 ^ 44) % 2 ^ 12) ∧
    (∀ w, child_proc_asid w (2 ^ 56) = 0) ∧
    (2 ^ 56 / 2 ^ 44) % 2 ^ 16 = 4096 ∧
    (with_proc.procs 1).mtag = 2 ^ 56 ∧
    (thread_fork_to_user demo_platform with_proc 1 1 demo_fork_ext).toOption.map
      (fun r => (r.2, r.1.calls[1]?)) = some (0, some (ext_call.memory_space_clone 0)) := by
  refine ⟨child_proc_asid_64, ?_, by norm_num, rfl, rfl⟩
  intro w
  have h : (2 ^ 56 % 2 ^ 64) &&& SATP_ASID_MASK = 0 := by decide
  unfold child_proc_asid
  rw [h]
  simp [to_signed]

/-! ## `tlinsert` with a null thread -/

/-- C13 (code): `tlinsert` stores to `thr->list_next` before it tests `thr`, so a
null thread is a store through a null pointer for every list, not a no-op. -/
theorem tlinsert_null_is_a_null_store (mem : Ptr → thread) (list : thread_list) :
    tlinsert mem list Ptr.NULL = .error Err.null_deref := by
  simp [tlinsert]

/-! ## The tid of the child process -/

theorem thread_spawn_procs {P : Platform} {s s1 : KState} {name : String} {start arg : Nat}
    {child : Ptr} {stack_page : Int} {tid : Int}
    (h : thread_spawn P s name start arg child stack_page = .ok (s1, tid)) :
    s1.procs = s.procs ∧ s1.thrtab tid = child ∧ child ≠ Ptr.NULL := by
  unfold thread_spawn at h
  by_cases h1 : spawn_scan s.thrtab NTHR.toNat 0 = NTHR
  · simp [h1] at h
  · by_cases h2 : child = Ptr.NULL
    · simp [h1, h2] at h
    · by_cases h3 : s.CURTHR = Ptr.NULL
      · simp [h1, h2, h3] at h
      · simp only [h1, h2, h3, if_false] at h
        split at h
        · cases h
        · simp only [Except.ok.injEq, Prod.mk.injEq] at h
          obtain ⟨ha, hb⟩ := h
          subst ha hb
          exact ⟨rfl, by simp [_thread_setup], h2⟩

theorem thread_fork_to_user_tid (P : Platform) (s s1 : KState) (child_proc parent_tfr : Nat)
    (x : fork_ext) (h : thread_fork_to_user P s child_proc parent_tfr x = .ok (s1, 0)) :
    (s1.procs child_proc).tid = (s.procs child_proc).tid := by
  unfold thread_fork_to_user at h
  by_cases a : child_proc = 0 ∨ parent_tfr = 0
  · simp [a] at h
  · by_cases b : x.clone_ret = 0
    · simp [a, b] at h
    · simp only [a, b, if_false] at h
      split at h
      · cases h
      · rename_i s3 tid heq
        obtain ⟨hp, hc, hk⟩ := thread_spawn_procs heq
        have hpos := thread_spawn_tid_pos heq
        have hneg : ¬ tid < 0 := by omega
        have hor : (0 ≤ tid ∨ tid < NTHR) := Or.inl (by omega)
        generalize hq : s3.thrtab tid = q at h
        rw [hc] at hq
        subst hq
        simp only [hneg, if_false, hk, thread_set_process, hor, not_true_eq_false, hc] at h
        by_cases d : x.switch_ret = 0
        · simp [d] at h
        · have hcp : child_proc ≠ 0 := fun e => a (Or.inl e)
          simp only [d, if_false, Function.update_same, hcp, Except.ok.injEq,
            Prod.mk.injEq, and_true] at h
          subst h
          simp [hp]

/-- C11 (code): the last store of `thread_fork_to_user` writes the `tid` of the
child process descriptor back to itself, so after every call that returns 0
the field is what it was before; in the run below the thread spawned for the
child has id 1 and the descriptor still holds 7. -/
theorem thread_fork_to_user_tid_unchanged :
    (∀ (P : Platform) (s s1 : KState) (child_proc parent_tfr : Nat) (x : fork_ext),
      thread_fork_to_user P s child_proc parent_tfr x = .ok (s1, 0) →
      (s1.procs child_proc).tid = (s.procs child_proc).tid) ∧
    (with_proc.procs 1).tid = 7 ∧
    (thread_fork_to_user demo_platform with_proc 1 1 demo_fork_ext).toOption.map
      (fun r => (r.2, r.1.thrtab 1, (r.1.mem (Ptr.heap 20)).id, (r.1.mem (Ptr.heap 20)).proc,
        (r.1.procs 1).tid)) = some (0, Ptr.heap 20, 1, 1, 7) :=
  ⟨thread_fork_to_user_tid, rfl, rfl⟩

/-! ## Thread lists are FIFO and stay well formed -/

theorem chain_unique {mem : Ptr → thread} :
    ∀ {ts us : List Ptr} {p : Ptr}, chain mem p ts → chain mem p us → ts = us := by
  intro ts
  induction ts with
  | nil =>
    intro us p h1 h2
    cases us with
    | nil => rfl
    | cons u r =>
      have : p = Ptr.NULL := h1
      exact absurd (h2.1 ▸ this) h2.2.1
  | cons t r ih =>
    intro us p h1 h2
    cases us with
    | nil =>
      have : p = Ptr.NULL := h2
      exact absurd (h1.1 ▸ this) h1.2.1
    | cons u r1 =>
      have htu : t = u := h1.1.symm.trans h2.1
      subst htu
      rw [ih h1.2.2 h2.2.2]

theorem tlremove_next_null {mem mem1 : Ptr → thread} {l l1 : thread_list} {t : Ptr}
    (h : tlremove mem l = (mem1, l1, t)) (ht : t ≠ Ptr.NULL) : (mem1 t).list_next = Ptr.NULL := by
  unfold tlremove at h
  by_cases hh : l.head = Ptr.NULL
  · simp [hh] at h
    exact absurd h.2.2.symm ht
  · simp only [hh, if_false, Prod.mk.injEq] at h
    obtain ⟨h1, _, h3⟩ := h
    rw [← h1, h3, set_list_next_self]

theorem tlremove_empty (mem : Ptr → thread) (l : thread_list) (h : l.head = Ptr.NULL) :
    tlremove mem l = (mem, l, Ptr.NULL) := by
  simp [tlremove, h]

theorem tlinsert_seq_is_list :
    ∀ (xs : List Ptr) (mem : Ptr → thread) (l : thread_list) (ts : List Ptr),
      is_list mem l ts → xs.Nodup → (∀ x ∈ xs, x ≠ Ptr.NULL) → (∀ x ∈ xs, x ∉ ts) →
      ∃ mem1 l1, tlinsert_seq mem l xs = .ok (mem1, l1) ∧ is_list mem1 l1 (ts ++ xs) := by
  intro xs
  induction xs with
  | nil =>
    intro mem l ts h _ _ _
    exact ⟨mem, l, rfl, by simpa using h⟩
  | cons x r ih =>
    intro mem l ts h hnd hnn hdis
    obtain ⟨m1, l1, e1, h1, _, _⟩ := tlinsert_is_list h (hnn x (List.mem_cons_self x r))
      (hdis x (List.mem_cons_self x r))
    obtain ⟨m2, l2, e2, h2⟩ := ih m1 l1 (ts ++ [x]) h1 (List.nodup_cons.mp hnd).2
      (fun y hy => hnn y (List.mem_cons_of_mem x hy))
      (fun y hy hm => by
        rcases List.mem_append.mp hm with h3 | h3
        · exact hdis y (List.mem_cons_of_mem x hy) h3
        · rw [List.mem_singleton] at h3
          exact (List.nodup_cons.mp hnd).1 (h3 ▸ hy))
    refine ⟨m2, l2, ?_, by simpa using h2⟩
    simp only [tlinsert_seq, e1]
    exact e2

theorem tlremove_seq_is_list :
    ∀ (ts : List Ptr) (mem : Ptr → thread) (l : thread_list), is_list mem l ts →
      ∃ mem1 l1, tlremove_seq ts.length mem l = (mem1, l1, ts) ∧ is_list mem1 l1 [] ∧
        (∀ t ∈ ts, (mem1 t).list_next = Ptr.NULL) ∧ (∀ p, p ∉ ts → mem1 p = mem p) := by
  intro ts
  induction ts with
  | nil =>
    intro mem l h
    exact ⟨mem, l, rfl, h, fun t ht => absurd ht (List.not_mem_nil t), fun _ _ => rfl⟩
  | cons t r ih =>
    intro mem l h
    obtain ⟨m1, l1, e1, h1, _, ho1⟩ := tlremove_is_list h
    have htn : t ≠ Ptr.NULL := chain_ne_null h.1 t (List.mem_cons_self t r)
    have htr : t ∉ r := (List.nodup_cons.mp h.2.2).1
    obtain ⟨m2, l2, e2, h2, hn2, ho2⟩ := ih m1 l1 h1
    refine ⟨m2, l2, ?_, h2, ?_, ?_⟩
    · simp only [tlremove_seq, List.length_cons, e1, e2]
    · intro u hu
      rcases List.mem_cons.mp hu with h3 | h3
      · rw [h3, ho2 t htr]
        exact tlremove_next_null e1 htn
      · exact hn2 u h3
    · intro p hp
      have hpt : p ≠ t := fun e => hp (e ▸ List.mem_cons_self t r)
      rw [ho2 p (fun h3 => hp (List.mem_cons_of_mem t h3)), ho1 p hpt]

/-- C12: on a well-formed list, inserting distinct non-null threads that are not
on it leaves the old threads followed by the new ones in insertion order;
`tlremove` returns the first thread, takes it off the list and clears its
`list_next`, so removing as many times as there are threads returns them in
the order they entered; on an empty list `tlremove` returns null and leaves
the list as it is. -/
theorem thread_list_fifo (mem : Ptr → thread) (l : thread_list) (ts xs : List Ptr)
    (h : is_list mem l ts) (hnd : xs.Nodup) (hnn : ∀ x ∈ xs, x ≠ Ptr.NULL)
    (hdis : ∀ x ∈ xs, x ∉ ts) :
    (∃ mem1 l1, tlinsert_seq mem l xs = .ok (mem1, l1) ∧ is_list mem1 l1 (ts ++ xs) ∧
      ∃ mem2 l2, tlremove_seq (ts ++ xs).length mem1 l1 = (mem2, l2, ts ++ xs) ∧
        is_list mem2 l2 [] ∧ ∀ t ∈ ts ++ xs, (mem2 t).list_next = Ptr.NULL) ∧
    (∀ t r, ts = t :: r →
      ∃ mem1 l1, tlremove mem l = (mem1, l1, t) ∧ is_list mem1 l1 r ∧
        (mem1 t).list_next = Ptr.NULL) ∧
    (ts = [] → tlremove mem l = (mem, l, Ptr.NULL) ∧ tlempty l = true) := by
  refine ⟨?_, ?_, ?_⟩
  · obtain ⟨m1, l1, e1, h1⟩ := tlinsert_seq_is_list xs mem l ts h hnd hnn hdis
    obtain ⟨m2, l2, e2, h2, hn2, _⟩ := tlremove_seq_is_list (ts ++ xs) m1 l1 h1
    exact ⟨m1, l1, e1, h1, m2, l2, e2, h2, hn2⟩
  · intro t r htr
    subst htr
    obtain ⟨m1, l1, e1, h1, _, _⟩ := tlremove_is_list h
    exact ⟨m1, l1, e1, h1,
      tlremove_next_null e1 (chain_ne_null h.1 t (List.mem_cons_self t r))⟩
  · intro hts
    have hh : l.head = Ptr.NULL := (is_list_nil_iff h).mpr hts
    exact ⟨tlremove_empty mem l hh, by simp [tlempty, hh]⟩

theorem thread_list_fifo_witness :
    is_list started.mem started.ready_list [Ptr.idle_thread] ∧
    [Ptr.heap 1, Ptr.heap 2].Nodup ∧ (∀ x ∈ [Ptr.heap 1, Ptr.heap 2], x ≠ Ptr.NULL) ∧
    (∀ x ∈ [Ptr.heap 1, Ptr.heap 2], x ∉ [Ptr.idle_thread]) ∧
    ∃ mem1 l1, tlinsert_seq started.mem started.ready_list [Ptr.heap 1, Ptr.heap 2] =
        .ok (mem1, l1) ∧
      is_list mem1 l1 ([Ptr.idle_thread] ++ [Ptr.heap 1, Ptr.heap 2]) :=
  ⟨by decide, by decide, by decide, by decide,
    (thread_list_fifo started.mem started.ready_list [Ptr.idle_thread] [Ptr.heap 1, Ptr.heap 2]
      (by decide) (by decide) (by decide) (by decide)).1.imp
      (fun _ h => h.imp (fun _ h1 => ⟨h1.1, h1.2.1⟩))⟩

/-- The scheduler pass when the suspending thread has EXITED: the head of the
ready list becomes the running thread and the exited thread is put on no list.
When the resumed thread had been suspended in `suspend_self`, it frees the
page at `stack_base - PAGE_SIZE` of the exited thread and clears its stack
fields; a thread that runs for the first time leaves them as they are. -/
theorem suspend_self_exited (P : Platform) (s : KState) (t : Ptr) (r : List Ptr)
    (hcur : s.CURTHR ≠ Ptr.NULL) (hrl : is_list s.mem s.ready_list (t :: r))
    (ht : (s.mem t).state = thread_state.THREAD_READY)
    (hc : (s.mem s.CURTHR).state = thread_state.THREAD_EXITED)
    (hct : s.CURTHR ≠ t) :
    ∃ s1, suspend_self P s = .ok s1 ∧ s1.CURTHR = t ∧
      is_list s1.mem s1.ready_list r ∧
      (s1.mem t).state = thread_state.THREAD_RUNNING ∧
      (∀ p, p ≠ t → (s1.mem p).state = (s.mem p).state) ∧
      (∀ p, p ≠ t → (s1.mem p).list_next = (s.mem p).list_next) ∧
      (∀ p, (s1.mem p).wait_cond = (s.mem p).wait_cond ∧ (s1.mem p).parent = (s.mem p).parent ∧
        (s1.mem p).child_exit = (s.mem p).child_exit ∧ (s1.mem p).proc = (s.mem p).proc) ∧
      s1.thrtab = s.thrtab ∧ s1.conds = s.conds ∧ s1.procs = s.procs ∧
      (s.context t = thread_context.in_swtch →
        (s1.mem s.CURTHR).stack_base = 0 ∧
        s1.calls.getLast? =
          some (ext_call.memory_free_page ((s.mem s.CURTHR).stack_base - P.PAGE_SIZE))) ∧
      (s.context t ≠ thread_context.in_swtch →
        (s1.mem s.CURTHR).stack_base = (s.mem s.CURTHR).stack_base ∧
        ∀ a, ext_call.memory_free_page a ∈ s1.calls → ext_call.memory_free_page a ∈ s.calls) := by
  obtain ⟨mem1, l1, e1, hl1, hs1, ho1⟩ := tlremove_is_list hrl
  have htn : t ≠ Ptr.NULL := chain_ne_null hrl.1 t (List.mem_cons_self t r)
  have hempty : tlempty s.ready_list = false := by
    have : s.ready_list.head ≠ Ptr.NULL := by rw [hrl.1.1]; exact htn
    simp [tlempty, this]
  have ht1 : (mem1 t).state = thread_state.THREAD_READY := by
    rw [strip_state (hs1 t)]; exact ht
  have hcm : set_thread_state mem1 t thread_state.THREAD_RUNNING s.CURTHR = s.mem s.CURTHR := by
    rw [set_thread_state_other _ _ hct, ho1 _ hct]
  have hc1 : (s.mem s.CURTHR).state ≠ thread_state.THREAD_RUNNING := by rw [hc]; decide
  have hx : ¬ (thread_state.THREAD_EXITED = thread_state.THREAD_RUNNING) := by decide
  have e : ∃ M calls1, suspend_self P s = .ok
      { s with mem := M, ready_list := l1, calls := calls1, CURTHR := t,
               context := Function.update s.context s.CURTHR thread_context.in_swtch } ∧
      (∀ p, p ≠ s.CURTHR → M p = set_thread_state mem1 t thread_state.THREAD_RUNNING p) ∧
      (s.context t = thread_context.in_swtch →
        M s.CURTHR = { s.mem s.CURTHR with stack_base := 0, stack_size := 0 } ∧
        calls1.getLast? =
          some (ext_call.memory_free_page ((s.mem s.CURTHR).stack_base - P.PAGE_SIZE))) ∧
      (s.context t ≠ thread_context.in_swtch →
        M s.CURTHR = s.mem s.CURTHR ∧
        ∀ a, ext_call.memory_free_page a ∈ calls1 → ext_call.memory_free_page a ∈ s.calls) := by
    by_cases hctx : s.context t = thread_context.in_swtch
    · unfold suspend_self _thread_swtch
      simp only [hempty, e1, htn, ht1, hcur, hcm, hc, hx, hctx, Bool.false_eq_true, if_false,
        ne_eq, not_true_eq_false, if_true]
      refine ⟨_, _, rfl, fun p hp => Function.update_noteq hp _ _,
        fun _ => ⟨Function.update_same _ _ _, by simp⟩, fun h => h.elim⟩
    · unfold suspend_self _thread_swtch
      simp only [hempty, e1, htn, ht1, hcur, hcm, hc, hx, hctx, Bool.false_eq_true, if_false,
        ne_eq, not_true_eq_false, not_false_eq_true, if_true]
      refine ⟨_, _, rfl, fun p _ => rfl, fun h => h.elim, fun _ => ⟨hcm, ?_⟩⟩
      intro a ha
      split at ha
      · rcases List.mem_append.mp ha with h | h
        · exact h
        · rw [List.mem_singleton] at h
          cases h
      · exact ha
  obtain ⟨M, calls1, e, hupd, hin, hout⟩ := e
  have hfc : (M s.CURTHR).state = (s.mem s.CURTHR).state ∧
      (M s.CURTHR).list_next = (s.mem s.CURTHR).list_next ∧
      (M s.CURTHR).wait_cond = (s.mem s.CURTHR).wait_cond ∧
      (M s.CURTHR).parent = (s.mem s.CURTHR).parent ∧
      (M s.CURTHR).child_exit = (s.mem s.CURTHR).child_exit ∧
      (M s.CURTHR).proc = (s.mem s.CURTHR).proc := by
    by_cases hctx : s.context t = thread_context.in_swtch
    · rw [(hin hctx).1]
      exact ⟨rfl, rfl, rfl, rfl, rfl, rfl⟩
    · rw [(hout hctx).1]
      exact ⟨rfl, rfl, rfl, rfl, rfl, rfl⟩
  refine ⟨_, e, rfl, ?_, ?_, ?_, ?_, ?_, rfl, rfl, rfl, ?_, ?_⟩
  · refine is_list_congr hl1 (fun u _ => ?_)
    show (M u).list_next = _
    by_cases hu : u = s.CURTHR
    · rw [hu, hfc.2.1, ho1 _ hct]
    · rw [hupd u hu, set_thread_state_next]
  · show (M t).state = _
    rw [hupd t hct.symm, set_thread_state_self]
  · intro p hp
    show (M p).state = _
    by_cases hu : p = s.CURTHR
    · rw [hu, hfc.1]
    · rw [hupd p hu, set_thread_state_other _ _ hp, ho1 p hp]
  · intro p hp
    show (M p).list_next = _
    by_cases hu : p = s.CURTHR
    · rw [hu, hfc.2.1]
    · rw [hupd p hu, set_thread_state_other _ _ hp, ho1 p hp]
  · intro p
    show (M p).wait_cond = _ ∧ (M p).parent = _ ∧ (M p).child_exit = _ ∧ (M p).proc = _
    by_cases hu : p = s.CURTHR
    · rw [hu]
      exact ⟨hfc.2.2.1, hfc.2.2.2.1, hfc.2.2.2.2.1, hfc.2.2.2.2.2⟩
    · rw [hupd p hu]
      by_cases hp : p = t
      · rw [hp, set_thread_state_self]
        exact ⟨(strip_wait_cond (hs1 t) : (mem1 t).wait_cond = _),
          (strip_parent (hs1 t) : (mem1 t).parent = _),
          (strip_child_exit (hs1 t) : (mem1 t).child_exit = _),
          (strip_proc (hs1 t) : (mem1 t).proc = _)⟩
      · rw [set_thread_state_other _ _ hp, ho1 p hp]
        exact ⟨rfl, rfl, rfl, rfl⟩
  · intro hctx
    refine ⟨?_, (hin hctx).2⟩
    show (M s.CURTHR).stack_base = 0
    rw [(hin hctx).1]
  · intro hctx
    refine ⟨?_, (hout hctx).2⟩
    show (M s.CURTHR).stack_base = _
    rw [(hout hctx).1]

/-! ## The page freed for an exited thread -/

theorem tlinsert_same_but_next {mem mem1 : Ptr → thread} {l l1 : thread_list} {thr : Ptr}
    (h : tlinsert mem l thr = .ok (mem1, l1)) : same_but_next mem mem1 := by
  unfold tlinsert at h
  by_cases hthr : thr = Ptr.NULL
  · simp [hthr] at h
  · by_cases ht : l.tail = Ptr.NULL
    · by_cases hh : l.head = Ptr.NULL
      · simp only [hthr, ht, hh, if_false, ne_eq, not_true_eq_false, Except.ok.injEq,
          Prod.mk.injEq] at h
        rw [← h.1]
        exact same_but_next_set mem thr Ptr.NULL
      · simp [hthr, ht, hh] at h
    · by_cases hh : l.head = Ptr.NULL
      · simp [hthr, ht, hh] at h
      · simp only [hthr, ht, hh, if_false, ne_eq, not_false_eq_true, if_true, Except.ok.injEq,
          Prod.mk.injEq] at h
        rw [← h.1]
        exact same_but_next_trans (same_but_next_set mem thr Ptr.NULL)
          (same_but_next_set _ l.tail thr)

/-- What a successful `thread_spawn` leaves in the record of the child, up to
`list_next`. -/
theorem thread_spawn_record {P : Platform} {s s1 : KState} {name : String} {start arg : Nat}
    {child : Ptr} {stack_page : Int} {tid : Int}
    (h : thread_spawn P s name start arg child stack_page = .ok (s1, tid)) :
    child ≠ Ptr.NULL ∧ s.CURTHR ≠ Ptr.NULL ∧ tid = spawn_scan s.thrtab NTHR.toNat 0 ∧
    tid ≠ NTHR ∧
    s1.thrtab = Function.update s.thrtab tid child ∧ s1.CURTHR = s.CURTHR ∧
    s1.conds = s.conds ∧ s1.procs = s.procs ∧
    same_but_next (spawn_mem P s name child stack_page tid) s1.mem ∧
    (∃ rl, tlinsert (spawn_mem P s name child stack_page tid) s.ready_list child =
      .ok (s1.mem, rl) ∧ s1.ready_list = rl) := by
  have h1 : spawn_scan s.thrtab NTHR.toNat 0 ≠ NTHR := by
    intro e; unfold thread_spawn at h; simp [e] at h
  have h2 : child ≠ Ptr.NULL := by
    intro e; unfold thread_spawn at h; simp [h1, e] at h
  have h3 : s.CURTHR ≠ Ptr.NULL := by
    intro e; unfold thread_spawn at h; simp [h1, h2, e] at h
  rw [thread_spawn_eq P s name start arg child stack_page h2 h3 h1] at h
  split at h
  · cases h
  · rename_i mem8 rl heq
    simp only [Except.ok.injEq, Prod.mk.injEq] at h
    obtain ⟨ha, hb⟩ := h
    subst ha hb
    exact ⟨h2, h3, rfl, h1, rfl, rfl, rfl, rfl, tlinsert_same_but_next heq, rl, heq, rfl⟩

/-- C19 (code): `thread_spawn` sets `stack_base` to the anchor address, which is
`ANCHOR_SIZE` below the end of the page, so the page from `memory_alloc_page`
is `stack_base - stack_size`; the scheduler pass that sees the thread EXITED
and resumes a thread that had been suspended in `suspend_self` frees
`stack_base - PAGE_SIZE`, which is `ANCHOR_SIZE` below that page.  In the run
below the page is 0x80200000, the thread resumed is MAIN, and the address freed
is 0x801ffff0. -/
theorem exited_stack_free_address :
    (∀ (P : Platform) (s s1 : KState) (name : String) (start arg : Nat) (child : Ptr)
        (stack_page tid : Int),
      thread_spawn P s name start arg child stack_page = .ok (s1, tid) →
      (s1.mem child).stack_base - (s1.mem child).stack_size = stack_page ∧
      (s1.mem child).stack_base - P.PAGE_SIZE = stack_page - P.ANCHOR_SIZE) ∧
    (∀ (P : Platform) (s : KState) (t : Ptr) (r : List Ptr),
      s.CURTHR ≠ Ptr.NULL → is_list s.mem s.ready_list (t :: r) →
      (s.mem t).state = thread_state.THREAD_READY →
      (s.mem s.CURTHR).state = thread_state.THREAD_EXITED → s.CURTHR ≠ t →
      s.context t = thread_context.in_swtch →
      ∃ s1, suspend_self P s = .ok s1 ∧
        s1.calls.getLast? =
          some (ext_call.memory_free_page ((s.mem s.CURTHR).stack_base - P.PAGE_SIZE))) ∧
    (thread_spawn demo_platform started "t1" 0 0 (Ptr.heap 1) 0x80200000).toOption.map
      (fun r => (r.2, (r.1.mem (Ptr.heap 1)).stack_base, (r.1.mem (Ptr.heap 1)).stack_size)) =
      some (1, 0x80200ff0, 0xff0) ∧
    with_exited_child.calls.getLast? = some (ext_call.memory_free_page 0x801ffff0) := by
  refine ⟨?_, ?_, rfl, by decide⟩
  · intro P s s1 name start arg child stack_page tid h
    obtain ⟨_, _, _, _, _, _, _, _, hs, _⟩ := thread_spawn_record h
    have hb := strip_stack_base (hs child)
    have hz : (s1.mem child).stack_size =
        (spawn_mem P s name child stack_page tid child).stack_size :=
      (congrArg thread.stack_size (hs child) :
        (strip (s1.mem child)).stack_size = (strip _).stack_size)
    rw [hb, hz]
    simp only [spawn_mem, Function.update_same]
    constructor <;> ring
  · intro P s t r h1 h2 h3 h4 h5 h6
    obtain ⟨s1, e, _, _, _, _, _, _, _, _, _, hl, _⟩ :=
      suspend_self_exited P s t r h1 h2 h3 h4 h5
    exact ⟨s1, e, (hl h6).2⟩

/-! ## The two-producers scenario -/

/-- C14 (as stated, refuted): in the two-producers scenario the thread that
gets the CPU when MAIN suspends in its first `thread_join_any` is the idle
thread, which `init_idle_thread` put on the ready list before T1 and T2 were
spawned, and not T1; the run comes to its end within 100 calls. -/
theorem two_producers_idle_runs_first :
    (machine.run demo_platform 100 (machine.boot two_producers)).toOption.map
        (fun r => (r.1.cpu.take 5, r.2)) =
      some ([Ptr.main_thread, Ptr.idle_thread, Ptr.heap 1, Ptr.heap 2, Ptr.idle_thread], true) ∧
    (machine.run demo_platform 100 (machine.boot two_producers)).toOption.map
        (fun r => r.1.cpu.take 5) ≠
      some [Ptr.main_thread, Ptr.heap 1, Ptr.heap 2, Ptr.idle_thread, Ptr.main_thread] := by
  decide!

/-- C14 (amended): in the two-producers scenario the CPU goes from MAIN to the
idle thread, then four times through T1, T2, IDLE (three yields and the exit of
each producer), and then back to MAIN, which does not run in between since it
waits on its `child_exit` condition until T1 exits; the two calls of
`thread_join_any` return 1 and then 2, the run ends with MAIN running, and the
slots of T1 and T2 are free again. -/
theorem two_producers_schedule :
    (machine.run demo_platform 100 (machine.boot two_producers)).toOption.map
        (fun r => r.1.cpu) =
      some [Ptr.main_thread,
        Ptr.idle_thread, Ptr.heap 1, Ptr.heap 2,
        Ptr.idle_thread, Ptr.heap 1, Ptr.heap 2,
        Ptr.idle_thread, Ptr.heap 1, Ptr.heap 2,
        Ptr.idle_thread, Ptr.heap 1, Ptr.heap 2,
        Ptr.idle_thread, Ptr.main_thread] ∧
    (machine.run demo_platform 100 (machine.boot two_producers)).toOption.map
        (fun r => (r.1.rets, r.2, r.1.k.CURTHR, r.1.k.thrtab 1, r.1.k.thrtab 2)) =
      some ([(Ptr.main_thread, 1), (Ptr.main_thread, 2)], true, Ptr.main_thread,
        Ptr.NULL, Ptr.NULL) := by
  constructor <;> decide!

/-! ## The condition-wakeup scenario -/

/-- C15 (as stated, refuted): in the condition-wakeup scenario MAIN broadcasts
on C before T1 has run, so the broadcast finds no waiter; MAIN then blocks in
`thread_join`, T1 runs and blocks in `condition_wait`, and the run ends with the
idle thread running on an empty ready list: `thread_join` has returned nothing,
MAIN is still inside it, and T1 keeps its slot. -/
theorem condition_wakeup_is_lost :
    (machine.run demo_platform 100 (machine.boot condition_wakeup)).toOption.map
        (fun r => (r.1.cpu, r.1.rets, r.2, r.1.k.CURTHR)) =
      some ([Ptr.main_thread, Ptr.idle_thread, Ptr.heap 1, Ptr.idle_thread], [], true,
        Ptr.idle_thread) ∧
    (machine.run demo_platform 100 (machine.boot condition_wakeup)).toOption.map
        (fun r => (r.1.k.thrtab 1, r.1.pend Ptr.main_thread,
          (r.1.k.mem Ptr.main_thread).state, (r.1.k.mem (Ptr.heap 1)).state,
          tlempty r.1.k.ready_list)) =
      some (Ptr.heap 1, pending.in_join (Ptr.heap 1) 1, thread_state.THREAD_WAITING,
        thread_state.THREAD_WAITING, true) := by
  constructor <;> decide!

/-- C15 (amended): when MAIN calls `thread_yield` between the spawn and the
broadcast, T1 is waiting on C when the broadcast is made; then `thread_join`
returns T1's tid 1, the run ends with MAIN running, and T1's slot is free. -/
theorem condition_wakeup_after_yield_joins :
    (machine.run demo_platform 100 (machine.boot condition_wakeup_after_yield)).toOption.map
        (fun r => (r.1.cpu, r.1.rets, r.2, r.1.k.CURTHR, r.1.k.thrtab 1)) =
      some ([Ptr.main_thread, Ptr.idle_thread, Ptr.heap 1, Ptr.main_thread, Ptr.idle_thread,
        Ptr.heap 1, Ptr.idle_thread, Ptr.main_thread], [(Ptr.main_thread, 1)], true,
        Ptr.main_thread, Ptr.NULL) := by
  decide!

/-! ## The scheduler invariant -/

end Thread
